import Mathlib

/-!
# kafka_observability: the order-to-payment pipeline

A shallow embedding of the messaging layer (`internal/kafka`), the order
service (`internal/order`), the payment confirmation service
(`internal/payment`), the two topic handlers (`cmd/consumer`) and the topic
provisioning at the start of `cmd/order-api`.

Conventions of the embedding

* Go `string` and `[]byte` are both modelled by Lean `String`; the
  conversions `[]byte(s)` and `string(b)` keep the content and are the
  identity here. The part on `encoding/json` refines this: there a Go string
  may also hold bytes that are not valid UTF-8.
* `int64` values are `Int`; no arithmetic is done on them by the code below.
* Every call into a library (broker reader, writer and admin connection,
  `encoding/json`, `math/rand/v2`, `time`, the OpenTelemetry propagator and
  baggage) takes its answer from an explicit environment, and the calls that
  matter are recorded in order.
* Tracing spans only decorate the control flow and are left out.
-/

namespace KafkaObservability

/-! ## Errors, contexts, baggage -/

/-- Go `error` values. `ErrPaymentDeclined` is the package-level sentinel of
`internal/order`; `external` is an error handed back by a library; `wrapf p e`
is `fmt.Errorf(p + ": %w", e)`. A `nil` error is `none : Option Error`. -/
inductive Error where
  | ErrPaymentDeclined : Error
  | external (msg : String) : Error
  | wrapf (pfx : String) (inner : Error) : Error
  deriving DecidableEq, Repr

/-- The chain walked by `errors.Is`: the error itself, then what it wraps. -/
def Error.Is : Error → Error → Bool
  | .wrapf p e, target => decide (Error.wrapf p e = target) || Error.Is e target
  | e, target => decide (e = target)

/-- One baggage member (`baggage.Member`): its key and its value. -/
structure Member where
  key : String
  value : String
  deriving DecidableEq, Repr

/-- The value of a member, `Member.Value()`. -/
def Member.Value (m : Member) : String := m.value

/-- An OpenTelemetry baggage: members, looked up by key. -/
structure Baggage where
  list : List Member
  deriving DecidableEq, Repr

/-- Go `Baggage.Member(key)`: the member stored under `key`, and the zero member
(empty key, empty value) when there is none. -/
def Baggage.Member (b : Baggage) (key : String) : Member :=
  match b.list.find? (fun m => m.key == key) with
  | some m => m
  | none => ⟨"", ""⟩

/-- What the code reads from a `context.Context` value: the baggage attached to
it and the identity of the trace it belongs to. Cancellation is not part of the
value; it is state of the world, see `Ambient.ctxErr`. -/
structure Context where
  baggage : Baggage
  traceparent : String
  deriving DecidableEq, Repr

/-- Go `baggage.FromContext(ctx)`. -/
def baggage.FromContext (ctx : Context) : Baggage := ctx.baggage

/-- Go `baggage.ContextWithBaggage(ctx, bag)`. -/
def baggage.ContextWithBaggage (ctx : Context) (bag : Baggage) : Context :=
  { ctx with baggage := bag }

/-- A `time.Time` reading, as nanoseconds since the epoch. -/
structure Time where
  unixNano : Int
  deriving DecidableEq, Repr

/-! ## internal/models -/

namespace models

/-- Go `models.Order`. -/
structure Order where
  ID : String
  CustomerID : String
  Items : List String
  TotalCents : Int
  CreatedAt : Time
  deriving DecidableEq, Repr

/-- Go `models.Payment`. -/
structure Payment where
  OrderID : String
  CustomerID : String
  TotalCents : Int
  Status : String
  ConfirmedAt : Time
  deriving DecidableEq, Repr

end models

/-- The values handed to `Producer.Publish` as `value any`. -/
inductive Record where
  | order (o : models.Order) : Record
  | payment (p : models.Payment) : Record
  deriving DecidableEq, Repr

/-! ## internal/kafka -/

namespace kafka

/-- Go `kafka.Header`. -/
structure Header where
  Key : String
  Value : String
  deriving DecidableEq, Repr

/-- Go `kafka.Message`, with the fields the code reads or writes. -/
structure Message where
  Topic : String
  Partition : Int
  Offset : Int
  Key : String
  Value : String
  Headers : List Header
  Time : Time
  deriving DecidableEq, Repr

/-- Go `kafkaHeaderCarrier`: a view over a header list. -/
structure kafkaHeaderCarrier where
  headers : List Header
  deriving DecidableEq, Repr

/-- Go `kafkaHeaderCarrier.Get`: the value of the first header with that key,
the empty string when no header has it. -/
def kafkaHeaderCarrier.Get (c : kafkaHeaderCarrier) (key : String) : String :=
  match c.headers.find? (fun h => h.Key == key) with
  | some h => h.Value
  | none => ""

/-- Go `kafkaHeaderCarrier.Set`: append one header. -/
def kafkaHeaderCarrier.Set (c : kafkaHeaderCarrier) (key value : String) : kafkaHeaderCarrier :=
  ⟨c.headers ++ [⟨key, value⟩]⟩

/-- Go `kafkaHeaderCarrier.Keys`: the key of every header, in order. -/
def kafkaHeaderCarrier.Keys (c : kafkaHeaderCarrier) : List String :=
  c.headers.map (fun h => h.Key)

end kafka

/-- The observable calls made by the code, in the order they are made. -/
inductive Effect where
  | randFloat64 : Effect
  | randIntN (n : Nat) : Effect
  | uuidNewString : Effect
  | sleep (ms : Nat) : Effect
  | OrdersCreatedAdd (n : Int) (status : String) : Effect
  | OrderValueCentsRecord (v : Int) : Effect
  | MessagesConsumedAdd (n : Int) (customerID : String) : Effect
  | ProcessingTimeRecord (ms : Nat) (customerID : String) : Effect
  | PaymentsConfirmedAdd (n : Int) : Effect
  | Publish (key : String) (value : Record) : Effect
  | WriteMessages (msg : kafka.Message) : Effect
  | logInfo (msg : String) : Effect
  | logWarn (msg : String) : Effect
  | logError (msg : String) : Effect
  deriving DecidableEq, Repr

namespace kafka

/-- What a `Producer` is made of: its topic and the libraries it calls.
`jsonMarshal` is `json.Marshal`; `Inject` lists the header pairs the global
propagator sets on the carrier for a context; `WriteMessages` is the answer of
the synchronous, acknowledged broker write; `now` is `time.Now()`. -/
structure Producer where
  topic : String
  jsonMarshal : Record → Except Error String
  Inject : Context → List (String × String)
  WriteMessages : Message → Option Error
  now : Time

/-- Go `Producer.Publish(ctx, key, value)`: the returned error and the calls made. -/
def Producer.Publish (p : Producer) (ctx : Context) (key : String) (value : Record) :
    Option Error × List Effect :=
  match p.jsonMarshal value with
  | .error err => (some (.wrapf "failed to serialize message" err), [])
  | .ok data =>
    let carrier := (p.Inject ctx).foldl (fun c kv => c.Set kv.1 kv.2) (⟨[]⟩ : kafkaHeaderCarrier)
    let msg : Message :=
      { Topic := "", Partition := 0, Offset := 0
        Key := key, Value := data, Headers := carrier.headers, Time := p.now }
    match p.WriteMessages msg with
    | some err => (some (.wrapf "failed to publish message" err), [.WriteMessages msg])
    | none => (none, [.WriteMessages msg])

/-- Go `HandlerFunc`: a handler is given the message context, the key and the
value, answers with an error or `nil`, and may change the world. -/
abbrev HandlerFunc (σ : Type) := Context → String → String → σ → Option Error × σ

/-- The two operations of `kafka.Reader` that `Listen` uses, over a world `σ`. -/
structure Reader (σ : Type) where
  FetchMessage : σ → Except Error Message × σ
  CommitMessages : Message → σ → Option Error × σ

/-- Go `Consumer`. -/
structure Consumer (σ : Type) where
  reader : Reader σ
  groupID : String
  topic : String

/-- What `Listen` reads besides its reader: `ctx.Err()` on the context it was
given, and the global propagator's `Extract`. -/
structure Ambient (σ : Type) where
  ctxErr : σ → Option Error
  Extract : Context → kafkaHeaderCarrier → Context

/-- The calls `Listen` makes, each with what it answered. -/
inductive Call where
  | FetchMessage (res : Except Error Message) : Call
  | handler (ctx : Context) (key value : String) (res : Option Error) : Call
  | CommitMessages (msg : Message) (res : Option Error) : Call

/-- A run of `Listen`: `result = none` while the loop is still going when the
iteration budget ends, `some r` once `Listen` has returned `r` (`some none` is a
`nil` error). -/
structure Run (σ : Type) where
  result : Option (Option Error)
  state : σ
  calls : List Call

/-- Go `Consumer.Listen(ctx, handler)`, one loop iteration per unit of fuel. -/
def Consumer.Listen {σ : Type} (c : Consumer σ) (A : Ambient σ) (ctx : Context)
    (handler : HandlerFunc σ) : Nat → σ → Run σ
  | 0, s => ⟨none, s, []⟩
  | fuel + 1, s =>
    match c.reader.FetchMessage s with
    | (.error err, s1) =>
      if (A.ctxErr s1).isSome then
        ⟨some none, s1, [.FetchMessage (.error err)]⟩
      else
        ⟨some (some (.wrapf "failed to fetch message" err)), s1, [.FetchMessage (.error err)]⟩
    | (.ok msg, s1) =>
      let carrier : kafkaHeaderCarrier := ⟨msg.Headers⟩
      let msgCtx := A.Extract ctx carrier
      match handler msgCtx msg.Key msg.Value s1 with
      | (some err, s2) =>
        let r := Consumer.Listen c A ctx handler fuel s2
        ⟨r.result, r.state,
          [.FetchMessage (.ok msg), .handler msgCtx msg.Key msg.Value (some err)] ++ r.calls⟩
      | (none, s2) =>
        match c.reader.CommitMessages msg s2 with
        | (some err, s3) =>
          ⟨some (some (.wrapf "failed to commit offset" err)), s3,
            [.FetchMessage (.ok msg), .handler msgCtx msg.Key msg.Value none,
             .CommitMessages msg (some err)]⟩
        | (none, s3) =>
          let r := Consumer.Listen c A ctx handler fuel s3
          ⟨r.result, r.state,
            [.FetchMessage (.ok msg), .handler msgCtx msg.Key msg.Value none,
             .CommitMessages msg none] ++ r.calls⟩

end kafka

/-! ## internal/order -/

namespace order

/-- A finite, non-negative `float64` written as `num / 2 ^ exp`. Every double
is such a number, and the two below are given with their exact numerators. -/
structure Float64 where
  num : Nat
  exp : Nat
  deriving DecidableEq, Repr

/-- The number a `Float64` stands for. -/
def Float64.toRat (x : Float64) : ℚ := (x.num : ℚ) / 2 ^ x.exp

/-- The comparison `x < y` of two doubles; it is exact, so it is the comparison
of the two numbers, done here by cross-multiplication. -/
def Float64.lt (x y : Float64) : Bool := decide (x.num * 2 ^ y.exp < y.num * 2 ^ x.exp)

/-- Go `rand.Float64()` of `math/rand/v2`, from the 64-bit draw `u` behind it:
`float64(u<<11>>11) / (1<<53)`. The integer has at most 53 bits, so the
conversion and the division by a power of two are exact. -/
def randFloat64 (u : Nat) : Float64 :=
  { num := (u % 2 ^ 64) * 2 ^ 11 % 2 ^ 64 / 2 ^ 11, exp := 53 }

/-- The `float64` that the Go constant `0.2` denotes in `rand.Float64() < 0.2`:
the double nearest to one fifth, `0x3FC999999999999A`, which is
`3602879701896397 / 2 ^ 54`. -/
def float64_0_2 : Float64 := { num := 3602879701896397, exp := 54 }

/-- The table of `encoding/hex`. -/
def hextable : List Char :=
  ['0', '1', '2', '3', '4', '5', '6', '7', '8', '9', 'a', 'b', 'c', 'd', 'e', 'f']

/-- Go `hex.Encode`: two lower-case hexadecimal digits per byte. -/
def hexEncode : List Nat → List Char
  | [] => []
  | v :: rest => hextable.getD (v >>> 4) '0' :: hextable.getD (v &&& 0x0f) '0' :: hexEncode rest

/-- Go `uuid.NewRandom` of `github.com/google/uuid`, from the random bytes it
reads: sixteen bytes, with the version (4) and variant (10) bits set. -/
def uuidNewRandom (rnd : List Nat) : List Nat :=
  let u := (List.range 16).map (fun i => rnd.getD i 0 % 256)
  let u := u.set 6 ((u.getD 6 0 &&& 0x0f) ||| 0x40)
  u.set 8 ((u.getD 8 0 &&& 0x3f) ||| 0x80)

/-- Go `UUID.String()`: the form `xxxxxxxx-xxxx-xxxx-xxxx-xxxxxxxxxxxx`. -/
def uuidEncodeHex (u : List Nat) : List Char :=
  hexEncode (u.take 4) ++ '-' :: hexEncode ((u.drop 4).take 2) ++ '-' ::
    hexEncode ((u.drop 6).take 2) ++ '-' :: hexEncode ((u.drop 8).take 2) ++ '-' ::
    hexEncode (u.drop 10)

/-- Go `uuid.NewString()`. -/
def uuidNewString (rnd : List Nat) : String := String.mk (uuidEncodeHex (uuidNewRandom rnd))

/-- Go `ErrPaymentDeclined`. -/
def ErrPaymentDeclined : Error := Error.ErrPaymentDeclined

/-- What one request draws from outside: the 64-bit draw behind
`rand.Float64()`, the random bytes behind `uuid.NewString()`, `time.Now()`, and
`baggage.NewMember(key, value)` of OpenTelemetry, which validates the pair and
percent-decodes the value: the member it builds, or `none` when it returns an
error. -/
structure Env where
  Uint64 : Nat
  random16 : List Nat
  now : Time
  NewMember : String → String → Option Member

/-- Go `UseCase` of `internal/order`. -/
structure UseCase where
  producer : kafka.Producer
  env : Env

/-- Go `UseCase.PlaceOrder(ctx, customerID, items, totalCents)`: the returned pair
`(*models.Order, error)` and the calls made. -/
def UseCase.PlaceOrder (uc : UseCase) (ctx : Context) (customerID : String)
    (items : List String) (totalCents : Int) :
    (Option models.Order × Option Error) × List Effect :=
  let declined := (randFloat64 uc.env.Uint64).lt float64_0_2
  if declined then
    ((none, some ErrPaymentDeclined), [.randFloat64, .OrdersCreatedAdd 1 "declined"])
  else
    let order : models.Order :=
      { ID := uuidNewString uc.env.random16
        CustomerID := customerID
        Items := items
        TotalCents := totalCents
        CreatedAt := uc.env.now }
    match uc.producer.Publish ctx order.ID (.order order) with
    | (some err, w) =>
      ((none, some err),
        [.randFloat64, .uuidNewString, .Publish order.ID (.order order)] ++ w ++
          [.OrdersCreatedAdd 1 "error"])
    | (none, w) =>
      ((some order, none),
        [.randFloat64, .uuidNewString, .Publish order.ID (.order order)] ++ w ++
          [.OrdersCreatedAdd 1 "ok", .OrderValueCentsRecord totalCents, .logInfo "order placed"])

/-- Go `createOrderRequest`. -/
structure createOrderRequest where
  CustomerID : String
  Items : List String
  TotalCents : Int
  deriving DecidableEq, Repr

/-- The JSON body of an answer: `fiber.Map` with one `error` entry, or the
order returned by the use case. -/
inductive Body where
  | error (msg : String) : Body
  | order (o : Option models.Order) : Body
  deriving DecidableEq, Repr

/-- An HTTP answer: status code and body. -/
structure Response where
  status : Nat
  body : Body
  deriving DecidableEq, Repr

/-- The baggage built by `baggage.New(member)` from what `baggage.NewMember`
returned, both errors dropped as the controller does: the one member, or an
empty baggage when the member was refused. -/
def baggageNew (member : Option Member) : Baggage :=
  match member with
  | some m => ⟨[m]⟩
  | none => ⟨[]⟩

/-- Go `Controller.Create`, given what `c.BodyParser(&req)` produced. -/
def Controller.Create (uc : UseCase) (ctx : Context) (parsed : Except Error createOrderRequest) :
    Response × List Effect :=
  match parsed with
  | .error _ => (⟨400, .error "invalid body"⟩, [])
  | .ok req =>
    if req.CustomerID = "" ∨ req.Items.length = 0 ∨ req.TotalCents ≤ 0 then
      (⟨400, .error "customer_id, items and total_cents are required"⟩, [])
    else
      let member := uc.env.NewMember "customer_id" req.CustomerID
      let bag := baggageNew member
      let ctx := baggage.ContextWithBaggage ctx bag
      match uc.PlaceOrder ctx req.CustomerID req.Items req.TotalCents with
      | ((_, some err), eff) =>
        if err.Is ErrPaymentDeclined then
          (⟨402, .error "payment declined"⟩, eff ++ [.logWarn "payment declined"])
        else
          (⟨500, .error "internal error"⟩, eff ++ [.logError "failed to place order"])
      | ((order, none), eff) => (⟨201, .order order⟩, eff)

end order

/-! ## internal/payment -/

namespace payment

/-- Go `UseCase.ConfirmPayment(ctx, orderID, customerID, totalCents)`, with `now`
the reading of `time.Now()`: the returned pair `(*models.Payment, error)` and
the calls made. -/
def UseCase.ConfirmPayment (now : Time) (ctx : Context) (orderID customerID : String)
    (totalCents : Int) : (Option models.Payment × Option Error) × List Effect :=
  let bag := baggage.FromContext ctx
  let cid := (bag.Member "customer_id").Value
  let customerID := if cid ≠ "" then cid else customerID
  let payment : models.Payment :=
    { OrderID := orderID
      CustomerID := customerID
      TotalCents := totalCents
      Status := "confirmed"
      ConfirmedAt := now }
  ((some payment, none), [.PaymentsConfirmedAdd 1, .logInfo "payment confirmed"])

end payment

/-! ## cmd/consumer -/

namespace consumer

/-- The package-level handles of `cmd/consumer` that `processOrder` uses, and
what it draws from outside: `json.Unmarshal` into a `models.Order`, the draw of
`rand.IntN(451)` and `time.Now()`. -/
structure Globals where
  paymentProducer : kafka.Producer
  jsonUnmarshalOrder : String → Except Error models.Order
  IntN451 : Nat
  now : Time

/-- Go `processOrder(ctx, key, value)`: the returned error and the calls made. -/
def processOrder (g : Globals) (ctx : Context) (_key value : String) :
    Option Error × List Effect :=
  match g.jsonUnmarshalOrder value with
  | .error err => (some err, [])
  | .ok order =>
    let bag := baggage.FromContext ctx
    let customerID := order.CustomerID
    let cid := (bag.Member "customer_id").Value
    let customerID := if cid ≠ "" then cid else customerID
    let delay := 50 + g.IntN451 % 451
    let payment : models.Payment :=
      { OrderID := order.ID
        CustomerID := customerID
        TotalCents := order.TotalCents
        Status := "confirmed"
        ConfirmedAt := g.now }
    let before : List Effect :=
      [.randIntN 451, .sleep delay, .MessagesConsumedAdd 1 customerID,
       .ProcessingTimeRecord delay customerID, .Publish order.ID (.payment payment)]
    match g.paymentProducer.Publish ctx order.ID (.payment payment) with
    | (some err, w) => (some err, before ++ w)
    | (none, w) => (none, before ++ w ++ [.logInfo "order processed, payment published"])

end consumer

/-! ## Sample inputs -/

namespace sample

/-- A message of topic `orders` at the given offset. -/
def msg (offset : Int) (key value : String) : kafka.Message :=
  { Topic := "orders", Partition := 0, Offset := offset, Key := key, Value := value
    Headers := [], Time := ⟨0⟩ }

/-- The world of `logReader`: the read position, the committed offset and
whether the context has been cancelled. -/
structure LogState where
  pos : Nat
  committed : Option Int
  cancelled : Bool
  deriving DecidableEq, Repr

/-- A reader over a fixed log, in the manner of a `kafka.Reader` bound to a
consumer group. `FetchMessage` hands out the message at the read position and
moves the position forward, whether or not earlier messages were committed; at
the end of the log it fails, after a cancellation when `cancelAtEnd` is set.
`CommitMessages` answers `commitErr` and, on success, stores the offset. -/
def logReader (log : List kafka.Message) (commitErr : Option Error) (cancelAtEnd : Bool) :
    kafka.Reader LogState where
  FetchMessage s :=
    match log.get? s.pos with
    | some m => (.ok m, { s with pos := s.pos + 1 })
    | none => (.error (.external "fetch interrupted"), { s with cancelled := cancelAtEnd })
  CommitMessages m s :=
    match commitErr with
    | some e => (some e, s)
    | none => (none, { s with committed := some m.Offset })

/-- A consumer of topic `orders` over `logReader`. -/
def logConsumer (log : List kafka.Message) (commitErr : Option Error) (cancelAtEnd : Bool) :
    kafka.Consumer LogState :=
  { reader := logReader log commitErr cancelAtEnd, groupID := "order-processor", topic := "orders" }

/-- The surroundings of `Listen` over `LogState`: `ctx.Err()` is set once the
world is cancelled; the propagator leaves the context as it is. -/
def ambient : kafka.Ambient LogState :=
  { ctxErr := fun s => if s.cancelled then some (.external "context canceled") else none
    Extract := fun ctx _ => ctx }

/-- A handler that fails on the value `"bad"` and succeeds on any other. -/
def pickyHandler : kafka.HandlerFunc LogState :=
  fun _ _ value s => (if value = "bad" then some (.external "cannot handle") else none, s)

/-- The context with no baggage. -/
def background : Context := { baggage := ⟨[]⟩, traceparent := "" }

/-- A log of two messages; the handler `pickyHandler` fails on the first. -/
def log2 : List kafka.Message := [msg 0 "k0" "bad", msg 1 "k1" "good"]

/-- A log of one message that `pickyHandler` accepts. -/
def log1 : List kafka.Message := [msg 7 "k7" "good"]

/-- The start of the log, nothing committed, not cancelled. -/
def start : LogState := { pos := 0, committed := none, cancelled := false }

/-- A producer whose serializer renders a record by its key fields and whose
broker write answers `writeErr`. -/
def producer (topic : String) (writeErr : Option Error) : kafka.Producer :=
  { topic := topic
    jsonMarshal := fun r =>
      match r with
      | .order o => .ok (o.ID ++ "," ++ o.CustomerID)
      | .payment p => .ok (p.OrderID ++ "," ++ p.CustomerID)
    Inject := fun ctx => [("traceparent", ctx.traceparent)]
    WriteMessages := fun _ => writeErr
    now := ⟨0⟩ }

/-- A stand-in for `baggage.NewMember` on plain values: a value of letters and
digits is taken as it is, which is what the library does with it; every other
value is refused here. -/
def newMember (key value : String) : Option Member :=
  if value.data.all Char.isAlphanum then some ⟨key, value⟩ else none

/-- An order use case whose gate draw is `u`, whose random bytes are `rnd` and
whose broker write answers `writeErr`. -/
def useCaseWith (u : Nat) (rnd : List Nat) (writeErr : Option Error) : order.UseCase :=
  { producer := producer "orders" writeErr
    env := { Uint64 := u, random16 := rnd, now := ⟨0⟩, NewMember := newMember } }

/-- An order use case whose gate draw is `u` and whose broker write answers
`writeErr`; the random bytes are all zero. -/
def useCase (u : Nat) (writeErr : Option Error) : order.UseCase := useCaseWith u [] writeErr

/-- The handles of the order-topic handler: the payload `"payload"` decodes to
`o`, any other payload is refused; the broker write answers `writeErr`. -/
def globals (o : models.Order) (writeErr : Option Error) : consumer.Globals :=
  { paymentProducer := producer "payments" writeErr
    jsonUnmarshalOrder := fun v =>
      if v = "payload" then .ok o else .error (.external "invalid character")
    IntN451 := 0
    now := ⟨9⟩ }

/-- An order of customer `"Y"`. -/
def orderOfY : models.Order :=
  { ID := "o1", CustomerID := "Y", Items := ["pen"], TotalCents := 500, CreatedAt := ⟨1⟩ }

/-- A context whose baggage carries `customer_id` with the given value. -/
def withCustomer (x : String) : Context :=
  { baggage := ⟨[⟨"customer_id", x⟩]⟩, traceparent := "" }

/-- Sixteen random bytes, as `uuid.NewString()` may read them. -/
def randomBytes : List Nat :=
  [0x12, 0x34, 0x56, 0x78, 0x9a, 0xbc, 0xde, 0xf0, 0x12, 0x34, 0x56, 0x78, 0x9a, 0xbc, 0xde, 0xf0]

/-- The largest 64-bit draw: the gate accepts. -/
def acceptDraw : Nat := 2 ^ 64 - 1

/-- The draw zero: the gate declines. -/
def declineDraw : Nat := 0

end sample

/-! ## internal/kafka: topic provisioning -/

namespace kafka

/-- The struct `kafka.TopicConfig`, with the three fields `CreateTopic` sets. -/
structure TopicConfig where
  Topic : String
  NumPartitions : Int
  ReplicationFactor : Int
  deriving DecidableEq, Repr

/-- The error value `kafka.TopicAlreadyExists` of kafka-go (broker error code
36). -/
def TopicAlreadyExists : Error := .external "[36] Topic Already Exists"

/-- What the three library calls of `CreateTopic` return: `DialContext` is the
error of `kafka.DialContext(ctx, "tcp", address)`, `Controller` the host and
port, or the error, of `conn.Controller()`, and `CreateTopics` the error of
`controllerConn.CreateTopics(cfg)`. All three are kafka-go calls; what they
return for a given cluster is not decided by this repository. -/
structure Cluster where
  DialContext : String → Option Error
  Controller : Except Error (String × Int)
  CreateTopics : TopicConfig → Option Error

/-- Go `net.JoinHostPort`: the host is bracketed when it holds a colon. -/
def JoinHostPort (host port : String) : String :=
  if host.contains ':' then "[" ++ host ++ "]:" ++ port
  else host ++ ":" ++ port

/-- Go `CreateTopic(ctx, broker, topic, partitions, replication)`: the returned
error. -/
def CreateTopic (k : Cluster) (broker topic : String) (partitions replication : Int) :
    Option Error :=
  match k.DialContext broker with
  | some err => some (.wrapf "failed to connect to broker" err)
  | none =>
    match k.Controller with
    | .error err => some (.wrapf "failed to get controller" err)
    | .ok controller =>
      match k.DialContext (JoinHostPort controller.1 (toString controller.2)) with
      | some err => some (.wrapf "failed to connect to controller" err)
      | none =>
        match k.CreateTopics
            { Topic := topic, NumPartitions := partitions, ReplicationFactor := replication } with
        | some err => some (.wrapf "failed to create topic" err)
        | none => none

end kafka

/-! ## cmd/order-api: topic provisioning at startup -/

namespace orderapi

/-- The calls of `main` between reading the broker address and building the
producer, each with what it was given and what it answered. -/
inductive StartupCall where
  | CreateTopic (broker topic : String) (partitions replication : Int) (res : Option Error) :
      StartupCall
  | logWarn (msg : String) (err : Error) : StartupCall
  | NewProducer (brokers : List String) (topic : String) : StartupCall
  deriving DecidableEq, Repr

/-- Go `main` of `cmd/order-api`, from `kafka.CreateTopic(ctx, addr, "orders", 3, 1)`
to `kafka.NewProducer([]string{addr}, "orders")`: an error of `CreateTopic` is
logged as a warning and `main` goes on. -/
def main_provision (k : kafka.Cluster) (addr : String) : List StartupCall :=
  match kafka.CreateTopic k addr "orders" 3 1 with
  | some err =>
    [.CreateTopic addr "orders" 3 1 (some err),
     .logWarn "failed to create topic orders (may already exist)" err,
     .NewProducer [addr] "orders"]
  | none =>
    [.CreateTopic addr "orders" 3 1 none, .NewProducer [addr] "orders"]

end orderapi

/-! ## cmd/consumer: the payment-topic handler -/

namespace consumer

/-- An outgoing `http.Request`: method, address, body and header entries. -/
structure Request where
  Method : String
  URL : String
  Body : String
  Header : List (String × String)
  deriving DecidableEq, Repr

/-- An `http.Response`, of which the code reads the status code. -/
structure HttpResponse where
  StatusCode : Int
  deriving DecidableEq, Repr

/-- Go `http.Header.Set`: the entry under the key is replaced by the one value.
The canonical spelling of header names is left out. -/
def headerSet (h : List (String × String)) (key value : String) : List (String × String) :=
  h.filter (fun kv => kv.1 != key) ++ [(key, value)]

/-- The package-level handles of `cmd/consumer` that `processPayment` uses, over
a world `σ`: `json.Unmarshal` into a `models.Payment`; `json.Marshal` of the
three-entry map sent as body (its error is dropped by the code);
`paymentAPIAddr()`; the failure of `http.NewRequestWithContext` on an address it
cannot parse; the header pairs set by `propagator.Inject`; and
`httpClient.Do`. -/
structure PaymentGlobals (σ : Type) where
  jsonUnmarshalPayment : String → Except Error models.Payment
  jsonMarshalBody : String → String → Int → String
  paymentAPIAddr : String
  requestError : String → Option Error
  Inject : Context → List (String × String)
  Do : Request → σ → Except Error HttpResponse × σ

/-- Go `http.StatusOK`. -/
def StatusOK : Int := 200

/-- The request `processPayment` builds for a payment: a `POST` to the confirm
endpoint with the serialized body, the content type set, and the active trace
context injected into the header. -/
def confirmRequest {σ : Type} (g : PaymentGlobals σ) (ctx : Context) (payment : models.Payment) :
    Request :=
  let body := g.jsonMarshalBody payment.OrderID payment.CustomerID payment.TotalCents
  let header := headerSet [] "Content-Type" "application/json"
  let header := (g.Inject ctx).foldl (fun h kv => headerSet h kv.1 kv.2) header
  { Method := "POST", URL := g.paymentAPIAddr ++ "/payments/confirm", Body := body
    Header := header }

/-- Go `processPayment(ctx, key, value)`, as a `HandlerFunc` over the world in
which the HTTP client runs. -/
def processPayment {σ : Type} (g : PaymentGlobals σ) : kafka.HandlerFunc σ :=
  fun ctx _key value s =>
    match g.jsonUnmarshalPayment value with
    | .error err => (some err, s)
    | .ok payment =>
      match g.requestError (g.paymentAPIAddr ++ "/payments/confirm") with
      | some err => (some err, s)
      | none =>
        match g.Do (confirmRequest g ctx payment) s with
        | (.error err, s1) => (some err, s1)
        | (.ok resp, s1) =>
          if resp.StatusCode ≠ StatusOK then
            (some (.external ("payment-api returned " ++ toString resp.StatusCode)), s1)
          else
            (none, s1)

end consumer

namespace sample

/-- A payment of order `o1`. -/
def paymentOfO1 : models.Payment :=
  { OrderID := "o1", CustomerID := "alice", TotalCents := 500, Status := "confirmed"
    ConfirmedAt := ⟨2⟩ }

/-- The handles of the payment-topic handler over `LogState`: every payload but
`"bad"` decodes to `paymentOfO1`, and the HTTP client answers `answer`. -/
def paymentGlobals (answer : Except Error Int) : consumer.PaymentGlobals LogState :=
  { jsonUnmarshalPayment := fun v =>
      if v = "bad" then .error (.external "invalid character") else .ok paymentOfO1
    jsonMarshalBody := fun o c _ => o ++ "," ++ c
    paymentAPIAddr := "http://localhost:8081"
    requestError := fun _ => none
    Inject := fun ctx => [("traceparent", ctx.traceparent)]
    Do := fun _ s =>
      match answer with
      | .error e => (.error e, s)
      | .ok code => (.ok ⟨code⟩, s) }

/-- A cluster whose dials succeed, whose controller is `kafka:9093`, and whose
create call returns `answer`. -/
def cluster (answer : Option Error) : kafka.Cluster :=
  { DialContext := fun _ => none
    Controller := .ok ("kafka", 9093)
    CreateTopics := fun _ => answer }

end sample

/-! ## encoding/json, as far as `models.Order` needs it

`Producer.Publish` serializes with `json.Marshal` and `processOrder` reads with
`json.Unmarshal`. Both are Go library code; what follows renders, after the
library, the part of them that a `models.Order` goes through: string literals,
`int64` numbers, arrays of strings, and `time.Time` in RFC 3339. JSON text is a
list of characters. -/

namespace json

/-- One step of reading a Go string the way `utf8.DecodeRune` and a `range` loop
read it: a validly encoded code point, or a byte that belongs to no valid
encoding (read as `RuneError` of width 1). -/
inductive Piece where
  | rune (c : Char) : Piece
  | invalid (b : Nat) : Piece
  deriving DecidableEq, Repr

/-- A Go `string` as a sequence of such steps. The strings of valid UTF-8 are
the ones made of `rune` steps only; they are the Lean strings. -/
abbrev GoString := List Piece

/-- The Go string holding the given text, validly encoded. -/
def GoString.ofChars (l : List Char) : GoString := l.map Piece.rune

/-- Whether a step is a validly encoded code point. -/
def Piece.isRune : Piece → Bool
  | .rune _ => true
  | .invalid _ => false

/-- The double quote. -/
def quote : Char := Char.ofNat 0x22

/-- The backslash. -/
def backslash : Char := Char.ofNat 0x5c

/-- The table `hex` of `encoding/json`: the lower-case digit of a nibble. -/
def hexDigit (n : Nat) : Char :=
  if n < 10 then Char.ofNat (48 + n) else Char.ofNat (87 + n)

/-- The table `htmlSafeSet` of `encoding/json`: the ASCII characters written as
they are, which is all from the space on but the double quote, the backslash,
`<`, `>` and `&`. -/
def htmlSafeSet (n : Nat) : Bool :=
  decide (0x20 ≤ n ∧ n < 0x80 ∧ n ≠ 0x22 ∧ n ≠ 0x5c ∧ n ≠ 0x3c ∧ n ≠ 0x3e ∧ n ≠ 0x26)

/-- What `appendString` of `encoding/json` (with HTML escaping on, as
`json.Marshal` has it) writes for one validly encoded code point; `b >> 4` and
`b & 0xF` are written as quotient and remainder by 16. -/
def appendRune (c : Char) : List Char :=
  if c.toNat < 0x80 then
    if htmlSafeSet c.toNat then [c]
    else if c.toNat = 0x5c ∨ c.toNat = 0x22 then [backslash, c]
    else if c.toNat = 0x08 then [backslash, 'b']
    else if c.toNat = 0x0c then [backslash, 'f']
    else if c.toNat = 0x0a then [backslash, 'n']
    else if c.toNat = 0x0d then [backslash, 'r']
    else if c.toNat = 0x09 then [backslash, 't']
    else [backslash, 'u', '0', '0', hexDigit (c.toNat / 16), hexDigit (c.toNat % 16)]
  else if c.toNat = 0x2028 ∨ c.toNat = 0x2029 then
    [backslash, 'u', '2', '0', '2', hexDigit (c.toNat % 16)]
  else [c]

/-- What `appendString` writes for one step: an invalid byte is written as the
escape of U+FFFD. -/
def appendPiece : Piece → List Char
  | .rune c => appendRune c
  | .invalid _ => [backslash, 'u', 'f', 'f', 'f', 'd']

/-- What `appendString` writes between the quotes. -/
def appendPieces : GoString → List Char
  | [] => []
  | p :: s => appendPiece p ++ appendPieces s

/-- Go `appendString` of `encoding/json`: the JSON string literal of a Go
string. -/
def appendString (s : GoString) : List Char :=
  quote :: (appendPieces s ++ [quote])

/-- The value of one hexadecimal digit, either case, as `strconv.ParseUint`
reads the four digits of an escape. -/
def unhex (c : Char) : Option Nat :=
  if 48 ≤ c.toNat ∧ c.toNat ≤ 57 then some (c.toNat - 48)
  else if 97 ≤ c.toNat ∧ c.toNat ≤ 102 then some (c.toNat - 87)
  else if 65 ≤ c.toNat ∧ c.toNat ≤ 70 then some (c.toNat - 55)
  else none

/-- Go `getu4` of `encoding/json`: the number written by the four hexadecimal
digits of an escape. -/
def getu4 (a b c d : Char) : Option Nat :=
  match unhex a, unhex b, unhex c, unhex d with
  | some x, some y, some z, some w => some (((x * 16 + y) * 16 + z) * 16 + w)
  | _, _, _, _ => none

/-- The code point U+FFFD, `unicode.ReplacementChar`. -/
def replacementChar : Char := Char.ofNat 0xFFFD

/-- Go `utf16.IsSurrogate`. -/
def isSurrogate (r : Nat) : Bool := decide (0xD800 ≤ r ∧ r < 0xE000)

/-- Go `utf16.DecodeRune`: the code point of a surrogate pair, U+FFFD when the
two halves do not form one. -/
def utf16DecodeRune (r1 r2 : Nat) : Char :=
  if 0xD800 ≤ r1 ∧ r1 < 0xDC00 ∧ 0xDC00 ≤ r2 ∧ r2 < 0xE000 then
    Char.ofNat ((r1 - 0xD800) * 0x400 + (r2 - 0xDC00) + 0x10000)
  else replacementChar

/-- The one-letter escapes a JSON string may hold and what they stand for. -/
def simpleEscape (e : Char) : Option Char :=
  if e.toNat = 0x22 ∨ e.toNat = 0x5c ∨ e.toNat = 0x2f then some e
  else if e = 'b' then some (Char.ofNat 0x08)
  else if e = 'f' then some (Char.ofNat 0x0c)
  else if e = 'n' then some (Char.ofNat 0x0a)
  else if e = 'r' then some (Char.ofNat 0x0d)
  else if e = 't' then some (Char.ofNat 0x09)
  else none

/-- The outcome of reading one item of a string literal: the closing quote, one
character of the value, or a malformed literal. -/
inductive Step where
  | done (rest : List Char) : Step
  | emit (c : Char) (rest : List Char) : Step
  | fail : Step

/-- One round of the loop of `unquoteBytes` of `encoding/json`, on a literal the
scanner accepts: the closing quote ends the literal; an escape gives its
character, a surrogate escape being joined with the one after it when they
form a pair and read as U+FFFD otherwise; a control character is refused; any
other character stands for itself. -/
def unquoteStep : List Char → Step
  | [] => .fail
  | c :: rest =>
    if c.toNat = 0x22 then .done rest
    else if c.toNat = 0x5c then
      match rest with
      | [] => .fail
      | e :: rest1 =>
        if e = 'u' then
          match rest1 with
          | a :: b :: c2 :: d :: rest2 =>
            match getu4 a b c2 d with
            | none => .fail
            | some rr =>
              if isSurrogate rr then
                match rest2 with
                | bs :: u :: a2 :: b2 :: c3 :: d2 :: rest3 =>
                  if bs.toNat = 0x5c ∧ u = 'u' then
                    match getu4 a2 b2 c3 d2 with
                    | some rr1 =>
                      if utf16DecodeRune rr rr1 ≠ replacementChar then
                        .emit (utf16DecodeRune rr rr1) rest3
                      else .emit replacementChar rest2
                    | none => .emit replacementChar rest2
                  else .emit replacementChar rest2
                | _ => .emit replacementChar rest2
              else .emit (Char.ofNat rr) rest2
          | _ => .fail
        else
          match simpleEscape e with
          | some ch => .emit ch rest1
          | none => .fail
    else if c.toNat < 0x20 then .fail
    else .emit c rest

/-- The loop of `unquoteBytes`, one character of the value per unit of fuel. -/
def unquoteLoop : Nat → List Char → Option (List Char × List Char)
  | 0, _ => none
  | fuel + 1, s =>
    match unquoteStep s with
    | .done rest => some ([], rest)
    | .emit c rest =>
      match unquoteLoop fuel rest with
      | some (t, rest') => some (c :: t, rest')
      | none => none
    | .fail => none

/-- Reads one JSON string literal from the front of a text: the value and the
text after the closing quote. -/
def unquote (s : List Char) : Option (List Char × List Char) :=
  match s with
  | c :: rest => if c.toNat = 0x22 then unquoteLoop rest.length rest else none
  | [] => none

/-- The decimal digit of a number below ten. -/
def digitChar (d : Nat) : Char := Char.ofNat (48 + d)

/-- Whether a character is a decimal digit. -/
def isDigit (c : Char) : Bool := decide (48 ≤ c.toNat ∧ c.toNat ≤ 57)

/-- The number a decimal digit stands for. -/
def digitVal (c : Char) : Nat := c.toNat - 48

/-- The number written by a list of decimal digits. -/
def atoi (l : List Char) : Nat := l.foldl (fun acc c => acc * 10 + digitVal c) 0

/-- The loop of `strconv.FormatUint` in base ten: digits are put in front of
what is already written, least significant first. -/
def formatUintLoop : Nat → Nat → List Char → List Char
  | 0, _, acc => acc
  | fuel + 1, n, acc =>
    if n < 10 then digitChar n :: acc
    else formatUintLoop fuel (n / 10) (digitChar (n % 10) :: acc)

/-- The decimal digits of a natural number. -/
def formatUint (n : Nat) : List Char := formatUintLoop (n + 1) n []

/-- Go `strconv.AppendInt(dst, i, 10)`, which `encoding/json` calls for an
`int64`. -/
def AppendInt (i : Int) : List Char :=
  if i < 0 then '-' :: formatUint i.natAbs else formatUint i.toNat

/-- The least `int64`. -/
def int64Min : Int := -9223372036854775808

/-- The greatest `int64`. -/
def int64Max : Int := 9223372036854775807

/-- A JSON number read into an `int64` field: an optional minus sign and
digits without a leading zero; a fraction or an exponent, which
`strconv.ParseInt` refuses, and a value outside the `int64` range are errors. -/
def parseInt64 (s : List Char) : Option (Int × List Char) :=
  let neg : Bool := decide (s.head? = some '-')
  let body := if neg then s.tail else s
  let ds := body.takeWhile isDigit
  let rest := body.dropWhile isDigit
  if ds = [] then none
  else if 1 < ds.length ∧ ds.head? = some '0' then none
  else if rest.head? = some '.' ∨ rest.head? = some 'e' ∨ rest.head? = some 'E' then none
  else
    let v : Int := if neg then -(atoi ds : Int) else (atoi ds : Int)
    if int64Min ≤ v ∧ v ≤ int64Max then some (v, rest) else none
/-- Go `isSpace` of `encoding/json`: space, tab, carriage return, line feed. -/
def isSpace (c : Char) : Bool :=
  decide (c.toNat = 0x20 ∨ c.toNat = 0x09 ∨ c.toNat = 0x0d ∨ c.toNat = 0x0a)

/-- Drops the insignificant white space at the front of a text. -/
def skipWs (s : List Char) : List Char := s.dropWhile isSpace

/-- Removes a literal from the front of a text, when the text starts with it. -/
def stripLit : List Char → List Char → Option (List Char)
  | [], s => some s
  | _ :: _, [] => none
  | c :: lit, d :: s => if c = d then stripLit lit s else none

/-- The JSON literal `null`. -/
def nullLit : List Char := ['n', 'u', 'l', 'l']

/-- The elements of a JSON array of strings, separated by commas. -/
def appendElems : List GoString → List Char
  | [] => []
  | [s] => appendString s
  | s :: t :: rest => appendString s ++ ',' :: appendElems (t :: rest)

/-- What `encoding/json` writes for a `[]string`: `null` for the nil slice, the
bracketed elements otherwise. -/
def appendItems : Option (List GoString) → List Char
  | none => nullLit
  | some l => '[' :: (appendElems l ++ [']'])

/-- One element of an array of strings: a string literal, or `null`, which
leaves the element the empty string. -/
def parseElem (s : List Char) : Option (List Char × List Char) :=
  match stripLit nullLit s with
  | some r => some ([], r)
  | none => unquote s

/-- The elements of a non-empty JSON array of strings, up to the closing
bracket; one element per unit of fuel. -/
def parseElems : Nat → List Char → Option (List (List Char) × List Char)
  | 0, _ => none
  | fuel + 1, s =>
    match parseElem (skipWs s) with
    | none => none
    | some (x, r) =>
      match skipWs r with
      | [] => none
      | c :: r1 =>
        if c = ',' then
          match parseElems fuel r1 with
          | some (xs, r2) => some (x :: xs, r2)
          | none => none
        else if c = ']' then some ([x], r1)
        else none

/-- A JSON value read into a `[]string` field: `null` (answered as `none`: the
field is left as it is), the empty array, or an array of strings. -/
def parseItems (s : List Char) : Option (Option (List (List Char)) × List Char) :=
  match stripLit nullLit s with
  | some r => some (none, r)
  | none =>
    match s with
    | [] => none
    | c :: r =>
      if c = '[' then
        match skipWs r with
        | [] => none
        | c1 :: r1 =>
          if c1 = ']' then some (some [], r1)
          else
            match parseElems r.length r with
            | some (xs, r2) => some (some xs, r2)
            | none => none
      else none

/-- A `time.Time` by what its JSON form carries: the calendar reading in its
location and the offset of that location, in seconds east of UTC. The
monotonic clock reading and the identity of the location are not part of it. -/
structure TimeValue where
  year : Int
  month : Nat
  day : Nat
  hour : Nat
  minute : Nat
  second : Nat
  nanosecond : Nat
  offset : Int
  deriving DecidableEq, Repr

/-- Go `isLeap` of package `time`. -/
def isLeap (year : Int) : Bool :=
  decide (year % 4 = 0 ∧ (year % 100 ≠ 0 ∨ year % 400 = 0))

/-- Go `daysIn` of package `time`: the number of days of a month. -/
def daysIn (month : Nat) (year : Int) : Nat :=
  if month = 2 then (if isLeap year then 29 else 28)
  else if month = 4 ∨ month = 6 ∨ month = 9 ∨ month = 11 then 30
  else 31

/-- The calendar reading of every `time.Time`: a month from 1 to 12, a day of
that month, and a time of day with nanoseconds below one second. -/
abbrev TimeValue.wellFormed (t : TimeValue) : Prop :=
  1 ≤ t.month ∧ t.month ≤ 12 ∧ 1 ≤ t.day ∧ t.day ≤ daysIn t.month t.year ∧
    t.hour < 24 ∧ t.minute < 60 ∧ t.second < 60 ∧ t.nanosecond < 1000000000

/-- Go `appendInt(b, n, 2)` of package `time`, for a number below one hundred. -/
def appendInt2 (n : Nat) : List Char := [digitChar (n / 10 % 10), digitChar (n % 10)]

/-- Go `appendInt(b, n, 4)` of package `time`, for a number below ten
thousand. -/
def appendInt4 (n : Nat) : List Char :=
  [digitChar (n / 1000 % 10), digitChar (n / 100 % 10), digitChar (n / 10 % 10),
   digitChar (n % 10)]

/-- Go `appendInt(b, n, 9)` of package `time`, for a number below one
thousand million. -/
def appendInt9 (n : Nat) : List Char :=
  [digitChar (n / 100000000 % 10), digitChar (n / 10000000 % 10), digitChar (n / 1000000 % 10),
   digitChar (n / 100000 % 10), digitChar (n / 10000 % 10), digitChar (n / 1000 % 10),
   digitChar (n / 100 % 10), digitChar (n / 10 % 10), digitChar (n % 10)]

/-- Drops the zeros at the end, as the trimming loop of `appendNano` does. -/
def trimZeros (l : List Char) : List Char :=
  (l.reverse.dropWhile (fun c => decide (c = '0'))).reverse

/-- Go `appendNano` of package `time` for the layout `.999999999`: nothing for
zero nanoseconds, else the point and the nine digits without the zeros at the
end. -/
def appendNano (nsec : Nat) : List Char :=
  if nsec = 0 then [] else '.' :: trimZeros (appendInt9 nsec)

/-- The zone of `appendFormatRFC3339`: `Z` for offset zero, else the sign and
the offset in hours and minutes. Go divides with truncation toward zero, so
the offset in minutes is negative exactly when the offset is at most -60
seconds, and its size is the size of the offset divided by sixty. -/
def appendZone (offset : Int) : List Char :=
  if offset = 0 then ['Z']
  else
    (if offset ≤ -60 then '-' else '+') ::
      (appendInt2 (offset.natAbs / 60 / 60) ++ ':' :: appendInt2 (offset.natAbs / 60 % 60))

/-- Go `Time.appendFormatRFC3339(b, true)`, for a year from 0 to 9999. -/
def appendFormatRFC3339 (t : TimeValue) : List Char :=
  appendInt4 t.year.toNat ++ '-' :: (appendInt2 t.month ++ '-' :: (appendInt2 t.day ++
    'T' :: (appendInt2 t.hour ++ ':' :: (appendInt2 t.minute ++ ':' :: (appendInt2 t.second ++
      (appendNano t.nanosecond ++ appendZone t.offset))))))

/-- Go `Time.MarshalJSON`: the quoted RFC 3339 form, and an error when the
year is outside 0 to 9999 or the zone hour is outside 0 to 23 (the checks of
`appendStrictRFC3339`). -/
def TimeValue.MarshalJSON (t : TimeValue) : Except Error (List Char) :=
  if t.year < 0 ∨ 9999 < t.year then
    .error (.external "Time.MarshalJSON: year outside of range [0,9999]")
  else if t.offset ≠ 0 ∧ 24 ≤ t.offset.natAbs / 60 / 60 then
    .error (.external "Time.MarshalJSON: timezone hour outside of range [0,23]")
  else .ok (quote :: (appendFormatRFC3339 t ++ [quote]))

/-- The helper `parseUint` of `parseRFC3339`: digits only, within the given
range. -/
def parseUint (l : List Char) (min max : Nat) : Option Nat :=
  if l.all isDigit then
    if min ≤ atoi l ∧ atoi l ≤ max then some (atoi l) else none
  else none

/-- The fraction of a second in `parseRFC3339`: a point followed by digits, of
which `parseNanoseconds` reads at most nine, scaled to nanoseconds; the
nanoseconds and the text after the digits. -/
def parseFraction (s : List Char) : Nat × List Char :=
  match s with
  | d :: c :: r =>
    if d = '.' ∧ isDigit c = true then
      ((atoi (((c :: r).takeWhile isDigit).take 9)) *
          10 ^ (9 - (((c :: r).takeWhile isDigit).take 9).length),
        (c :: r).dropWhile isDigit)
    else (0, s)
  | _ => (0, s)

/-- The zone in `parseRFC3339`: `Z`, or a sign and the offset in hours and
minutes. -/
def parseZone (s : List Char) : Option Int :=
  match s with
  | [z] => if z = 'Z' then some 0 else none
  | [sg, h1, h2, c, m1, m2] =>
    match parseUint [h1, h2] 0 23, parseUint [m1, m2] 0 59 with
    | some hr, some mm =>
      if (sg = '-' ∨ sg = '+') ∧ c = ':' then
        some (if sg = '-' then -(((hr * 60 + mm) * 60 : Nat) : Int)
          else (((hr * 60 + mm) * 60 : Nat) : Int))
      else none
    | _, _ => none
  | _ => none

/-- Go `parseRFC3339` of package `time`, which `Time.UnmarshalJSON` tries first.
The lenient parse Go falls back to when this one fails is left out: a text it
refuses is refused here. -/
def parseRFC3339 (s : List Char) : Option TimeValue :=
  match s with
  | y1 :: y2 :: y3 :: y4 :: c1 :: m1 :: m2 :: c2 :: d1 :: d2 :: c3 :: h1 :: h2 :: c4 ::
      i1 :: i2 :: c5 :: s1 :: s2 :: rest =>
    match parseUint [y1, y2, y3, y4] 0 9999 with
    | none => none
    | some year =>
      match parseUint [m1, m2] 1 12 with
      | none => none
      | some month =>
        match parseUint [d1, d2] 1 (daysIn month year), parseUint [h1, h2] 0 23,
            parseUint [i1, i2] 0 59, parseUint [s1, s2] 0 59 with
        | some day, some hour, some minute, some second =>
          if c1 = '-' ∧ c2 = '-' ∧ c3 = 'T' ∧ c4 = ':' ∧ c5 = ':' then
            match parseZone (parseFraction rest).2 with
            | some off =>
              some { year := year, month := month, day := day, hour := hour, minute := minute,
                     second := second, nanosecond := (parseFraction rest).1, offset := off }
            | none => none
          else none
        | _, _, _, _ => none
  | _ => none

/-- Whether a character is not the double quote. -/
def notQuote (c : Char) : Bool := decide (c.toNat ≠ 0x22)

/-- Go `Time.UnmarshalJSON` on the JSON value at the front of a text: `null`
leaves the time as it is; otherwise the value must be a string literal, whose
raw content is parsed as RFC 3339. The time and the text after the value. -/
def TimeValue.UnmarshalJSON (s : List Char) (cur : TimeValue) : Option (TimeValue × List Char) :=
  match stripLit nullLit s with
  | some r => some (cur, r)
  | none =>
    match s with
    | [] => none
    | c :: r =>
      if c.toNat = 0x22 then
        match r.dropWhile notQuote with
        | [] => none
        | _ :: rest =>
          match parseRFC3339 (r.takeWhile notQuote) with
          | some t => some (t, rest)
          | none => none
      else none

/-- A Go string is valid UTF-8 when no step of it is an invalid byte. -/
abbrev GoString.valid (s : GoString) : Prop := ∀ p ∈ s, p.isRune = true

/-- A `models.Order` as Go holds it: the strings byte by byte, `Items` possibly
nil (`none`), the total an `int64`, and the creation time. It refines the
`models.Order` used above, which holds valid text only. -/
structure OrderValue where
  ID : GoString
  CustomerID : GoString
  Items : Option (List GoString)
  TotalCents : Int
  CreatedAt : TimeValue
  deriving DecidableEq, Repr

/-- The zero `time.Time`: 1 January of year 1, 00:00:00 UTC. -/
def zeroTime : TimeValue :=
  { year := 1, month := 1, day := 1, hour := 0, minute := 0, second := 0, nanosecond := 0,
    offset := 0 }

/-- The zero `models.Order`, the value `processOrder` decodes into. -/
def zeroOrder : OrderValue :=
  { ID := [], CustomerID := [], Items := none, TotalCents := 0, CreatedAt := zeroTime }

/-- The JSON name of the field `ID`. -/
def keyID : List Char := ['i', 'd']

/-- The JSON name of the field `CustomerID`. -/
def keyCustomerID : List Char := ['c', 'u', 's', 't', 'o', 'm', 'e', 'r', '_', 'i', 'd']

/-- The JSON name of the field `Items`. -/
def keyItems : List Char := ['i', 't', 'e', 'm', 's']

/-- The JSON name of the field `TotalCents`. -/
def keyTotalCents : List Char := ['t', 'o', 't', 'a', 'l', '_', 'c', 'e', 'n', 't', 's']

/-- The JSON name of the field `CreatedAt`. -/
def keyCreatedAt : List Char := ['c', 'r', 'e', 'a', 't', 'e', 'd', '_', 'a', 't']

/-- A member name as the encoder writes it: quoted, then a colon. -/
def appendKey (name : List Char) : List Char := appendString (GoString.ofChars name) ++ [':']

/-- Go `json.Marshal` of a `models.Order`: the object of its five members, in
the order of the fields, without white space; the error of
`Time.MarshalJSON`, wrapped, when the creation time cannot be written. -/
def MarshalOrder (o : OrderValue) : Except Error (List Char) :=
  match o.CreatedAt.MarshalJSON with
  | .error e => .error (.wrapf "json: error calling MarshalJSON for type time.Time" e)
  | .ok t =>
    .ok ('{' :: (appendKey keyID ++ (appendString o.ID ++ ',' ::
      (appendKey keyCustomerID ++ (appendString o.CustomerID ++ ',' ::
      (appendKey keyItems ++ (appendItems o.Items ++ ',' ::
      (appendKey keyTotalCents ++ (AppendInt o.TotalCents ++ ',' ::
      (appendKey keyCreatedAt ++ (t ++ ['}'])))))))))))

/-- A JSON value read into a `string` field: `null` leaves it as it is,
otherwise a string literal. -/
def decodeString (s : List Char) (cur : GoString) : Option (GoString × List Char) :=
  match stripLit nullLit s with
  | some r => some (cur, r)
  | none =>
    match unquote s with
    | some (x, r) => some (GoString.ofChars x, r)
    | none => none

/-- A JSON value read into an `int64` field: `null` leaves it as it is,
otherwise a number. -/
def decodeInt64 (s : List Char) (cur : Int) : Option (Int × List Char) :=
  match stripLit nullLit s with
  | some r => some (cur, r)
  | none => parseInt64 s

/-- The value of one member read into the field of that name. Only the five
names of `models.Order` are known here; Go also matches names without regard
to case and skips members it does not know, which is left out: such a member
is refused. -/
def decodeField (key : List Char) (s : List Char) (o : OrderValue) :
    Option (OrderValue × List Char) :=
  if key = keyID then
    match decodeString s o.ID with
    | some (x, r) => some ({ o with ID := x }, r)
    | none => none
  else if key = keyCustomerID then
    match decodeString s o.CustomerID with
    | some (x, r) => some ({ o with CustomerID := x }, r)
    | none => none
  else if key = keyItems then
    match parseItems s with
    | some (none, r) => some (o, r)
    | some (some l, r) => some ({ o with Items := some (l.map GoString.ofChars) }, r)
    | none => none
  else if key = keyTotalCents then
    match decodeInt64 s o.TotalCents with
    | some (x, r) => some ({ o with TotalCents := x }, r)
    | none => none
  else if key = keyCreatedAt then
    match TimeValue.UnmarshalJSON s o.CreatedAt with
    | some (x, r) => some ({ o with CreatedAt := x }, r)
    | none => none
  else none

/-- The members of a non-empty JSON object read into an order, one member per
unit of fuel, a later member with the same name overwriting an earlier one. -/
def decodeMembers : Nat → List Char → OrderValue → Option (OrderValue × List Char)
  | 0, _, _ => none
  | fuel + 1, s, o =>
    match unquote (skipWs s) with
    | none => none
    | some (key, r) =>
      match skipWs r with
      | [] => none
      | c :: r1 =>
        if c = ':' then
          match decodeField key (skipWs r1) o with
          | none => none
          | some (o1, r2) =>
            match skipWs r2 with
            | [] => none
            | c2 :: r3 =>
              if c2 = ',' then decodeMembers fuel r3 o1
              else if c2 = '}' then some (o1, r3)
              else none
        else none

/-- The error of `json.Unmarshal` on a text it cannot read into an order. -/
def decodeError : Error := .external "json: cannot unmarshal into Go value of type models.Order"

/-- Go `json.Unmarshal(value, &order)` into a zero `models.Order`, as
`processOrder` calls it, on the documents described at `decodeField`: an
object of known members, or `null`, with nothing but white space after it. -/
def UnmarshalOrder (data : List Char) : Except Error OrderValue :=
  match skipWs data with
  | [] => .error decodeError
  | c :: r =>
    if c = '{' then
      match skipWs r with
      | [] => .error decodeError
      | c1 :: r1 =>
        if c1 = '}' then
          if skipWs r1 = [] then .ok zeroOrder else .error decodeError
        else
          match decodeMembers r.length r zeroOrder with
          | some (o, rest) => if skipWs rest = [] then .ok o else .error decodeError
          | none => .error decodeError
    else
      match stripLit nullLit (c :: r) with
      | some rest => if skipWs rest = [] then .ok zeroOrder else .error decodeError
      | none => .error decodeError

/-- Go `json.Marshal(order)` as `Publish` calls it: the text as the bytes of the
message value. -/
def Marshal (o : OrderValue) : Except Error String :=
  match MarshalOrder o with
  | .ok t => .ok (String.mk t)
  | .error e => .error e

/-- Go `json.Unmarshal(value, &order)` as `processOrder` calls it on the bytes of
a message value. -/
def Unmarshal (data : String) : Except Error OrderValue := UnmarshalOrder data.toList

end json

namespace sample

/-- An order of customer `alice` with the given identifier and creation time. -/
def orderValue (id : json.GoString) (createdAt : json.TimeValue) : json.OrderValue :=
  { ID := id
    CustomerID := json.GoString.ofChars ['a', 'l', 'i', 'c', 'e']
    Items := some [json.GoString.ofChars ['p', 'e', 'n']]
    TotalCents := 500
    CreatedAt := createdAt }

/-- The time 2024-01-02 03:04:05 with the given nanoseconds and zone offset. -/
def timeValue (year : Int) (nanosecond : Nat) (offset : Int) : json.TimeValue :=
  { year := year, month := 1, day := 2, hour := 3, minute := 4, second := 5,
    nanosecond := nanosecond, offset := offset }

end sample

/-! ## Consumer.Listen -/

open kafka

/-- Unfolding of one iteration of `Listen` whose fetch fails. -/
theorem Listen_fetch_error {σ : Type} (c : Consumer σ) (A : Ambient σ) (ctx : Context)
    (handler : HandlerFunc σ) (fuel : Nat) (s s1 : σ) (err : Error)
    (hf : c.reader.FetchMessage s = (.error err, s1)) :
    c.Listen A ctx handler (fuel + 1) s =
      if (A.ctxErr s1).isSome then
        ⟨some none, s1, [.FetchMessage (.error err)]⟩
      else
        ⟨some (some (.wrapf "failed to fetch message" err)), s1, [.FetchMessage (.error err)]⟩ := by
  simp only [Consumer.Listen, hf]

/-- Unfolding of one iteration of `Listen` whose handler fails. -/
theorem Listen_handler_error {σ : Type} (c : Consumer σ) (A : Ambient σ) (ctx : Context)
    (handler : HandlerFunc σ) (fuel : Nat) (s s1 s2 : σ) (msg : Message) (err : Error)
    (hf : c.reader.FetchMessage s = (.ok msg, s1))
    (hh : handler (A.Extract ctx ⟨msg.Headers⟩) msg.Key msg.Value s1 = (some err, s2)) :
    c.Listen A ctx handler (fuel + 1) s =
      ⟨(c.Listen A ctx handler fuel s2).result, (c.Listen A ctx handler fuel s2).state,
        [.FetchMessage (.ok msg),
         .handler (A.Extract ctx ⟨msg.Headers⟩) msg.Key msg.Value (some err)] ++
          (c.Listen A ctx handler fuel s2).calls⟩ := by
  simp only [Consumer.Listen, hf, hh]

/-- Unfolding of one iteration of `Listen` whose commit fails. -/
theorem Listen_commit_error {σ : Type} (c : Consumer σ) (A : Ambient σ) (ctx : Context)
    (handler : HandlerFunc σ) (fuel : Nat) (s s1 s2 s3 : σ) (msg : Message) (err : Error)
    (hf : c.reader.FetchMessage s = (.ok msg, s1))
    (hh : handler (A.Extract ctx ⟨msg.Headers⟩) msg.Key msg.Value s1 = (none, s2))
    (hc : c.reader.CommitMessages msg s2 = (some err, s3)) :
    c.Listen A ctx handler (fuel + 1) s =
      ⟨some (some (.wrapf "failed to commit offset" err)), s3,
        [.FetchMessage (.ok msg),
         .handler (A.Extract ctx ⟨msg.Headers⟩) msg.Key msg.Value none,
         .CommitMessages msg (some err)]⟩ := by
  simp only [Consumer.Listen, hf, hh, hc]

/-- Unfolding of one iteration of `Listen` that commits and goes on. -/
theorem Listen_commit_ok {σ : Type} (c : Consumer σ) (A : Ambient σ) (ctx : Context)
    (handler : HandlerFunc σ) (fuel : Nat) (s s1 s2 s3 : σ) (msg : Message)
    (hf : c.reader.FetchMessage s = (.ok msg, s1))
    (hh : handler (A.Extract ctx ⟨msg.Headers⟩) msg.Key msg.Value s1 = (none, s2))
    (hc : c.reader.CommitMessages msg s2 = (none, s3)) :
    c.Listen A ctx handler (fuel + 1) s =
      ⟨(c.Listen A ctx handler fuel s3).result, (c.Listen A ctx handler fuel s3).state,
        [.FetchMessage (.ok msg),
         .handler (A.Extract ctx ⟨msg.Headers⟩) msg.Key msg.Value none,
         .CommitMessages msg none] ++ (c.Listen A ctx handler fuel s3).calls⟩ := by
  simp only [Consumer.Listen, hf, hh, hc]

/-- The calls of a run of `Listen` come in iterations: a commit directly follows
the successful handling of the message it commits, a successful handling is
directly followed by the commit of its message, a failed handling is followed
by a fetch or by nothing, and the run starts with a fetch. -/
theorem Listen_calls_shape {σ : Type} (c : Consumer σ) (A : Ambient σ) (ctx : Context)
    (handler : HandlerFunc σ) (fuel : Nat) (s : σ) :
    (∀ pre post m r, (c.Listen A ctx handler fuel s).calls = pre ++ Call.CommitMessages m r :: post →
      ∃ pre', pre = pre' ++ [Call.FetchMessage (.ok m),
        Call.handler (A.Extract ctx ⟨m.Headers⟩) m.Key m.Value none]) ∧
    (∀ pre post cx k v, (c.Listen A ctx handler fuel s).calls = pre ++ Call.handler cx k v none :: post →
      ∃ pre' m r post', pre = pre' ++ [Call.FetchMessage (.ok m)] ∧ k = m.Key ∧ v = m.Value ∧
        post = Call.CommitMessages m r :: post') ∧
    (∀ pre post cx k v e,
      (c.Listen A ctx handler fuel s).calls = pre ++ Call.handler cx k v (some e) :: post →
      post = [] ∨ ∃ x post', post = Call.FetchMessage x :: post') ∧
    ((c.Listen A ctx handler fuel s).calls = [] ∨
      ∃ x t, (c.Listen A ctx handler fuel s).calls = Call.FetchMessage x :: t) := by
  induction fuel generalizing s with
  | zero => simp [Consumer.Listen]
  | succ n ih =>
    rcases hf : c.reader.FetchMessage s with ⟨res, s1⟩
    cases res with
    | error err =>
      rw [Listen_fetch_error c A ctx handler n s s1 err hf]
      split <;>
      · refine ⟨?_, ?_, ?_, Or.inr ⟨_, _, rfl⟩⟩
        · intro pre post m r h
          rcases pre with _ | ⟨a, pre⟩ <;> simp at h
        · intro pre post cx k v h
          rcases pre with _ | ⟨a, pre⟩ <;> simp at h
        · intro pre post cx k v e h
          rcases pre with _ | ⟨a, pre⟩ <;> simp at h
    | ok msg =>
      rcases hh : handler (A.Extract ctx ⟨msg.Headers⟩) msg.Key msg.Value s1 with ⟨hres, s2⟩
      cases hres with
      | some err =>
        rw [Listen_handler_error c A ctx handler n s s1 s2 msg err hf hh]
        obtain ⟨ih1, ih2, ih3, ih4⟩ := ih s2
        refine ⟨?_, ?_, ?_, Or.inr ⟨_, _, rfl⟩⟩
        · intro pre post m r h
          rcases pre with _ | ⟨a, _ | ⟨b, pre⟩⟩
          · simp at h
          · simp at h
          · simp only [List.cons_append, List.nil_append, List.cons.injEq] at h
            obtain ⟨rfl, rfl, h⟩ := h
            obtain ⟨pre', rfl⟩ := ih1 pre post m r h
            exact ⟨_ :: _ :: pre', rfl⟩
        · intro pre post cx k v h
          rcases pre with _ | ⟨a, _ | ⟨b, pre⟩⟩
          · simp at h
          · simp at h
          · simp only [List.cons_append, List.nil_append, List.cons.injEq] at h
            obtain ⟨rfl, rfl, h⟩ := h
            obtain ⟨pre', m, r, post', rfl, hk, hv, hp⟩ := ih2 pre post cx k v h
            exact ⟨_ :: _ :: pre', m, r, post', rfl, hk, hv, hp⟩
        · intro pre post cx k v e h
          rcases pre with _ | ⟨a, _ | ⟨b, pre⟩⟩
          · simp at h
          · simp only [List.cons_append, List.nil_append, List.cons.injEq] at h
            obtain ⟨-, -, h⟩ := h
            rw [← h]
            rcases ih4 with h4 | ⟨x, t, h4⟩
            · exact Or.inl h4
            · exact Or.inr ⟨x, t, h4⟩
          · simp only [List.cons_append, List.nil_append, List.cons.injEq] at h
            obtain ⟨-, -, h⟩ := h
            exact ih3 pre post cx k v e h
      | none =>
        rcases hc : c.reader.CommitMessages msg s2 with ⟨cres, s3⟩
        cases cres with
        | some err =>
          rw [Listen_commit_error c A ctx handler n s s1 s2 s3 msg err hf hh hc]
          refine ⟨?_, ?_, ?_, Or.inr ⟨_, _, rfl⟩⟩
          · intro pre post m r h
            rcases pre with _ | ⟨a, _ | ⟨b, _ | ⟨d, pre⟩⟩⟩
            · simp at h
            · simp at h
            · simp only [List.cons_append, List.nil_append, List.cons.injEq,
                Call.CommitMessages.injEq] at h
              obtain ⟨rfl, rfl, ⟨rfl, -⟩, -⟩ := h
              exact ⟨[], rfl⟩
            · rcases pre with _ | ⟨a, pre⟩ <;> simp at h
          · intro pre post cx k v h
            rcases pre with _ | ⟨a, _ | ⟨b, _ | ⟨d, pre⟩⟩⟩
            · simp at h
            · simp only [List.cons_append, List.nil_append, List.cons.injEq,
                Call.handler.injEq] at h
              obtain ⟨rfl, ⟨-, rfl, rfl, -⟩, rfl⟩ := h
              exact ⟨[], msg, some err, [], rfl, rfl, rfl, rfl⟩
            · simp at h
            · rcases pre with _ | ⟨a, pre⟩ <;> simp at h
          · intro pre post cx k v e h
            rcases pre with _ | ⟨a, _ | ⟨b, _ | ⟨d, pre⟩⟩⟩
            · simp at h
            · simp at h
            · simp at h
            · rcases pre with _ | ⟨a, pre⟩ <;> simp at h
        | none =>
          rw [Listen_commit_ok c A ctx handler n s s1 s2 s3 msg hf hh hc]
          obtain ⟨ih1, ih2, ih3, ih4⟩ := ih s3
          refine ⟨?_, ?_, ?_, Or.inr ⟨_, _, rfl⟩⟩
          · intro pre post m r h
            rcases pre with _ | ⟨a, _ | ⟨b, _ | ⟨d, pre⟩⟩⟩
            · simp at h
            · simp at h
            · simp only [List.cons_append, List.nil_append, List.cons.injEq,
                Call.CommitMessages.injEq] at h
              obtain ⟨rfl, rfl, ⟨rfl, -⟩, -⟩ := h
              exact ⟨[], rfl⟩
            · simp only [List.cons_append, List.nil_append, List.cons.injEq] at h
              obtain ⟨rfl, rfl, rfl, h⟩ := h
              obtain ⟨pre', rfl⟩ := ih1 pre post m r h
              exact ⟨_ :: _ :: _ :: pre', rfl⟩
          · intro pre post cx k v h
            rcases pre with _ | ⟨a, _ | ⟨b, _ | ⟨d, pre⟩⟩⟩
            · simp at h
            · simp only [List.cons_append, List.nil_append, List.cons.injEq,
                Call.handler.injEq] at h
              obtain ⟨rfl, ⟨-, rfl, rfl, -⟩, rfl⟩ := h
              exact ⟨[], msg, none, _, rfl, rfl, rfl, rfl⟩
            · simp at h
            · simp only [List.cons_append, List.nil_append, List.cons.injEq] at h
              obtain ⟨rfl, rfl, rfl, h⟩ := h
              obtain ⟨pre', m, r, post', rfl, hk, hv, hp⟩ := ih2 pre post cx k v h
              exact ⟨_ :: _ :: _ :: pre', m, r, post', rfl, hk, hv, hp⟩
          · intro pre post cx k v e h
            rcases pre with _ | ⟨a, _ | ⟨b, _ | ⟨d, pre⟩⟩⟩
            · simp at h
            · simp at h
            · simp at h
            · simp only [List.cons_append, List.nil_append, List.cons.injEq] at h
              obtain ⟨-, -, -, h⟩ := h
              exact ih3 pre post cx k v e h

/-- In a run of `Listen` a failed commit and a failed fetch are each the last
call, and they fix what `Listen` returns. -/
theorem Listen_calls_stop {σ : Type} (c : Consumer σ) (A : Ambient σ) (ctx : Context)
    (handler : HandlerFunc σ) (fuel : Nat) (s : σ) :
    (∀ pre post m e,
      (c.Listen A ctx handler fuel s).calls = pre ++ Call.CommitMessages m (some e) :: post →
      post = [] ∧
      (c.Listen A ctx handler fuel s).result = some (some (.wrapf "failed to commit offset" e))) ∧
    (∀ pre post e,
      (c.Listen A ctx handler fuel s).calls = pre ++ Call.FetchMessage (.error e) :: post →
      post = [] ∧
      (c.Listen A ctx handler fuel s).result =
        if (A.ctxErr (c.Listen A ctx handler fuel s).state).isSome then some none
        else some (some (.wrapf "failed to fetch message" e))) := by
  induction fuel generalizing s with
  | zero => simp [Consumer.Listen]
  | succ n ih =>
    rcases hf : c.reader.FetchMessage s with ⟨res, s1⟩
    cases res with
    | error err =>
      rw [Listen_fetch_error c A ctx handler n s s1 err hf]
      refine ⟨?_, ?_⟩
      · intro pre post m e h
        split at h <;> rcases pre with _ | ⟨a, pre⟩ <;> simp at h
      · intro pre post e h
        split at h <;> rename_i hcx <;>
        · rcases pre with _ | ⟨a, pre⟩
          · simp only [List.nil_append, List.cons.injEq, Call.FetchMessage.injEq,
              Except.error.injEq] at h
            obtain ⟨rfl, rfl⟩ := h
            simp [hcx]
          · simp at h
    | ok msg =>
      rcases hh : handler (A.Extract ctx ⟨msg.Headers⟩) msg.Key msg.Value s1 with ⟨hres, s2⟩
      cases hres with
      | some err =>
        rw [Listen_handler_error c A ctx handler n s s1 s2 msg err hf hh]
        obtain ⟨ih1, ih2⟩ := ih s2
        refine ⟨?_, ?_⟩
        · intro pre post m e h
          rcases pre with _ | ⟨a, _ | ⟨b, pre⟩⟩
          · simp at h
          · simp at h
          · simp only [List.cons_append, List.nil_append, List.cons.injEq] at h
            exact ih1 pre post m e h.2.2
        · intro pre post e h
          rcases pre with _ | ⟨a, _ | ⟨b, pre⟩⟩
          · simp at h
          · simp at h
          · simp only [List.cons_append, List.nil_append, List.cons.injEq] at h
            exact ih2 pre post e h.2.2
      | none =>
        rcases hc : c.reader.CommitMessages msg s2 with ⟨cres, s3⟩
        cases cres with
        | some err =>
          rw [Listen_commit_error c A ctx handler n s s1 s2 s3 msg err hf hh hc]
          refine ⟨?_, ?_⟩
          · intro pre post m e h
            rcases pre with _ | ⟨a, _ | ⟨b, _ | ⟨d, pre⟩⟩⟩
            · simp at h
            · simp at h
            · simp only [List.cons_append, List.nil_append, List.cons.injEq,
                Call.CommitMessages.injEq, Option.some.injEq] at h
              obtain ⟨-, -, ⟨-, rfl⟩, rfl⟩ := h
              exact ⟨rfl, rfl⟩
            · rcases pre with _ | ⟨a, pre⟩ <;> simp at h
          · intro pre post e h
            rcases pre with _ | ⟨a, _ | ⟨b, _ | ⟨d, pre⟩⟩⟩
            · simp at h
            · simp at h
            · simp at h
            · rcases pre with _ | ⟨a, pre⟩ <;> simp at h
        | none =>
          rw [Listen_commit_ok c A ctx handler n s s1 s2 s3 msg hf hh hc]
          obtain ⟨ih1, ih2⟩ := ih s3
          refine ⟨?_, ?_⟩
          · intro pre post m e h
            rcases pre with _ | ⟨a, _ | ⟨b, _ | ⟨d, pre⟩⟩⟩
            · simp at h
            · simp at h
            · simp at h
            · simp only [List.cons_append, List.nil_append, List.cons.injEq] at h
              exact ih1 pre post m e h.2.2.2
          · intro pre post e h
            rcases pre with _ | ⟨a, _ | ⟨b, _ | ⟨d, pre⟩⟩⟩
            · simp at h
            · simp at h
            · simp at h
            · simp only [List.cons_append, List.nil_append, List.cons.injEq] at h
              exact ih2 pre post e h.2.2.2

/-- The first call of an iteration of `Listen` is the fetch, answered by the
reader at the state the iteration starts from. -/
theorem Listen_calls_head {σ : Type} (c : Consumer σ) (A : Ambient σ) (ctx : Context)
    (handler : HandlerFunc σ) (fuel : Nat) (s : σ) :
    ∃ rest, (c.Listen A ctx handler (fuel + 1) s).calls =
      Call.FetchMessage (c.reader.FetchMessage s).1 :: rest := by
  rcases hf : c.reader.FetchMessage s with ⟨res, s1⟩
  cases res with
  | error err =>
    rw [Listen_fetch_error c A ctx handler fuel s s1 err hf]
    split <;> exact ⟨[], rfl⟩
  | ok msg =>
    rcases hh : handler (A.Extract ctx ⟨msg.Headers⟩) msg.Key msg.Value s1 with ⟨hres, s2⟩
    cases hres with
    | some err =>
      rw [Listen_handler_error c A ctx handler fuel s s1 s2 msg err hf hh]
      exact ⟨_, rfl⟩
    | none =>
      rcases hc : c.reader.CommitMessages msg s2 with ⟨cres, s3⟩
      cases cres with
      | some err =>
        rw [Listen_commit_error c A ctx handler fuel s s1 s2 s3 msg err hf hh hc]
        exact ⟨_, rfl⟩
      | none =>
        rw [Listen_commit_ok c A ctx handler fuel s s1 s2 s3 msg hf hh hc]
        exact ⟨_, rfl⟩

/-- C1. In every run of `Consumer.Listen`, over any reader and any handler:
a `CommitMessages` call for `m` comes directly after the fetch of `m` and the
handler returning `nil` on the key and value of `m`; a handler call that
returned `nil` is for the message just fetched and is directly followed by the
commit of that message; a handler call that returned an error is followed by no
commit, only by the next fetch (or by nothing when the run ends there). -/
theorem Listen_commit_iff_handler_success {σ : Type} (c : Consumer σ) (A : Ambient σ)
    (ctx : Context) (handler : HandlerFunc σ) (fuel : Nat) (s : σ) :
    (∀ pre post m r, (c.Listen A ctx handler fuel s).calls = pre ++ Call.CommitMessages m r :: post →
      ∃ pre', pre = pre' ++ [Call.FetchMessage (.ok m),
        Call.handler (A.Extract ctx ⟨m.Headers⟩) m.Key m.Value none]) ∧
    (∀ pre post cx k v, (c.Listen A ctx handler fuel s).calls = pre ++ Call.handler cx k v none :: post →
      ∃ pre' m r post', pre = pre' ++ [Call.FetchMessage (.ok m)] ∧ k = m.Key ∧ v = m.Value ∧
        post = Call.CommitMessages m r :: post') ∧
    (∀ pre post cx k v e,
      (c.Listen A ctx handler fuel s).calls = pre ++ Call.handler cx k v (some e) :: post →
      post = [] ∨ ∃ x post', post = Call.FetchMessage x :: post') :=
  ⟨(Listen_calls_shape c A ctx handler fuel s).1,
   (Listen_calls_shape c A ctx handler fuel s).2.1,
   (Listen_calls_shape c A ctx handler fuel s).2.2.1⟩

/-- C1, at a sample run: over the log of two messages, where the handler fails
on the first and succeeds on the second, the only commit is the one of the
second message and it directly follows its successful handling. -/
theorem Listen_commit_iff_handler_success_witness :
    ((sample.logConsumer sample.log2 none true).Listen sample.ambient sample.background
        sample.pickyHandler 3 sample.start).calls =
      [Call.FetchMessage (.ok (sample.msg 0 "k0" "bad")),
       Call.handler sample.background "k0" "bad" (some (.external "cannot handle")),
       Call.FetchMessage (.ok (sample.msg 1 "k1" "good")),
       Call.handler sample.background "k1" "good" none,
       Call.CommitMessages (sample.msg 1 "k1" "good") none,
       Call.FetchMessage (.error (.external "fetch interrupted"))] ∧
    (∃ pre',
      [Call.FetchMessage (.ok (sample.msg 0 "k0" "bad")),
       Call.handler sample.background "k0" "bad" (some (.external "cannot handle")),
       Call.FetchMessage (.ok (sample.msg 1 "k1" "good")),
       Call.handler sample.background "k1" "good" none] =
      pre' ++ [Call.FetchMessage (.ok (sample.msg 1 "k1" "good")),
        Call.handler (sample.ambient.Extract sample.background ⟨(sample.msg 1 "k1" "good").Headers⟩)
          (sample.msg 1 "k1" "good").Key (sample.msg 1 "k1" "good").Value none]) :=
  ⟨rfl,
   (Listen_commit_iff_handler_success (sample.logConsumer sample.log2 none true) sample.ambient
      sample.background sample.pickyHandler 3 sample.start).1
      [Call.FetchMessage (.ok (sample.msg 0 "k0" "bad")),
       Call.handler sample.background "k0" "bad" (some (.external "cannot handle")),
       Call.FetchMessage (.ok (sample.msg 1 "k1" "good")),
       Call.handler sample.background "k1" "good" none]
      [Call.FetchMessage (.error (.external "fetch interrupted"))]
      (sample.msg 1 "k1" "good") none rfl⟩

/-- C2, as the code has it. When the handler fails on a fetched message,
`Listen` makes no commit and no other reader call: its next call is
`FetchMessage`, answered by the reader at the very state the handler left. The
loop itself neither rewinds the reader nor moves it; which message comes next
is the reader's answer. -/
theorem Listen_after_handler_failure {σ : Type} (c : Consumer σ) (A : Ambient σ)
    (ctx : Context) (handler : HandlerFunc σ) (fuel : Nat) (s s1 s2 : σ) (msg : Message)
    (err : Error)
    (hf : c.reader.FetchMessage s = (.ok msg, s1))
    (hh : handler (A.Extract ctx ⟨msg.Headers⟩) msg.Key msg.Value s1 = (some err, s2)) :
    ∃ rest, (c.Listen A ctx handler (fuel + 2) s).calls =
      Call.FetchMessage (.ok msg) ::
      Call.handler (A.Extract ctx ⟨msg.Headers⟩) msg.Key msg.Value (some err) ::
      Call.FetchMessage (c.reader.FetchMessage s2).1 :: rest := by
  rw [Listen_handler_error c A ctx handler (fuel + 1) s s1 s2 msg err hf hh]
  obtain ⟨rest, hrest⟩ := Listen_calls_head c A ctx handler fuel s2
  exact ⟨rest, by simp [hrest]⟩

/-- C2, at a sample run: over the log reader, after the handler failed on the
message at offset 0 the next call is the fetch the reader answers at read
position 1. -/
theorem Listen_after_handler_failure_witness :
    ∃ rest, ((sample.logConsumer sample.log2 none true).Listen sample.ambient sample.background
        sample.pickyHandler (1 + 2) sample.start).calls =
      Call.FetchMessage (.ok (sample.msg 0 "k0" "bad")) ::
      Call.handler (sample.ambient.Extract sample.background ⟨(sample.msg 0 "k0" "bad").Headers⟩)
        (sample.msg 0 "k0" "bad").Key (sample.msg 0 "k0" "bad").Value
        (some (.external "cannot handle")) ::
      Call.FetchMessage ((sample.logConsumer sample.log2 none true).reader.FetchMessage
        { pos := 1, committed := none, cancelled := false }).1 :: rest :=
  Listen_after_handler_failure (sample.logConsumer sample.log2 none true) sample.ambient
    sample.background sample.pickyHandler 1 sample.start
    { pos := 1, committed := none, cancelled := false }
    { pos := 1, committed := none, cancelled := false }
    (sample.msg 0 "k0" "bad") (.external "cannot handle") rfl rfl

/-- C2, as stated, fails. Over a reader that hands out its log in order, the
handler fails on the message at offset 0, and the next fetch of the same loop
observes the message at offset 1, not the one at offset 0 again; that message
is then handled and committed, and the run ends with offset 1 committed and
offset 0 never fetched a second time. -/
theorem Listen_refetch_counterexample :
    ((sample.logConsumer sample.log2 none true).Listen sample.ambient sample.background
        sample.pickyHandler 3 sample.start).calls =
      [Call.FetchMessage (.ok (sample.msg 0 "k0" "bad")),
       Call.handler sample.background "k0" "bad" (some (.external "cannot handle")),
       Call.FetchMessage (.ok (sample.msg 1 "k1" "good")),
       Call.handler sample.background "k1" "good" none,
       Call.CommitMessages (sample.msg 1 "k1" "good") none,
       Call.FetchMessage (.error (.external "fetch interrupted"))] ∧
    (sample.msg 1 "k1" "good").Offset = (sample.msg 0 "k0" "bad").Offset + 1 ∧
    ((sample.logConsumer sample.log2 none true).Listen sample.ambient sample.background
        sample.pickyHandler 3 sample.start).state =
      { pos := 2, committed := some 1, cancelled := true } ∧
    ((sample.logConsumer sample.log2 none true).Listen sample.ambient sample.background
        sample.pickyHandler 3 sample.start).result = some none :=
  ⟨rfl, rfl, rfl, rfl⟩

/-- C3. In every run of `Consumer.Listen`, a `CommitMessages` call that
returned an error is the last call of the run (no further fetch), and `Listen`
has returned the error `failed to commit offset` wrapping the commit error.
Nothing here looks at the context: it holds whatever `ctx.Err()` answers. -/
theorem Listen_commit_failure_fatal {σ : Type} (c : Consumer σ) (A : Ambient σ)
    (ctx : Context) (handler : HandlerFunc σ) (fuel : Nat) (s : σ)
    (pre post : List Call) (m : Message) (e : Error)
    (h : (c.Listen A ctx handler fuel s).calls = pre ++ Call.CommitMessages m (some e) :: post) :
    post = [] ∧
    (c.Listen A ctx handler fuel s).result = some (some (.wrapf "failed to commit offset" e)) ∧
    (Error.wrapf "failed to commit offset" e).Is e = true := by
  obtain ⟨h1, h2⟩ := (Listen_calls_stop c A ctx handler fuel s).1 pre post m e h
  refine ⟨h1, h2, ?_⟩
  cases e <;> simp [Error.Is]

/-- C3, at a sample run: the context is already cancelled when the commit of
the message at offset 7 fails; `Listen` still returns the wrapped commit error
after three calls. -/
theorem Listen_commit_failure_fatal_witness :
    (sample.ambient.ctxErr { pos := 0, committed := none, cancelled := true }).isSome = true ∧
    ([] : List Call) = [] ∧
    ((sample.logConsumer sample.log1 (some (.external "commit refused")) true).Listen
        sample.ambient sample.background sample.pickyHandler 5
        { pos := 0, committed := none, cancelled := true }).result =
      some (some (.wrapf "failed to commit offset" (.external "commit refused"))) ∧
    (Error.wrapf "failed to commit offset" (.external "commit refused")).Is
      (.external "commit refused") = true :=
  ⟨rfl,
   Listen_commit_failure_fatal (sample.logConsumer sample.log1 (some (.external "commit refused")) true)
    sample.ambient sample.background sample.pickyHandler 5
    { pos := 0, committed := none, cancelled := true }
    [Call.FetchMessage (.ok (sample.msg 7 "k7" "good")),
     Call.handler sample.background "k7" "good" none]
    [] (sample.msg 7 "k7" "good") (.external "commit refused") rfl⟩

/-- C4. In every run of `Consumer.Listen`, a `FetchMessage` call that returned
an error is the last call of the run, so neither the handler nor a commit is
called in that iteration, and `Listen` has returned: `nil` when `ctx.Err()` is
set at that moment, the error `failed to fetch message` wrapping the fetch error
when it is not. -/
theorem Listen_fetch_failure {σ : Type} (c : Consumer σ) (A : Ambient σ)
    (ctx : Context) (handler : HandlerFunc σ) (fuel : Nat) (s : σ)
    (pre post : List Call) (e : Error)
    (h : (c.Listen A ctx handler fuel s).calls = pre ++ Call.FetchMessage (.error e) :: post) :
    post = [] ∧
    ((A.ctxErr (c.Listen A ctx handler fuel s).state).isSome = true →
      (c.Listen A ctx handler fuel s).result = some none) ∧
    (A.ctxErr (c.Listen A ctx handler fuel s).state = none →
      (c.Listen A ctx handler fuel s).result =
        some (some (.wrapf "failed to fetch message" e))) := by
  obtain ⟨h1, h2⟩ := (Listen_calls_stop c A ctx handler fuel s).2 pre post e h
  refine ⟨h1, ?_, ?_⟩
  · intro hc
    rw [h2, if_pos hc]
  · intro hc
    rw [h2, hc]
    rfl

/-- C4, at two sample runs over an empty log: with the cancellation fired
`Listen` returns `nil` after the one failed fetch; without it `Listen` returns
the wrapped fetch error. -/
theorem Listen_fetch_failure_witness :
    (((sample.logConsumer [] none true).Listen sample.ambient sample.background
        sample.pickyHandler 1 sample.start).calls =
        [Call.FetchMessage (.error (.external "fetch interrupted"))] ∧
      ((sample.logConsumer [] none true).Listen sample.ambient sample.background
        sample.pickyHandler 1 sample.start).result = some none) ∧
    ((sample.logConsumer [] none false).Listen sample.ambient sample.background
        sample.pickyHandler 1 sample.start).result =
      some (some (.wrapf "failed to fetch message" (.external "fetch interrupted"))) :=
  ⟨⟨rfl, (Listen_fetch_failure (sample.logConsumer [] none true) sample.ambient sample.background
      sample.pickyHandler 1 sample.start [] [] (.external "fetch interrupted") rfl).2.1 rfl⟩,
   (Listen_fetch_failure (sample.logConsumer [] none false) sample.ambient sample.background
      sample.pickyHandler 1 sample.start [] [] (.external "fetch interrupted") rfl).2.2 rfl⟩

/-! ## The order use case -/

open order

/-- The numerator of a gate draw has at most 53 bits. -/
theorem randFloat64_num_lt (u : Nat) : (randFloat64 u).num < 2 ^ 53 := by
  simp only [randFloat64]
  omega

/-- For a double with 53 fractional bits, being below the double `0.2` is being
below one fifth. -/
theorem gate_lt_iff (k : Nat) :
    (Float64.lt ⟨k, 53⟩ float64_0_2 = true) ↔ (Float64.toRat ⟨k, 53⟩) < 1 / 5 := by
  simp only [Float64.lt, Float64.toRat, float64_0_2, decide_eq_true_eq]
  rw [div_lt_div_iff₀ (by positivity) (by norm_num)]
  have hcast : ((k : ℚ) * 5 < 1 * 2 ^ 53) ↔ (k * 5 < 1 * 2 ^ 53) := by exact_mod_cast Iff.rfl
  rw [hcast]
  omega

/-- The gate draw lies in `[0, 1)`. -/
theorem randFloat64_range (u : Nat) :
    0 ≤ (randFloat64 u).toRat ∧ (randFloat64 u).toRat < 1 := by
  have hk := randFloat64_num_lt u
  have he : (randFloat64 u).exp = 53 := rfl
  simp only [Float64.toRat, he]
  refine ⟨by positivity, ?_⟩
  rw [div_lt_one (by positivity)]
  exact_mod_cast hk

/-- Go `hex.Encode` writes two characters per byte. -/
theorem hexEncode_length (l : List Nat) : (hexEncode l).length = 2 * l.length := by
  induction l with
  | nil => rfl
  | cons v rest ih => simp only [hexEncode, List.length_cons, ih]; omega

/-- Go `uuid.NewRandom` yields sixteen bytes. -/
theorem uuidNewRandom_length (rnd : List Nat) : (uuidNewRandom rnd).length = 16 := by
  simp [uuidNewRandom]

/-- Go `uuid.NewString` yields thirty-six characters. -/
theorem uuidNewString_length (rnd : List Nat) : (uuidNewString rnd).length = 36 := by
  have h := uuidNewRandom_length rnd
  simp only [uuidNewString, String.length, uuidEncodeHex, List.length_append, List.length_cons,
    hexEncode_length, List.length_take, List.length_drop, h]
  rfl

/-- The sixteen digits of `hextable` are distinct. -/
theorem hextable_inj : ∀ a b : Fin 16,
    hextable.getD a.val '0' = hextable.getD b.val '0' → a = b := by decide

/-- Setting the version bits on a low nibble adds 64. -/
theorem or64 : ∀ y : Fin 16, y.val ||| 0x40 = y.val + 64 := by decide

/-- Setting the variant bit on six low bits adds 128. -/
theorem or128 : ∀ y : Fin 64, y.val ||| 0x80 = y.val + 128 := by decide

/-- Byte 6 of an identifier keeps the low four random bits under the version. -/
theorem mask6 (x : Nat) : (x % 256 &&& 0x0f) ||| 0x40 = x % 16 + 64 := by
  have h : x % 256 &&& 0x0f = x % 16 := by
    have := Nat.and_pow_two_sub_one_eq_mod (x % 256) 4
    simp only [show (2:Nat) ^ 4 - 1 = 0x0f from rfl, show (2:Nat)^4 = 16 from rfl] at this
    rw [this]; omega
  rw [h]
  exact or64 ⟨x % 16, Nat.mod_lt _ (by decide)⟩

/-- Byte 8 of an identifier keeps the low six random bits under the variant. -/
theorem mask8 (x : Nat) : (x % 256 &&& 0x3f) ||| 0x80 = x % 64 + 128 := by
  have h : x % 256 &&& 0x3f = x % 64 := by
    have := Nat.and_pow_two_sub_one_eq_mod (x % 256) 6
    simp only [show (2:Nat) ^ 6 - 1 = 0x3f from rfl, show (2:Nat)^6 = 64 from rfl] at this
    rw [this]; omega
  rw [h]
  exact or128 ⟨x % 64, Nat.mod_lt _ (by decide)⟩

/-- The sixteen bytes of `uuid.NewRandom`, one by one. -/
theorem uuidNewRandom_eq (r : List Nat) :
    uuidNewRandom r =
      [r.getD 0 0 % 256, r.getD 1 0 % 256, r.getD 2 0 % 256, r.getD 3 0 % 256,
       r.getD 4 0 % 256, r.getD 5 0 % 256, r.getD 6 0 % 16 + 64, r.getD 7 0 % 256,
       r.getD 8 0 % 64 + 128, r.getD 9 0 % 256, r.getD 10 0 % 256, r.getD 11 0 % 256,
       r.getD 12 0 % 256, r.getD 13 0 % 256, r.getD 14 0 % 256, r.getD 15 0 % 256] := by
  have h : uuidNewRandom r =
      [r.getD 0 0 % 256, r.getD 1 0 % 256, r.getD 2 0 % 256, r.getD 3 0 % 256,
       r.getD 4 0 % 256, r.getD 5 0 % 256, (r.getD 6 0 % 256 &&& 0x0f) ||| 0x40, r.getD 7 0 % 256,
       (r.getD 8 0 % 256 &&& 0x3f) ||| 0x80, r.getD 9 0 % 256, r.getD 10 0 % 256, r.getD 11 0 % 256,
       r.getD 12 0 % 256, r.getD 13 0 % 256, r.getD 14 0 % 256, r.getD 15 0 % 256] := rfl
  rw [h, mask6, mask8]

/-- Go `hex.Encode` is one-to-one on bytes. -/
theorem hexEncode_inj : ∀ (a b : List Nat), (∀ x ∈ a, x < 256) → (∀ x ∈ b, x < 256) →
    hexEncode a = hexEncode b → a = b := by
  intro a
  induction a with
  | nil =>
    intro b _ _ h
    cases b with
    | nil => rfl
    | cons y ys => simp [hexEncode] at h
  | cons x xs ih =>
    intro b ha hb h
    cases b with
    | nil => simp [hexEncode] at h
    | cons y ys =>
      simp only [hexEncode, List.cons.injEq] at h
      obtain ⟨h1, h2, h3⟩ := h
      have hx : x < 256 := ha x (List.mem_cons_self _ _)
      have hy : y < 256 := hb y (List.mem_cons_self _ _)
      rw [Nat.shiftRight_eq_div_pow] at h1
      rw [Nat.shiftRight_eq_div_pow] at h1
      have e1 : x &&& 0x0f = x % 16 := Nat.and_pow_two_sub_one_eq_mod x 4
      have e2 : y &&& 0x0f = y % 16 := Nat.and_pow_two_sub_one_eq_mod y 4
      rw [e1, e2] at h2
      have k1 := hextable_inj ⟨x / 2 ^ 4, by omega⟩ ⟨y / 2 ^ 4, by omega⟩ h1
      have k2 := hextable_inj ⟨x % 16, by omega⟩ ⟨y % 16, by omega⟩ h2
      simp only [Fin.mk.injEq] at k1 k2
      have hxy : x = y := by omega
      rw [hxy, ih ys (fun z hz => ha z (List.mem_cons_of_mem _ hz))
        (fun z hz => hb z (List.mem_cons_of_mem _ hz)) h3]

/-- The five groups of `UUID.String()` on sixteen given bytes. -/
theorem uuidEncodeHex_explicit (a0 a1 a2 a3 a4 a5 a6 a7 a8 a9 a10 a11 a12 a13 a14 a15 : Nat) :
    uuidEncodeHex [a0, a1, a2, a3, a4, a5, a6, a7, a8, a9, a10, a11, a12, a13, a14, a15] =
      hexEncode [a0, a1, a2, a3] ++ '-' :: (hexEncode [a4, a5] ++ '-' :: (hexEncode [a6, a7] ++
        '-' :: (hexEncode [a8, a9] ++ '-' :: hexEncode [a10, a11, a12, a13, a14, a15]))) := by
  simp [uuidEncodeHex]

/-- Two identifiers are equal exactly when the random bytes behind them agree
on the 122 bits an identifier takes from them. -/
theorem uuidNewString_eq_iff (r s : List Nat) :
    uuidNewString r = uuidNewString s ↔
      (∀ i, i < 16 → i ≠ 6 → i ≠ 8 → r.getD i 0 % 256 = s.getD i 0 % 256) ∧
      r.getD 6 0 % 16 = s.getD 6 0 % 16 ∧ r.getD 8 0 % 64 = s.getD 8 0 % 64 := by
  constructor
  · intro h
    have h := congrArg String.data h
    simp only [uuidNewString, uuidNewRandom_eq, uuidEncodeHex_explicit] at h
    obtain ⟨h1, h⟩ := List.append_inj h rfl
    simp only [List.cons.injEq, true_and] at h
    obtain ⟨h2, h⟩ := List.append_inj h rfl
    simp only [List.cons.injEq, true_and] at h
    obtain ⟨h3, h⟩ := List.append_inj h rfl
    simp only [List.cons.injEq, true_and] at h
    obtain ⟨h4, h⟩ := List.append_inj h rfl
    simp only [List.cons.injEq, true_and] at h
    have b : ∀ x : Nat, x % 256 < 256 := fun x => Nat.mod_lt _ (by decide)
    have e1 := hexEncode_inj _ _ (by simp; omega) (by simp; omega) h1
    have e2 := hexEncode_inj _ _ (by simp; omega) (by simp; omega) h2
    have e3 := hexEncode_inj _ _ (by simp; omega) (by simp; omega) h3
    have e4 := hexEncode_inj _ _ (by simp; omega) (by simp; omega) h4
    have e5 := hexEncode_inj _ _ (by simp; omega) (by simp; omega) h
    simp only [List.cons.injEq, and_true] at e1 e2 e3 e4 e5
    refine ⟨?_, by omega, by omega⟩
    intro i hi h6 h8
    interval_cases i <;> omega
  · rintro ⟨h, h6, h8⟩
    simp only [uuidNewString, uuidNewRandom_eq]
    rw [h 0 (by decide) (by decide) (by decide), h 1 (by decide) (by decide) (by decide),
      h 2 (by decide) (by decide) (by decide), h 3 (by decide) (by decide) (by decide),
      h 4 (by decide) (by decide) (by decide), h 5 (by decide) (by decide) (by decide),
      h 7 (by decide) (by decide) (by decide), h 9 (by decide) (by decide) (by decide),
      h 10 (by decide) (by decide) (by decide), h 11 (by decide) (by decide) (by decide),
      h 12 (by decide) (by decide) (by decide), h 13 (by decide) (by decide) (by decide),
      h 14 (by decide) (by decide) (by decide), h 15 (by decide) (by decide) (by decide),
      h6, h8]

/-- The dashes and the version digit of an identifier. -/
theorem uuidNewString_form (r : List Nat) :
    (uuidNewString r).data.get? 8 = some '-' ∧ (uuidNewString r).data.get? 13 = some '-' ∧
    (uuidNewString r).data.get? 14 = some '4' ∧
    (uuidNewString r).data.get? 18 = some '-' ∧ (uuidNewString r).data.get? 23 = some '-' := by
  have h4 : (r.getD 6 0 % 16 + 64) >>> 4 = 4 := by
    rw [Nat.shiftRight_eq_div_pow]; omega
  simp only [uuidNewString, uuidNewRandom_eq, uuidEncodeHex_explicit, hexEncode, h4]
  refine ⟨rfl, rfl, rfl, rfl, rfl⟩

/-- A successful `Publish` serialized the record and made one broker write,
with the given key and the serialized bytes. -/
theorem Publish_ok (p : Producer) (ctx : Context) (key : String) (value : Record)
    (h : (p.Publish ctx key value).1 = none) :
    ∃ data, p.jsonMarshal value = .ok data ∧
      p.Publish ctx key value =
        (none, [Effect.WriteMessages
          { Topic := "", Partition := 0, Offset := 0, Key := key, Value := data
            Headers := ((p.Inject ctx).foldl (fun c kv => c.Set kv.1 kv.2)
              (⟨[]⟩ : kafkaHeaderCarrier)).headers
            Time := p.now }]) := by
  unfold Producer.Publish at h ⊢
  cases hm : p.jsonMarshal value with
  | error err => simp [hm] at h
  | ok data =>
    refine ⟨data, rfl, ?_⟩
    simp only [hm] at h ⊢
    split at h
    · simp at h
    · rename_i hw
      simp only [hw]

/-- A failed `Publish` returns a wrapped error, never a bare sentinel. -/
theorem Publish_error (p : Producer) (ctx : Context) (key : String) (value : Record) (e : Error)
    (h : (p.Publish ctx key value).1 = some e) :
    ∃ pfx inner, e = Error.wrapf pfx inner := by
  unfold Producer.Publish at h
  cases hm : p.jsonMarshal value with
  | error err =>
    simp only [hm, Option.some.injEq] at h
    exact ⟨_, _, h.symm⟩
  | ok data =>
    simp only [hm] at h
    split at h
    · simp only [Option.some.injEq] at h
      exact ⟨_, _, h.symm⟩
    · simp at h

/-- Every call of `PlaceOrder` starts with the gate draw, whatever its
arguments. -/
theorem PlaceOrder_draws_first (uc : UseCase) (ctx : Context) (customerID : String)
    (items : List String) (totalCents : Int) :
    ∃ rest, (uc.PlaceOrder ctx customerID items totalCents).2 = Effect.randFloat64 :: rest := by
  by_cases hd : (randFloat64 uc.env.Uint64).lt float64_0_2 = true
  · exact ⟨_, by simp only [UseCase.PlaceOrder, hd, if_true]; rfl⟩
  · rcases hp : uc.producer.Publish ctx (uuidNewString uc.env.random16)
        (.order { ID := uuidNewString uc.env.random16, CustomerID := customerID, Items := items
                  TotalCents := totalCents, CreatedAt := uc.env.now }) with ⟨_ | err, w⟩
    · exact ⟨_, by simp only [UseCase.PlaceOrder, hd, hp]; rfl⟩
    · exact ⟨_, by simp only [UseCase.PlaceOrder, hd, hp]; rfl⟩

/-- C5, as stated, fails: `PlaceOrder` does no validation. Called with an empty
customer, no items and a total of zero, with a gate draw that accepts and a
broker that acknowledges, it allocates an identifier, publishes the order,
counts an `ok` outcome and returns the order with a `nil` error. -/
theorem PlaceOrder_invalid_input_counterexample :
    (sample.useCase sample.acceptDraw none).PlaceOrder sample.background "" [] 0 =
      ((some { ID := "00000000-0000-4000-8000-000000000000", CustomerID := "", Items := []
               TotalCents := 0, CreatedAt := ⟨0⟩ }, none),
       [Effect.randFloat64, Effect.uuidNewString,
        Effect.Publish "00000000-0000-4000-8000-000000000000"
          (.order { ID := "00000000-0000-4000-8000-000000000000", CustomerID := "", Items := []
                    TotalCents := 0, CreatedAt := ⟨0⟩ }),
        Effect.WriteMessages
          { Topic := "", Partition := 0, Offset := 0
            Key := "00000000-0000-4000-8000-000000000000"
            Value := "00000000-0000-4000-8000-000000000000,"
            Headers := [⟨"traceparent", ""⟩], Time := ⟨0⟩ },
        Effect.OrdersCreatedAdd 1 "ok", Effect.OrderValueCentsRecord 0,
        Effect.logInfo "order placed"]) := by
  decide

/-- C5, as the code has it. The validation sits in `Controller.Create`: for
every parsed request whose customer is empty, or whose items are empty, or
whose total is not greater than zero, it answers 400 and makes no call at all;
`PlaceOrder` is not entered, since every call of it starts with the gate
draw. -/
theorem Create_rejects_invalid_request (uc : UseCase) (ctx : Context) (req : createOrderRequest)
    (h : req.CustomerID = "" ∨ req.Items = [] ∨ req.TotalCents ≤ 0) :
    Controller.Create uc ctx (.ok req) =
      (⟨400, .error "customer_id, items and total_cents are required"⟩, []) ∧
    (∀ ctx' customerID items totalCents,
      (uc.PlaceOrder ctx' customerID items totalCents).2 ≠ []) := by
  constructor
  · have h' : req.CustomerID = "" ∨ req.Items.length = 0 ∨ req.TotalCents ≤ 0 := by
      rcases h with h | h | h
      · exact Or.inl h
      · exact Or.inr (Or.inl (by simp [h]))
      · exact Or.inr (Or.inr h)
    simp only [Controller.Create, if_pos h']
  · intro ctx' customerID items totalCents hnil
    obtain ⟨rest, hrest⟩ := PlaceOrder_draws_first uc ctx' customerID items totalCents
    rw [hnil] at hrest
    exact List.noConfusion hrest

/-- C5, at three sample requests, one per violated precondition. -/
theorem Create_rejects_invalid_request_witness :
    (Controller.Create (sample.useCase sample.acceptDraw none) sample.background
        (.ok ⟨"", ["pen"], 500⟩) =
      (⟨400, .error "customer_id, items and total_cents are required"⟩, [])) ∧
    (Controller.Create (sample.useCase sample.acceptDraw none) sample.background
        (.ok ⟨"alice", [], 500⟩) =
      (⟨400, .error "customer_id, items and total_cents are required"⟩, [])) ∧
    (Controller.Create (sample.useCase sample.acceptDraw none) sample.background
        (.ok ⟨"alice", ["pen"], 0⟩) =
      (⟨400, .error "customer_id, items and total_cents are required"⟩, [])) :=
  ⟨(Create_rejects_invalid_request (sample.useCase sample.acceptDraw none) sample.background
      ⟨"", ["pen"], 500⟩ (Or.inl rfl)).1,
   (Create_rejects_invalid_request (sample.useCase sample.acceptDraw none) sample.background
      ⟨"alice", [], 500⟩ (Or.inr (Or.inl rfl))).1,
   (Create_rejects_invalid_request (sample.useCase sample.acceptDraw none) sample.background
      ⟨"alice", ["pen"], 0⟩ (Or.inr (Or.inr (by decide)))).1⟩

/-- The gate comparison of `PlaceOrder` is the comparison of the draw with one
fifth. -/
theorem randFloat64_lt_iff (u : Nat) :
    (randFloat64 u).lt float64_0_2 = true ↔ (randFloat64 u).toRat < 1 / 5 :=
  gate_lt_iff _

/-- C6, as stated, fails: with a valid input, a gate draw that accepts and a
broker write that fails, `PlaceOrder` returns a `nil` order together with the
publish error, which is neither `nil` nor `ErrPaymentDeclined`. -/
theorem PlaceOrder_publish_failure_counterexample :
    ((sample.useCase sample.acceptDraw (some (.external "broker down"))).PlaceOrder
        sample.background "alice" ["pen"] 500).1 =
      (none, some (.wrapf "failed to publish message" (.external "broker down"))) ∧
    Error.wrapf "failed to publish message" (.external "broker down") ≠ ErrPaymentDeclined := by
  decide

/-- C6, as the code has it. For all inputs, every gate draw and every producer
behaviour, `PlaceOrder` returns one of three results, and which one is decided
by the gate and by `Publish`: when the gate declines, a `nil` order with
`ErrPaymentDeclined`; when the gate accepts and `Publish` returns `nil`, the new
order with a `nil` error; when the gate accepts and `Publish` returns an error,
a `nil` order with that very error, a wrapped error that is not
`ErrPaymentDeclined`. -/
theorem PlaceOrder_results (uc : UseCase) (ctx : Context) (customerID : String)
    (items : List String) (totalCents : Int) :
    ((∃ o, (uc.PlaceOrder ctx customerID items totalCents).1 = (some o, none)) ∨
     (uc.PlaceOrder ctx customerID items totalCents).1 = (none, some ErrPaymentDeclined) ∨
     (∃ e, (uc.PlaceOrder ctx customerID items totalCents).1 = (none, some e) ∧
       e ≠ ErrPaymentDeclined ∧
       (uc.producer.Publish ctx (uuidNewString uc.env.random16)
         (.order { ID := uuidNewString uc.env.random16, CustomerID := customerID, Items := items
                   TotalCents := totalCents, CreatedAt := uc.env.now })).1 = some e)) ∧
    ((randFloat64 uc.env.Uint64).toRat < 1 / 5 →
      (uc.PlaceOrder ctx customerID items totalCents).1 = (none, some ErrPaymentDeclined)) ∧
    (¬ (randFloat64 uc.env.Uint64).toRat < 1 / 5 →
      (uc.producer.Publish ctx (uuidNewString uc.env.random16)
        (.order { ID := uuidNewString uc.env.random16, CustomerID := customerID, Items := items
                  TotalCents := totalCents, CreatedAt := uc.env.now })).1 = none →
      (uc.PlaceOrder ctx customerID items totalCents).1 =
        (some { ID := uuidNewString uc.env.random16, CustomerID := customerID, Items := items
                TotalCents := totalCents, CreatedAt := uc.env.now }, none)) ∧
    (¬ (randFloat64 uc.env.Uint64).toRat < 1 / 5 →
      ∀ e, (uc.producer.Publish ctx (uuidNewString uc.env.random16)
        (.order { ID := uuidNewString uc.env.random16, CustomerID := customerID, Items := items
                  TotalCents := totalCents, CreatedAt := uc.env.now })).1 = some e →
      (uc.PlaceOrder ctx customerID items totalCents).1 = (none, some e) ∧
        e ≠ ErrPaymentDeclined) := by
  have hwrap : ∀ e, (uc.producer.Publish ctx (uuidNewString uc.env.random16)
      (.order { ID := uuidNewString uc.env.random16, CustomerID := customerID, Items := items
                TotalCents := totalCents, CreatedAt := uc.env.now })).1 = some e →
      e ≠ ErrPaymentDeclined := by
    intro e he
    obtain ⟨pfx, inner, rfl⟩ := Publish_error _ _ _ _ e he
    simp [ErrPaymentDeclined]
  by_cases hd : (randFloat64 uc.env.Uint64).lt float64_0_2 = true
  · have hlt := (randFloat64_lt_iff uc.env.Uint64).mp hd
    have hres : (uc.PlaceOrder ctx customerID items totalCents).1 =
        (none, some ErrPaymentDeclined) := by
      simp only [UseCase.PlaceOrder, hd, if_true]
    exact ⟨Or.inr (Or.inl hres), fun _ => hres, fun h => absurd hlt h, fun h => absurd hlt h⟩
  · have hge : ¬ (randFloat64 uc.env.Uint64).toRat < 1 / 5 :=
      fun h => hd ((randFloat64_lt_iff uc.env.Uint64).mpr h)
    rcases hp : uc.producer.Publish ctx (uuidNewString uc.env.random16)
        (.order { ID := uuidNewString uc.env.random16, CustomerID := customerID, Items := items
                  TotalCents := totalCents, CreatedAt := uc.env.now }) with ⟨_ | err, w⟩
    · have hres : (uc.PlaceOrder ctx customerID items totalCents).1 =
          (some { ID := uuidNewString uc.env.random16, CustomerID := customerID, Items := items
                  TotalCents := totalCents, CreatedAt := uc.env.now }, none) := by
        simp only [UseCase.PlaceOrder, hd, hp]; rfl
      refine ⟨Or.inl ⟨_, hres⟩, fun h => absurd h hge, fun _ _ => hres, ?_⟩
      intro _ e he
      simp at he
    · have hres : (uc.PlaceOrder ctx customerID items totalCents).1 = (none, some err) := by
        simp only [UseCase.PlaceOrder, hd, hp]; rfl
      have hne : err ≠ ErrPaymentDeclined := hwrap err (by rw [hp])
      refine ⟨Or.inr (Or.inr ⟨err, hres, hne, rfl⟩), fun h => absurd h hge, ?_, ?_⟩
      · intro _ he
        simp at he
      · intro _ e he
        simp only [Option.some.injEq] at he
        subst he
        exact ⟨hres, hne⟩

/-- The calls of `Publish`: none, or one broker write. -/
theorem Publish_effects (p : Producer) (ctx : Context) (key : String) (value : Record) :
    (p.Publish ctx key value).2 = [] ∨
      ∃ msg, (p.Publish ctx key value).2 = [Effect.WriteMessages msg] := by
  unfold Producer.Publish
  cases hm : p.jsonMarshal value with
  | error err => exact Or.inl rfl
  | ok data =>
    simp only
    split
    · exact Or.inr ⟨_, rfl⟩
    · exact Or.inr ⟨_, rfl⟩

/-- C7. `PlaceOrder` makes one gate draw `r`, a number of `[0, 1)`, and declines
exactly when `r < 0.2`: then, for every input, it returns a `nil` order with
`ErrPaymentDeclined` itself, makes no publish and no broker write, and counts
one outcome, with status `declined`; and when `r < 0.2` does not hold it does
not return `ErrPaymentDeclined` and counts no `declined` outcome. -/
theorem PlaceOrder_declined (uc : UseCase) (ctx : Context) (customerID : String)
    (items : List String) (totalCents : Int) :
    (0 ≤ (randFloat64 uc.env.Uint64).toRat ∧ (randFloat64 uc.env.Uint64).toRat < 1) ∧
    ((uc.PlaceOrder ctx customerID items totalCents).2.count Effect.randFloat64 = 1) ∧
    ((randFloat64 uc.env.Uint64).toRat < 1 / 5 →
      uc.PlaceOrder ctx customerID items totalCents =
        ((none, some ErrPaymentDeclined),
         [Effect.randFloat64, Effect.OrdersCreatedAdd 1 "declined"])) ∧
    (¬ (randFloat64 uc.env.Uint64).toRat < 1 / 5 →
      (uc.PlaceOrder ctx customerID items totalCents).1.2 ≠ some ErrPaymentDeclined ∧
      ∀ n, Effect.OrdersCreatedAdd n "declined" ∉
        (uc.PlaceOrder ctx customerID items totalCents).2) := by
  refine ⟨randFloat64_range _, ?_, ?_, ?_⟩
  · by_cases hd : (randFloat64 uc.env.Uint64).lt float64_0_2 = true
    · simp only [UseCase.PlaceOrder, hd, if_true]
      decide
    · rcases hp : uc.producer.Publish ctx (uuidNewString uc.env.random16)
          (.order { ID := uuidNewString uc.env.random16, CustomerID := customerID, Items := items
                    TotalCents := totalCents, CreatedAt := uc.env.now }) with ⟨res, w⟩
      have hw := Publish_effects uc.producer ctx (uuidNewString uc.env.random16)
          (.order { ID := uuidNewString uc.env.random16, CustomerID := customerID, Items := items
                    TotalCents := totalCents, CreatedAt := uc.env.now })
      rw [hp] at hw
      rcases res with _ | err <;> rcases hw with hw | ⟨msg, hw⟩ <;>
        simp only [UseCase.PlaceOrder, hd, hp] <;> simp at hw <;> subst hw <;> simp
  · intro hlt
    have hd := (randFloat64_lt_iff _).mpr hlt
    simp only [UseCase.PlaceOrder, hd, if_true]
  · intro hlt
    have hd : ¬ (randFloat64 uc.env.Uint64).lt float64_0_2 = true :=
      fun h => hlt ((randFloat64_lt_iff _).mp h)
    rcases hp : uc.producer.Publish ctx (uuidNewString uc.env.random16)
        (.order { ID := uuidNewString uc.env.random16, CustomerID := customerID, Items := items
                  TotalCents := totalCents, CreatedAt := uc.env.now }) with ⟨res, w⟩
    have hw := Publish_effects uc.producer ctx (uuidNewString uc.env.random16)
        (.order { ID := uuidNewString uc.env.random16, CustomerID := customerID, Items := items
                  TotalCents := totalCents, CreatedAt := uc.env.now })
    rw [hp] at hw
    rcases res with _ | err
    · refine ⟨by simp only [UseCase.PlaceOrder, hd, hp]; simp, ?_⟩
      intro n
      rcases hw with hw | ⟨msg, hw⟩ <;> simp at hw <;> subst hw <;>
        simp only [UseCase.PlaceOrder, hd, hp] <;> simp
    · obtain ⟨pfx, inner, rfl⟩ := Publish_error _ _ _ _ err (by rw [hp])
      refine ⟨by simp only [UseCase.PlaceOrder, hd, hp]; simp [ErrPaymentDeclined], ?_⟩
      intro n
      rcases hw with hw | ⟨msg, hw⟩ <;> simp at hw <;> subst hw <;>
        simp only [UseCase.PlaceOrder, hd, hp] <;> simp

/-- C7, at the sample call `PlaceOrder("bob", ["mug"], 300)` with the draw zero:
declined, nothing published, one `declined` outcome. -/
theorem PlaceOrder_declined_witness :
    (sample.useCase sample.declineDraw none).PlaceOrder sample.background "bob" ["mug"] 300 =
      ((none, some ErrPaymentDeclined),
       [Effect.randFloat64, Effect.OrdersCreatedAdd 1 "declined"]) :=
  (PlaceOrder_declined (sample.useCase sample.declineDraw none) sample.background "bob" ["mug"]
    300).2.2.1 ((randFloat64_lt_iff sample.declineDraw).mp (by decide))

/-- An order returned by `PlaceOrder` carries the identifier generated from the
random bytes of that call. -/
theorem PlaceOrder_order_ID (uc : UseCase) (ctx : Context) (customerID : String)
    (items : List String) (totalCents : Int) (o : models.Order)
    (h : (uc.PlaceOrder ctx customerID items totalCents).1.1 = some o) :
    o.ID = uuidNewString uc.env.random16 := by
  by_cases hd : (randFloat64 uc.env.Uint64).lt float64_0_2 = true
  · simp [UseCase.PlaceOrder, hd] at h
  · rcases hp : uc.producer.Publish ctx (uuidNewString uc.env.random16)
        (.order { ID := uuidNewString uc.env.random16, CustomerID := customerID, Items := items
                  TotalCents := totalCents, CreatedAt := uc.env.now }) with ⟨_ | err, w⟩
    · simp only [UseCase.PlaceOrder, hd, hp] at h
      simp only [Bool.false_eq_true, if_false, Option.some.injEq] at h
      rw [← h]
    · simp only [UseCase.PlaceOrder, hd, hp] at h
      simp at h

/-- C8. When the gate accepts and the publish succeeds, `PlaceOrder` returns,
with a `nil` error, the order made of the freshly generated identifier, the
three arguments and the creation time. The identifier has thirty-six
characters, so it is not blank, with dashes after the groups of 8, 4, 4 and 4
digits and the version digit 4. It is generated from the random bytes of this
call: the order of any other call of `PlaceOrder` has the same identifier
exactly when the random bytes of the two calls agree on all 122 bits an
identifier takes from them. Exactly one record has been published, that same
order, by one broker write whose key is the identifier and whose value is the
serialized order; one `ok` outcome and the order value are counted. This holds
for every input, valid ones included. -/
theorem PlaceOrder_accepted (uc : UseCase) (ctx : Context) (customerID : String)
    (items : List String) (totalCents : Int) (o : models.Order)
    (ho : o = { ID := uuidNewString uc.env.random16, CustomerID := customerID, Items := items
                TotalCents := totalCents, CreatedAt := uc.env.now })
    (hgate : ¬ (randFloat64 uc.env.Uint64).toRat < 1 / 5)
    (hpub : (uc.producer.Publish ctx o.ID (.order o)).1 = none) :
    o.ID.length = 36 ∧ o.ID ≠ "" ∧
    (o.ID.data.get? 8 = some '-' ∧ o.ID.data.get? 13 = some '-' ∧
      o.ID.data.get? 14 = some '4' ∧
      o.ID.data.get? 18 = some '-' ∧ o.ID.data.get? 23 = some '-') ∧
    (∀ (uc2 : UseCase) (ctx2 : Context) (customerID2 : String) (items2 : List String)
        (totalCents2 : Int) (o2 : models.Order),
      (uc2.PlaceOrder ctx2 customerID2 items2 totalCents2).1.1 = some o2 →
      (o2.ID = o.ID ↔
        (∀ i, i < 16 → i ≠ 6 → i ≠ 8 →
          uc2.env.random16.getD i 0 % 256 = uc.env.random16.getD i 0 % 256) ∧
        uc2.env.random16.getD 6 0 % 16 = uc.env.random16.getD 6 0 % 16 ∧
        uc2.env.random16.getD 8 0 % 64 = uc.env.random16.getD 8 0 % 64)) ∧
    ∃ data, uc.producer.jsonMarshal (.order o) = .ok data ∧
      uc.PlaceOrder ctx customerID items totalCents =
        ((some o, none),
         [Effect.randFloat64, Effect.uuidNewString, Effect.Publish o.ID (.order o),
          Effect.WriteMessages
            { Topic := "", Partition := 0, Offset := 0, Key := o.ID, Value := data
              Headers := ((uc.producer.Inject ctx).foldl (fun c kv => c.Set kv.1 kv.2)
                (⟨[]⟩ : kafkaHeaderCarrier)).headers
              Time := uc.producer.now },
          Effect.OrdersCreatedAdd 1 "ok", Effect.OrderValueCentsRecord totalCents,
          Effect.logInfo "order placed"]) := by
  have hd : ¬ (randFloat64 uc.env.Uint64).lt float64_0_2 = true :=
    fun h => hgate ((randFloat64_lt_iff _).mp h)
  have hid : o.ID = uuidNewString uc.env.random16 := by rw [ho]
  have hlen : o.ID.length = 36 := by rw [hid]; exact uuidNewString_length _
  refine ⟨hlen, ?_, ?_, ?_, ?_⟩
  · intro hempty
    rw [hempty] at hlen
    exact absurd hlen (by decide)
  · rw [hid]
    exact uuidNewString_form _
  · intro uc2 ctx2 customerID2 items2 totalCents2 o2 h2
    rw [hid, PlaceOrder_order_ID uc2 ctx2 customerID2 items2 totalCents2 o2 h2]
    exact uuidNewString_eq_iff _ _
  · obtain ⟨data, hm, hp⟩ := Publish_ok uc.producer ctx o.ID (.order o) hpub
    refine ⟨data, hm, ?_⟩
    subst ho
    simp only [UseCase.PlaceOrder, hd, hp]
    rfl

/-- C8, at the sample call `PlaceOrder("alice", ["pen"], 500)` with a draw that
accepts, sixteen given random bytes and a broker that acknowledges; the call
with random bytes all zero gets another identifier. -/
theorem PlaceOrder_accepted_witness :
    ("12345678-9abc-4ef0-9234-56789abcdef0" : String).length = 36 ∧
    ("12345678-9abc-4ef0-9234-56789abcdef0" : String) ≠ "" ∧
    (∃ data,
      (sample.useCaseWith sample.acceptDraw sample.randomBytes none).producer.jsonMarshal
        (.order { ID := "12345678-9abc-4ef0-9234-56789abcdef0", CustomerID := "alice"
                  Items := ["pen"], TotalCents := 500, CreatedAt := ⟨0⟩ }) = .ok data ∧
      (sample.useCaseWith sample.acceptDraw sample.randomBytes none).PlaceOrder
          sample.background "alice" ["pen"] 500 =
        ((some { ID := "12345678-9abc-4ef0-9234-56789abcdef0", CustomerID := "alice"
                 Items := ["pen"], TotalCents := 500, CreatedAt := ⟨0⟩ }, none),
         [Effect.randFloat64, Effect.uuidNewString,
          Effect.Publish "12345678-9abc-4ef0-9234-56789abcdef0"
            (.order { ID := "12345678-9abc-4ef0-9234-56789abcdef0", CustomerID := "alice"
                      Items := ["pen"], TotalCents := 500, CreatedAt := ⟨0⟩ }),
          Effect.WriteMessages
            { Topic := "", Partition := 0, Offset := 0
              Key := "12345678-9abc-4ef0-9234-56789abcdef0", Value := data
              Headers := [⟨"traceparent", ""⟩], Time := ⟨0⟩ },
          Effect.OrdersCreatedAdd 1 "ok", Effect.OrderValueCentsRecord 500,
          Effect.logInfo "order placed"])) ∧
    ("00000000-0000-4000-8000-000000000000" : String) ≠ "12345678-9abc-4ef0-9234-56789abcdef0" :=
  have T := PlaceOrder_accepted (sample.useCaseWith sample.acceptDraw sample.randomBytes none)
    sample.background "alice" ["pen"] 500
    { ID := "12345678-9abc-4ef0-9234-56789abcdef0", CustomerID := "alice"
      Items := ["pen"], TotalCents := 500, CreatedAt := ⟨0⟩ }
    (by decide)
    (fun h => absurd ((randFloat64_lt_iff sample.acceptDraw).mpr h) (by decide))
    (by decide)
  ⟨T.1, T.2.1, T.2.2.2.2,
    fun h => absurd
      (((T.2.2.2.1 (sample.useCase sample.acceptDraw none) sample.background "bob" ["mug"] 300
        { ID := "00000000-0000-4000-8000-000000000000", CustomerID := "bob"
          Items := ["mug"], TotalCents := 300, CreatedAt := ⟨0⟩ } (by decide)).mp h).1 0
        (by decide) (by decide) (by decide))
      (by decide)⟩

/-! ## Customer identity: processOrder and ConfirmPayment -/

/-- A baggage without a member under `key` answers the zero member, whose value
is empty. -/
theorem Baggage_Member_absent (b : Baggage) (key : String)
    (h : ∀ m ∈ b.list, m.key ≠ key) : (b.Member key).Value = "" := by
  have hnone : b.list.find? (fun m => m.key == key) = none := by
    rw [List.find?_eq_none]
    intro m hm
    simpa using h m hm
  simp only [Baggage.Member, hnone]
  rfl

/-- C9, as stated, fails at the empty value: the baggage carries
`customer_id = ""`, the payload's own customer is `"Y"`, and the payment that
`processOrder` builds and publishes has customer `"Y"`, not the baggage's. -/
theorem processOrder_empty_baggage_counterexample :
    (baggage.FromContext (sample.withCustomer "")).Member "customer_id" = ⟨"customer_id", ""⟩ ∧
    consumer.processOrder (sample.globals sample.orderOfY none) (sample.withCustomer "")
        "o1" "payload" =
      (none,
       [Effect.randIntN 451, Effect.sleep 50, Effect.MessagesConsumedAdd 1 "Y",
        Effect.ProcessingTimeRecord 50 "Y",
        Effect.Publish "o1" (.payment { OrderID := "o1", CustomerID := "Y", TotalCents := 500,
                                         Status := "confirmed", ConfirmedAt := ⟨9⟩ }),
        Effect.WriteMessages
          { Topic := "", Partition := 0, Offset := 0, Key := "o1", Value := "o1,Y",
            Headers := [⟨"traceparent", ""⟩], Time := ⟨0⟩ },
        Effect.logInfo "order processed, payment published"]) := by
  decide

/-- C9, as the code has it. For every payload that decodes to an order and
every context: when the baggage carries a non-empty `customer_id = X`, the
payment that `processOrder` builds and hands to the payment producer has
customer `X`; when the value read from the baggage is empty, which is the case
when the baggage carries no `customer_id` and when it carries an empty one, the
payment has the order's own customer. -/
theorem processOrder_customer_override (g : consumer.Globals) (ctx : Context)
    (key value : String) (order : models.Order)
    (hdec : g.jsonUnmarshalOrder value = .ok order) :
    (∀ X, (baggage.FromContext ctx).Member "customer_id" = ⟨"customer_id", X⟩ → X ≠ "" →
      ∃ rest, (consumer.processOrder g ctx key value).2 =
        [Effect.randIntN 451, Effect.sleep (50 + g.IntN451 % 451),
         Effect.MessagesConsumedAdd 1 X,
         Effect.ProcessingTimeRecord (50 + g.IntN451 % 451) X,
         Effect.Publish order.ID (.payment { OrderID := order.ID, CustomerID := X,
                                              TotalCents := order.TotalCents,
                                              Status := "confirmed", ConfirmedAt := g.now })] ++
          rest) ∧
    (((baggage.FromContext ctx).Member "customer_id").Value = "" →
      ∃ rest, (consumer.processOrder g ctx key value).2 =
        [Effect.randIntN 451, Effect.sleep (50 + g.IntN451 % 451),
         Effect.MessagesConsumedAdd 1 order.CustomerID,
         Effect.ProcessingTimeRecord (50 + g.IntN451 % 451) order.CustomerID,
         Effect.Publish order.ID (.payment { OrderID := order.ID, CustomerID := order.CustomerID,
                                              TotalCents := order.TotalCents,
                                              Status := "confirmed", ConfirmedAt := g.now })] ++
          rest) ∧
    ((∀ m ∈ (baggage.FromContext ctx).list, m.key ≠ "customer_id") →
      ((baggage.FromContext ctx).Member "customer_id").Value = "") := by
  refine ⟨?_, ?_, Baggage_Member_absent _ _⟩
  · intro X hX hne
    have hv : ((baggage.FromContext ctx).Member "customer_id").Value = X := by rw [hX]; rfl
    rcases hp : g.paymentProducer.Publish ctx order.ID
        (.payment { OrderID := order.ID, CustomerID := X, TotalCents := order.TotalCents,
                    Status := "confirmed", ConfirmedAt := g.now }) with ⟨_ | err, w⟩
    · refine ⟨w ++ [Effect.logInfo "order processed, payment published"], ?_⟩
      simp only [consumer.processOrder, hdec, hv, ne_eq, hne, not_false_eq_true, if_true, hp,
        List.append_assoc]
    · refine ⟨w, ?_⟩
      simp only [consumer.processOrder, hdec, hv, ne_eq, hne, not_false_eq_true, if_true, hp]
  · intro hv
    rcases hp : g.paymentProducer.Publish ctx order.ID
        (.payment { OrderID := order.ID, CustomerID := order.CustomerID,
                    TotalCents := order.TotalCents,
                    Status := "confirmed", ConfirmedAt := g.now }) with ⟨_ | err, w⟩
    · refine ⟨w ++ [Effect.logInfo "order processed, payment published"], ?_⟩
      simp only [consumer.processOrder, hdec, ne_eq, hv, not_true_eq_false, if_false, hp,
        List.append_assoc]
    · refine ⟨w, ?_⟩
      simp only [consumer.processOrder, hdec, ne_eq, hv, not_true_eq_false, if_false, hp]

/-- C9, at the sample payload of customer `"Y"` under a baggage that carries
`customer_id = "X"`: the payment handed to the producer has customer `"X"`. -/
theorem processOrder_customer_override_witness :
    ∃ rest, (consumer.processOrder (sample.globals sample.orderOfY none)
        (sample.withCustomer "X") "o1" "payload").2 =
      [Effect.randIntN 451, Effect.sleep (50 + (sample.globals sample.orderOfY none).IntN451 % 451),
       Effect.MessagesConsumedAdd 1 "X",
       Effect.ProcessingTimeRecord (50 + (sample.globals sample.orderOfY none).IntN451 % 451) "X",
       Effect.Publish sample.orderOfY.ID
         (.payment { OrderID := sample.orderOfY.ID, CustomerID := "X",
                     TotalCents := sample.orderOfY.TotalCents,
                     Status := "confirmed",
                     ConfirmedAt := (sample.globals sample.orderOfY none).now })] ++ rest :=
  (processOrder_customer_override (sample.globals sample.orderOfY none) (sample.withCustomer "X")
    "o1" "payload" sample.orderOfY rfl).1 "X" rfl (by decide)

/-- C10, as stated, fails at the empty value: the baggage carries
`customer_id = ""`, the argument is `"bob"`, and the payment returned by
`ConfirmPayment` has customer `"bob"`, not the baggage's. -/
theorem ConfirmPayment_empty_baggage_counterexample :
    (baggage.FromContext (sample.withCustomer "")).Member "customer_id" = ⟨"customer_id", ""⟩ ∧
    (payment.UseCase.ConfirmPayment ⟨5⟩ (sample.withCustomer "") "o1" "bob" 10).1 =
      (some { OrderID := "o1", CustomerID := "bob", TotalCents := 10, Status := "confirmed",
              ConfirmedAt := ⟨5⟩ }, none) := by
  decide

/-- C10, as the code has it. `ConfirmPayment` never fails and keeps no state:
for every context and arguments it returns a `nil` error and a payment with the
given order and total, status `confirmed` and the current time; its customer is
the baggage's `customer_id` when the baggage carries a non-empty one, and the
argument when the value read from the baggage is empty (no member, or an empty
one); it counts one confirmation; and a second call with the same arguments, at
any later time, returns the same payment apart from the timestamp. -/
theorem ConfirmPayment_result (now : Time) (ctx : Context) (orderID customerID : String)
    (totalCents : Int) :
    ∃ p, payment.UseCase.ConfirmPayment now ctx orderID customerID totalCents =
        ((some p, none), [Effect.PaymentsConfirmedAdd 1, Effect.logInfo "payment confirmed"]) ∧
      p.OrderID = orderID ∧ p.TotalCents = totalCents ∧ p.Status = "confirmed" ∧
      p.ConfirmedAt = now ∧
      (∀ X, (baggage.FromContext ctx).Member "customer_id" = ⟨"customer_id", X⟩ → X ≠ "" →
        p.CustomerID = X) ∧
      (((baggage.FromContext ctx).Member "customer_id").Value = "" → p.CustomerID = customerID) ∧
      ((∀ m ∈ (baggage.FromContext ctx).list, m.key ≠ "customer_id") →
        p.CustomerID = customerID) ∧
      (∀ later, payment.UseCase.ConfirmPayment later ctx orderID customerID totalCents =
        ((some { p with ConfirmedAt := later }, none),
         [Effect.PaymentsConfirmedAdd 1, Effect.logInfo "payment confirmed"])) := by
  refine ⟨_, rfl, rfl, rfl, rfl, rfl, ?_, ?_, ?_, fun _ => rfl⟩
  · intro X hX hne
    have hv : ((baggage.FromContext ctx).Member "customer_id").Value = X := by rw [hX]; rfl
    simp only [hv, ne_eq, hne, not_false_eq_true, if_true]
  · intro hv
    simp only [hv, ne_eq, not_true_eq_false, if_false]
  · intro habs
    have hv := Baggage_Member_absent _ _ habs
    simp only [hv, ne_eq, not_true_eq_false, if_false]

/-- C10, at two sample calls for the same order under a baggage that carries
`customer_id = "X"`: both are accepted and differ in the timestamp only. -/
theorem ConfirmPayment_result_witness :
    payment.UseCase.ConfirmPayment ⟨5⟩ (sample.withCustomer "X") "o1" "bob" 10 =
      ((some { OrderID := "o1", CustomerID := "X", TotalCents := 10, Status := "confirmed",
               ConfirmedAt := ⟨5⟩ }, none),
       [Effect.PaymentsConfirmedAdd 1, Effect.logInfo "payment confirmed"]) ∧
    payment.UseCase.ConfirmPayment ⟨6⟩ (sample.withCustomer "X") "o1" "bob" 10 =
      ((some { OrderID := "o1", CustomerID := "X", TotalCents := 10, Status := "confirmed",
               ConfirmedAt := ⟨6⟩ }, none),
       [Effect.PaymentsConfirmedAdd 1, Effect.logInfo "payment confirmed"]) ∧
    (∃ p, payment.UseCase.ConfirmPayment ⟨5⟩ (sample.withCustomer "X") "o1" "bob" 10 =
      ((some p, none), [Effect.PaymentsConfirmedAdd 1, Effect.logInfo "payment confirmed"]) ∧
      p.OrderID = "o1") :=
  ⟨by decide, by decide,
   (ConfirmPayment_result ⟨5⟩ (sample.withCustomer "X") "o1" "bob" 10).imp
     (fun _ h => ⟨h.1, h.2.1⟩)⟩

/-! ## Producer.Publish and the header carrier -/

/-- C13. `Producer.Publish` makes no second attempt and fails cleanly: when
`json.Marshal` fails it returns the error `failed to serialize message` wrapping
the cause and makes no broker write; when it succeeds `Publish` makes exactly
one `WriteMessages` call, for a message with the given key and the serialized
bytes, and returns `nil` when that write succeeds and the error
`failed to publish message` wrapping the write error when it does not. -/
theorem Publish_single_write (p : Producer) (ctx : Context) (key : String) (value : Record) :
    (∀ e, p.jsonMarshal value = .error e →
      p.Publish ctx key value = (some (.wrapf "failed to serialize message" e), [])) ∧
    (∀ data, p.jsonMarshal value = .ok data →
      ∃ msg : Message, msg.Key = key ∧ msg.Value = data ∧
        (p.Publish ctx key value).2 = [Effect.WriteMessages msg] ∧
        (p.WriteMessages msg = none → (p.Publish ctx key value).1 = none) ∧
        (∀ e, p.WriteMessages msg = some e →
          (p.Publish ctx key value).1 = some (.wrapf "failed to publish message" e))) := by
  constructor
  · intro e hm
    simp only [Producer.Publish, hm]
  · intro data hm
    refine ⟨{ Topic := "", Partition := 0, Offset := 0, Key := key, Value := data,
              Headers := ((p.Inject ctx).foldl (fun c kv => c.Set kv.1 kv.2)
                (⟨[]⟩ : kafkaHeaderCarrier)).headers,
              Time := p.now }, rfl, rfl, ?_, ?_, ?_⟩
    · simp only [Producer.Publish, hm]
      split <;> rfl
    · intro hw
      simp only [Producer.Publish, hm, hw]
    · intro e hw
      simp only [Producer.Publish, hm, hw]

/-- C13, at a sample producer whose broker refuses the write: one write, for
the key and the serialized bytes, and the wrapped write error. -/
theorem Publish_single_write_witness :
    (sample.producer "payments" (some (.external "broker down"))).Publish sample.background "o1"
        (.payment sample.paymentOfO1) =
      (some (.wrapf "failed to publish message" (.external "broker down")),
       [Effect.WriteMessages
          { Topic := "", Partition := 0, Offset := 0, Key := "o1", Value := "o1,alice",
            Headers := [⟨"traceparent", ""⟩], Time := ⟨0⟩ }]) ∧
    (∃ msg : Message, msg.Key = "o1" ∧ msg.Value = "o1,alice" ∧
      ((sample.producer "payments" none).Publish sample.background "o1"
        (.payment sample.paymentOfO1)).2 = [Effect.WriteMessages msg] ∧
      ((sample.producer "payments" none).WriteMessages msg = none →
        ((sample.producer "payments" none).Publish sample.background "o1"
          (.payment sample.paymentOfO1)).1 = none) ∧
      (∀ e, (sample.producer "payments" none).WriteMessages msg = some e →
        ((sample.producer "payments" none).Publish sample.background "o1"
          (.payment sample.paymentOfO1)).1 = some (.wrapf "failed to publish message" e))) :=
  ⟨by decide,
   (Publish_single_write (sample.producer "payments" none) sample.background "o1"
      (.payment sample.paymentOfO1)).2 "o1,alice" rfl⟩

/-- C15. The header carrier does not deduplicate: `Set` puts one header with the
given key and value at the end and leaves every header that was there, at its
place, also when one of them has the same key; `Keys` has one entry per header,
in header order, so it is as long as the header list. -/
theorem carrier_Set_appends (c : kafkaHeaderCarrier) (key value : String) :
    (c.Set key value).headers = c.headers ++ [⟨key, value⟩] ∧
    (c.Set key value).headers.length = c.headers.length + 1 ∧
    (∀ i : Nat, i < c.headers.length → (c.Set key value).headers[i]? = c.headers[i]?) ∧
    (c.Set key value).headers[c.headers.length]? = some ⟨key, value⟩ ∧
    c.Keys.length = c.headers.length ∧
    (∀ i : Nat, c.Keys[i]? = (c.headers[i]?).map (fun h : Header => h.Key)) ∧
    (c.Set key value).Keys = c.Keys ++ [key] := by
  refine ⟨rfl, ?_, ?_, ?_, ?_, ?_, ?_⟩
  · simp [kafkaHeaderCarrier.Set]
  · intro i hi
    simp only [kafkaHeaderCarrier.Set]
    exact List.getElem?_append_left hi
  · simp [kafkaHeaderCarrier.Set]
  · simp [kafkaHeaderCarrier.Keys]
  · intro i
    simp [kafkaHeaderCarrier.Keys]
  · simp [kafkaHeaderCarrier.Keys, kafkaHeaderCarrier.Set]

/-- C15, at a carrier that already holds the key: the header is added, not
replaced, and `Keys` lists the key twice. -/
theorem carrier_Set_appends_witness :
    ((⟨[⟨"traceparent", "a"⟩]⟩ : kafkaHeaderCarrier).Set "traceparent" "b").headers =
      [⟨"traceparent", "a"⟩, ⟨"traceparent", "b"⟩] ∧
    ((⟨[⟨"traceparent", "a"⟩]⟩ : kafkaHeaderCarrier).Set "traceparent" "b").Keys =
      ["traceparent", "traceparent"] :=
  ⟨(carrier_Set_appends ⟨[⟨"traceparent", "a"⟩]⟩ "traceparent" "b").1, by decide⟩

/-- The lookup of `Get` skips the headers with another key. -/
theorem carrier_find_append (pre post : List Header) (k : String)
    (hpre : ∀ x ∈ pre, x.Key ≠ k) :
    (pre ++ post).find? (fun h => h.Key == k) = post.find? (fun h => h.Key == k) := by
  induction pre with
  | nil => rfl
  | cons a pre ih =>
    have ha : a.Key ≠ k := hpre a (List.mem_cons_self _ _)
    have hrest : ∀ x ∈ pre, x.Key ≠ k := fun x hx => hpre x (List.mem_cons_of_mem _ hx)
    have hb : (a.Key == k) = false := by simpa using ha
    simp only [List.cons_append, List.find?_cons, hb, ih hrest]

/-- C17. The call `Get(k)` returns the value of the first header whose key is
`k`, and the empty string when no header has that key, so that an absent header
and one with an empty value read the same. Hence `Get(k)` after `Set(k, v)`
returns `v` when no header had the key before, and still returns what it
returned before when one had: `Set` never overwrites. -/
theorem carrier_Get_first (c : kafkaHeaderCarrier) (k : String) :
    (∀ pre h post, c.headers = pre ++ h :: post → h.Key = k → (∀ x ∈ pre, x.Key ≠ k) →
      c.Get k = h.Value) ∧
    ((∀ x ∈ c.headers, x.Key ≠ k) → c.Get k = "") ∧
    (∀ v, (∀ x ∈ c.headers, x.Key ≠ k) → (c.Set k v).Get k = v) ∧
    (∀ v, (∃ x ∈ c.headers, x.Key = k) → (c.Set k v).Get k = c.Get k) := by
  refine ⟨?_, ?_, ?_, ?_⟩
  · intro pre h post hc hk hpre
    simp only [kafkaHeaderCarrier.Get, hc, carrier_find_append pre (h :: post) k hpre,
      List.find?_cons, hk, beq_self_eq_true]
  · intro hnone
    have hf : c.headers.find? (fun h => h.Key == k) = none := by
      rw [List.find?_eq_none]
      intro x hx
      simpa using hnone x hx
    simp only [kafkaHeaderCarrier.Get, hf]
  · intro v hnone
    simp only [kafkaHeaderCarrier.Get, kafkaHeaderCarrier.Set,
      carrier_find_append c.headers [⟨k, v⟩] k hnone, List.find?_cons, beq_self_eq_true]
  · intro v hsome
    obtain ⟨x, hx, hxk⟩ := hsome
    have hf : (c.headers.find? (fun h => h.Key == k)).isSome = true := by
      rw [List.find?_isSome]
      exact ⟨x, hx, by simpa using hxk⟩
    obtain ⟨y, hy⟩ := Option.isSome_iff_exists.mp hf
    simp only [kafkaHeaderCarrier.Get, kafkaHeaderCarrier.Set, List.find?_append, hy,
      Option.or]

/-- C17, at sample carriers: the first of two headers with the key is read, an
empty value reads like no header, and a `Set` over an existing key does not
change what `Get` returns. -/
theorem carrier_Get_first_witness :
    (⟨[⟨"a", "1"⟩, ⟨"k", "2"⟩, ⟨"k", "3"⟩]⟩ : kafkaHeaderCarrier).Get "k" = "2" ∧
    (⟨[⟨"k", ""⟩]⟩ : kafkaHeaderCarrier).Get "k" = (⟨[]⟩ : kafkaHeaderCarrier).Get "k" ∧
    ((⟨[⟨"a", "1"⟩]⟩ : kafkaHeaderCarrier).Set "k" "v").Get "k" = "v" ∧
    ((⟨[⟨"k", "old"⟩]⟩ : kafkaHeaderCarrier).Set "k" "new").Get "k" =
      (⟨[⟨"k", "old"⟩]⟩ : kafkaHeaderCarrier).Get "k" :=
  ⟨(carrier_Get_first ⟨[⟨"a", "1"⟩, ⟨"k", "2"⟩, ⟨"k", "3"⟩]⟩ "k").1 [⟨"a", "1"⟩] ⟨"k", "2"⟩
      [⟨"k", "3"⟩] rfl rfl (by decide),
   by decide,
   (carrier_Get_first ⟨[⟨"a", "1"⟩]⟩ "k").2.2.1 "v" (by decide),
   (carrier_Get_first ⟨[⟨"k", "old"⟩]⟩ "k").2.2.2 "new" ⟨⟨"k", "old"⟩, by simp, rfl⟩⟩

/-! ## Topic provisioning -/

/-- C14, as stated, fails on `CreateTopic`, which has no case for an existing
topic: when the create call `controllerConn.CreateTopics` returns
`TopicAlreadyExists`, `CreateTopic` returns that error, wrapped; `main` of
`cmd/order-api` then logs its warning and goes on to build the producer. -/
theorem CreateTopic_already_exists_counterexample :
    CreateTopic (sample.cluster (some TopicAlreadyExists)) "localhost:9092" "orders" 3 1 =
      some (.wrapf "failed to create topic" TopicAlreadyExists) ∧
    orderapi.main_provision (sample.cluster (some TopicAlreadyExists)) "localhost:9092" =
      [.CreateTopic "localhost:9092" "orders" 3 1
         (some (.wrapf "failed to create topic" TopicAlreadyExists)),
       .logWarn "failed to create topic orders (may already exist)"
         (.wrapf "failed to create topic" TopicAlreadyExists),
       .NewProducer ["localhost:9092"] "orders"] := by
  decide

/-- C14, as the code has it. `CreateTopic` returns `nil` exactly when the dial of
the broker, the controller lookup, the dial of the controller at
`JoinHostPort(host, Itoa(port))` and the create call all return `nil`; it
returns an error exactly when one of these four steps fails with the steps
before it succeeded, and the error is the cause wrapped under the step's own
text, whatever the cause is, `TopicAlreadyExists` included. Calling it at every
start is safe through the caller: `main` of `cmd/order-api` logs its warning
exactly when `CreateTopic` returned an error, and in both cases goes on to
build the producer. -/
theorem CreateTopic_result (k : Cluster) (broker topic : String)
    (partitions replication : Int) :
    (CreateTopic k broker topic partitions replication = none ↔
      k.DialContext broker = none ∧
      ∃ host port, k.Controller = .ok (host, port) ∧
        k.DialContext (JoinHostPort host (toString port)) = none ∧
        k.CreateTopics { Topic := topic, NumPartitions := partitions,
                         ReplicationFactor := replication } = none) ∧
    (∀ e, CreateTopic k broker topic partitions replication = some e ↔
      (∃ cause, k.DialContext broker = some cause ∧
        e = .wrapf "failed to connect to broker" cause) ∨
      (k.DialContext broker = none ∧
        ∃ cause, k.Controller = .error cause ∧ e = .wrapf "failed to get controller" cause) ∨
      (k.DialContext broker = none ∧
        ∃ host port cause, k.Controller = .ok (host, port) ∧
          k.DialContext (JoinHostPort host (toString port)) = some cause ∧
          e = .wrapf "failed to connect to controller" cause) ∨
      (k.DialContext broker = none ∧
        ∃ host port cause, k.Controller = .ok (host, port) ∧
          k.DialContext (JoinHostPort host (toString port)) = none ∧
          k.CreateTopics { Topic := topic, NumPartitions := partitions,
                           ReplicationFactor := replication } = some cause ∧
          e = .wrapf "failed to create topic" cause)) ∧
    (∀ addr,
      (orderapi.main_provision k addr).head? =
        some (.CreateTopic addr "orders" 3 1 (CreateTopic k addr "orders" 3 1)) ∧
      (orderapi.main_provision k addr).getLast? = some (.NewProducer [addr] "orders") ∧
      (∀ msg err, orderapi.StartupCall.logWarn msg err ∈ orderapi.main_provision k addr ↔
        msg = "failed to create topic orders (may already exist)" ∧
        CreateTopic k addr "orders" 3 1 = some err)) := by
  refine ⟨?_, ?_, ?_⟩
  · cases hd : k.DialContext broker with
    | some cause => simp [CreateTopic, hd]
    | none =>
      cases hc : k.Controller with
      | error cause => simp [CreateTopic, hd, hc]
      | ok controller =>
        obtain ⟨host, port⟩ := controller
        cases hd2 : k.DialContext (JoinHostPort host (toString port)) with
        | some cause =>
          have hres : CreateTopic k broker topic partitions replication =
              some (.wrapf "failed to connect to controller" cause) := by
            simp only [CreateTopic, hd, hc, hd2]
          rw [hres]
          constructor
          · intro h
            exact absurd h (by simp)
          · rintro ⟨_, h1, p1, h, h2, _⟩
            cases h
            rw [hd2] at h2
            exact absurd h2 (by simp)
        | none =>
          cases hct : k.CreateTopics { Topic := topic, NumPartitions := partitions,
                                       ReplicationFactor := replication } with
          | some cause =>
            have hres : CreateTopic k broker topic partitions replication =
                some (.wrapf "failed to create topic" cause) := by
              simp only [CreateTopic, hd, hc, hd2, hct]
            rw [hres]
            constructor
            · intro h
              exact absurd h (by simp)
            · rintro ⟨_, h1, p1, h, h2, h3⟩
              exact absurd h3 (by simp)
          | none =>
            have hres : CreateTopic k broker topic partitions replication = none := by
              simp only [CreateTopic, hd, hc, hd2, hct]
            rw [hres]
            exact ⟨fun _ => ⟨rfl, host, port, rfl, hd2, rfl⟩, fun _ => rfl⟩
  · intro e
    cases hd : k.DialContext broker with
    | some cause =>
      have hres : CreateTopic k broker topic partitions replication =
          some (.wrapf "failed to connect to broker" cause) := by
        simp only [CreateTopic, hd]
      rw [hres]
      constructor
      · intro h
        exact Or.inl ⟨cause, rfl, (Option.some.inj h).symm⟩
      · rintro (⟨c, hc, rfl⟩ | ⟨h, _⟩ | ⟨h, _⟩ | ⟨h, _⟩)
        · cases hc; rfl
        · exact absurd h (by simp)
        · exact absurd h (by simp)
        · exact absurd h (by simp)
    | none =>
      cases hc : k.Controller with
      | error cause =>
        have hres : CreateTopic k broker topic partitions replication =
            some (.wrapf "failed to get controller" cause) := by
          simp only [CreateTopic, hd, hc]
        rw [hres]
        constructor
        · intro h
          exact Or.inr (Or.inl ⟨rfl, cause, rfl, (Option.some.inj h).symm⟩)
        · rintro (⟨c, h, _⟩ | ⟨_, c, h, rfl⟩ | ⟨_, _, _, _, h, _⟩ | ⟨_, _, _, _, h, _⟩)
          · exact absurd h (by simp)
          · cases h; rfl
          · exact absurd h (by simp)
          · exact absurd h (by simp)
      | ok controller =>
        obtain ⟨host, port⟩ := controller
        cases hd2 : k.DialContext (JoinHostPort host (toString port)) with
        | some cause =>
          have hres : CreateTopic k broker topic partitions replication =
              some (.wrapf "failed to connect to controller" cause) := by
            simp only [CreateTopic, hd, hc, hd2]
          rw [hres]
          constructor
          · intro h
            exact Or.inr (Or.inr (Or.inl
              ⟨rfl, host, port, cause, rfl, hd2, (Option.some.inj h).symm⟩))
          · rintro (⟨c, h, _⟩ | ⟨_, c, h, _⟩ | ⟨_, h1, p1, c, h, h2, rfl⟩ |
              ⟨_, h1, p1, c, h, h2, _⟩)
            · exact absurd h (by simp)
            · exact absurd h (by simp)
            · cases h
              rw [hd2] at h2
              cases h2
              rfl
            · cases h
              rw [hd2] at h2
              exact absurd h2 (by simp)
        | none =>
          cases hct : k.CreateTopics { Topic := topic, NumPartitions := partitions,
                                       ReplicationFactor := replication } with
          | some cause =>
            have hres : CreateTopic k broker topic partitions replication =
                some (.wrapf "failed to create topic" cause) := by
              simp only [CreateTopic, hd, hc, hd2, hct]
            rw [hres]
            constructor
            · intro h
              exact Or.inr (Or.inr (Or.inr
                ⟨rfl, host, port, cause, rfl, hd2, rfl, (Option.some.inj h).symm⟩))
            · rintro (⟨c, h, _⟩ | ⟨_, c, h, _⟩ | ⟨_, h1, p1, c, h, h2, _⟩ |
                ⟨_, h1, p1, c, h, h2, h3, rfl⟩)
              · exact absurd h (by simp)
              · exact absurd h (by simp)
              · cases h
                rw [hd2] at h2
                exact absurd h2 (by simp)
              · cases h3
                rfl
          | none =>
            have hres : CreateTopic k broker topic partitions replication = none := by
              simp only [CreateTopic, hd, hc, hd2, hct]
            rw [hres]
            constructor
            · intro h
              exact absurd h (by simp)
            · rintro (⟨c, h, _⟩ | ⟨_, c, h, _⟩ | ⟨_, h1, p1, c, h, h2, _⟩ |
                ⟨_, h1, p1, c, h, h2, h3, _⟩)
              · exact absurd h (by simp)
              · exact absurd h (by simp)
              · cases h
                rw [hd2] at h2
                exact absurd h2 (by simp)
              · exact absurd h3 (by simp)
  · intro addr
    cases hr : CreateTopic k addr "orders" 3 1 with
    | none => simp [orderapi.main_provision, hr]
    | some err =>
      simp only [orderapi.main_provision, hr]
      refine ⟨rfl, rfl, ?_⟩
      intro msg e
      simp only [List.mem_cons, orderapi.StartupCall.logWarn.injEq, List.mem_singleton,
        Option.some.injEq, reduceCtorEq, false_or, or_false, List.not_mem_nil]
      constructor
      · rintro ⟨h1, h2⟩
        exact ⟨h1, h2.symm⟩
      · rintro ⟨h1, h2⟩
        exact ⟨h1, h2.symm⟩

/-! ## The two handlers -/

/-- C16. For every payload that decodes to an order `o`, `processOrder` hands
exactly one record to the payment producer, with key `o.ID`: a payment with the
order's identifier and total and status `confirmed`; it returns what that
publish returns, so `nil` when the publish succeeds and the publish error when
it fails. When the payload cannot be decoded, `processOrder` returns the decode
error and makes no call at all. -/
theorem processOrder_publishes_payment (g : consumer.Globals) (ctx : Context)
    (key value : String) :
    (∀ e, g.jsonUnmarshalOrder value = .error e →
      consumer.processOrder g ctx key value = (some e, [])) ∧
    (∀ o, g.jsonUnmarshalOrder value = .ok o →
      ∃ p : models.Payment, ∃ customer,
        p = { OrderID := o.ID, CustomerID := customer, TotalCents := o.TotalCents,
              Status := "confirmed", ConfirmedAt := g.now } ∧
        (consumer.processOrder g ctx key value).1 =
          (g.paymentProducer.Publish ctx o.ID (.payment p)).1 ∧
        (consumer.processOrder g ctx key value).2 =
          [Effect.randIntN 451, Effect.sleep (50 + g.IntN451 % 451),
           Effect.MessagesConsumedAdd 1 customer,
           Effect.ProcessingTimeRecord (50 + g.IntN451 % 451) customer,
           Effect.Publish o.ID (.payment p)] ++
          (g.paymentProducer.Publish ctx o.ID (.payment p)).2 ++
          (if (g.paymentProducer.Publish ctx o.ID (.payment p)).1 = none then
            [Effect.logInfo "order processed, payment published"] else []) ∧
        ((g.paymentProducer.Publish ctx o.ID (.payment p)).2 = [] ∨
          ∃ msg, (g.paymentProducer.Publish ctx o.ID (.payment p)).2 =
            [Effect.WriteMessages msg])) := by
  constructor
  · intro e hdec
    simp only [consumer.processOrder, hdec]
  · intro o hdec
    refine ⟨_, (if ((baggage.FromContext ctx).Member "customer_id").Value ≠ "" then
        ((baggage.FromContext ctx).Member "customer_id").Value else o.CustomerID),
      rfl, ?_, ?_, Publish_effects _ _ _ _⟩
    all_goals
      rcases hp : g.paymentProducer.Publish ctx o.ID
        (.payment { OrderID := o.ID,
                    CustomerID := (if ((baggage.FromContext ctx).Member "customer_id").Value ≠ ""
                      then ((baggage.FromContext ctx).Member "customer_id").Value
                      else o.CustomerID),
                    TotalCents := o.TotalCents, Status := "confirmed", ConfirmedAt := g.now })
        with ⟨_ | err, w⟩ <;>
      simp only [consumer.processOrder, hdec, hp] <;> simp

/-- C16, at the sample payload: one payment is published with key `o1`, and
the handler returns `nil`. -/
theorem processOrder_publishes_payment_witness :
    consumer.processOrder (sample.globals sample.orderOfY none) sample.background "o1" "payload" =
      (none,
       [Effect.randIntN 451, Effect.sleep 50, Effect.MessagesConsumedAdd 1 "Y",
        Effect.ProcessingTimeRecord 50 "Y",
        Effect.Publish "o1" (.payment { OrderID := "o1", CustomerID := "Y", TotalCents := 500,
                                         Status := "confirmed", ConfirmedAt := ⟨9⟩ }),
        Effect.WriteMessages
          { Topic := "", Partition := 0, Offset := 0, Key := "o1", Value := "o1,Y",
            Headers := [⟨"traceparent", ""⟩], Time := ⟨0⟩ },
        Effect.logInfo "order processed, payment published"]) ∧
    consumer.processOrder (sample.globals sample.orderOfY none) sample.background "o1" "garbage" =
      (some (.external "invalid character"), []) :=
  ⟨by decide,
   (processOrder_publishes_payment (sample.globals sample.orderOfY none) sample.background "o1"
      "garbage").1 (.external "invalid character") rfl⟩

/-- What `processPayment` returns once the payload is decoded and the request
is built: the client's error, the error naming the status when the status is
not 200, and `nil` when it is 200. -/
theorem processPayment_decoded {σ : Type} (g : consumer.PaymentGlobals σ) (ctx : Context)
    (key value : String) (s : σ) (p : models.Payment)
    (hdec : g.jsonUnmarshalPayment value = .ok p)
    (hreq : g.requestError (g.paymentAPIAddr ++ "/payments/confirm") = none) :
    consumer.processPayment g ctx key value s =
      match g.Do (consumer.confirmRequest g ctx p) s with
      | (.error err, s1) => (some err, s1)
      | (.ok resp, s1) =>
        if resp.StatusCode ≠ 200 then
          (some (.external ("payment-api returned " ++ toString resp.StatusCode)), s1)
        else (none, s1) := by
  simp only [consumer.processPayment, hdec, hreq, consumer.StatusOK]

/-- C18. For every payload that decodes to a payment and for which the HTTP
callout completes with a response, `processPayment` returns `nil` if and only if
the status code is exactly 200; with any other status, 201 and 204 included, it
returns the error `payment-api returned <status>`. -/
theorem processPayment_nil_iff_200 {σ : Type} (g : consumer.PaymentGlobals σ) (ctx : Context)
    (key value : String) (s s1 : σ) (p : models.Payment) (resp : consumer.HttpResponse)
    (hdec : g.jsonUnmarshalPayment value = .ok p)
    (hreq : g.requestError (g.paymentAPIAddr ++ "/payments/confirm") = none)
    (hdo : g.Do (consumer.confirmRequest g ctx p) s = (.ok resp, s1)) :
    ((consumer.processPayment g ctx key value s).1 = none ↔ resp.StatusCode = 200) ∧
    (resp.StatusCode ≠ 200 →
      (consumer.processPayment g ctx key value s).1 =
        some (.external ("payment-api returned " ++ toString resp.StatusCode))) ∧
    (consumer.processPayment g ctx key value s).2 = s1 := by
  rw [processPayment_decoded g ctx key value s p hdec hreq, hdo]
  by_cases h : resp.StatusCode = 200
  · simp [h]
  · simp [h]

/-- C18, at sample answers: 200 gives `nil`; 201 and 204 give an error. -/
theorem processPayment_nil_iff_200_witness :
    (consumer.processPayment (sample.paymentGlobals (.ok 200)) sample.background "o1" "payment"
        sample.start).1 = none ∧
    (consumer.processPayment (sample.paymentGlobals (.ok 201)) sample.background "o1" "payment"
        sample.start).1 = some (.external "payment-api returned 201") ∧
    (consumer.processPayment (sample.paymentGlobals (.ok 204)) sample.background "o1" "payment"
        sample.start).1 = some (.external "payment-api returned 204") :=
  ⟨(processPayment_nil_iff_200 (sample.paymentGlobals (.ok 200)) sample.background "o1" "payment"
      sample.start sample.start sample.paymentOfO1 ⟨200⟩ rfl rfl rfl).1.mpr rfl,
   (processPayment_nil_iff_200 (sample.paymentGlobals (.ok 201)) sample.background "o1" "payment"
      sample.start sample.start sample.paymentOfO1 ⟨201⟩ rfl rfl rfl).2.1 (by decide),
   (processPayment_nil_iff_200 (sample.paymentGlobals (.ok 204)) sample.background "o1" "payment"
      sample.start sample.start sample.paymentOfO1 ⟨204⟩ rfl rfl rfl).2.1 (by decide)⟩

/-- C11. When a fetched message decodes to a payment and the confirmation
callout fails, either because the HTTP client returns an error or because the
response has a status other than 200 (500, say), `processPayment` returns an
error, and the iteration of `Listen` that invoked it makes no `CommitMessages`
call: after the fetch and the handler call the loop goes on from the state the
handler left, and what follows is the next fetch or nothing. -/
theorem processPayment_failure_not_committed {σ : Type} (c : Consumer σ) (A : Ambient σ)
    (ctx : Context) (g : consumer.PaymentGlobals σ) (fuel : Nat) (s s1 : σ) (msg : Message)
    (p : models.Payment)
    (hf : c.reader.FetchMessage s = (.ok msg, s1))
    (hdec : g.jsonUnmarshalPayment msg.Value = .ok p)
    (hreq : g.requestError (g.paymentAPIAddr ++ "/payments/confirm") = none)
    (hfail : (∃ e, (g.Do (consumer.confirmRequest g (A.Extract ctx ⟨msg.Headers⟩) p) s1).1 =
        .error e) ∨
      (∃ resp, (g.Do (consumer.confirmRequest g (A.Extract ctx ⟨msg.Headers⟩) p) s1).1 =
        .ok resp ∧ resp.StatusCode ≠ 200)) :
    ∃ err s2,
      consumer.processPayment g (A.Extract ctx ⟨msg.Headers⟩) msg.Key msg.Value s1 =
        (some err, s2) ∧
      (c.Listen A ctx (consumer.processPayment g) (fuel + 1) s).calls =
        [Call.FetchMessage (.ok msg),
         Call.handler (A.Extract ctx ⟨msg.Headers⟩) msg.Key msg.Value (some err)] ++
          (c.Listen A ctx (consumer.processPayment g) fuel s2).calls ∧
      ((c.Listen A ctx (consumer.processPayment g) fuel s2).calls = [] ∨
        ∃ x t, (c.Listen A ctx (consumer.processPayment g) fuel s2).calls =
          Call.FetchMessage x :: t) := by
  have hres : ∃ err s2,
      consumer.processPayment g (A.Extract ctx ⟨msg.Headers⟩) msg.Key msg.Value s1 =
        (some err, s2) := by
    rw [processPayment_decoded g _ msg.Key msg.Value s1 p hdec hreq]
    rcases hdo : g.Do (consumer.confirmRequest g (A.Extract ctx ⟨msg.Headers⟩) p) s1
      with ⟨res, s2⟩
    rw [hdo] at hfail
    rcases hfail with ⟨e, he⟩ | ⟨resp, hr, hne⟩
    · simp only at he
      subst he
      exact ⟨e, s2, rfl⟩
    · simp only at hr
      subst hr
      exact ⟨.external ("payment-api returned " ++ toString resp.StatusCode), s2, by simp [hne]⟩
  obtain ⟨err, s2, hh⟩ := hres
  refine ⟨err, s2, hh, ?_, (Listen_calls_shape c A ctx (consumer.processPayment g) fuel s2).2.2.2⟩
  rw [Listen_handler_error c A ctx (consumer.processPayment g) fuel s s1 s2 msg err hf hh]

/-- C11, at a sample run: the payment API answers 500 for the one message of
the log; the handler fails, no commit is made, and the committed offset of the
reader stays unset. -/
theorem processPayment_failure_not_committed_witness :
    ((sample.logConsumer sample.log1 none true).Listen sample.ambient sample.background
        (consumer.processPayment (sample.paymentGlobals (.ok 500))) 2 sample.start).calls =
      [Call.FetchMessage (.ok (sample.msg 7 "k7" "good")),
       Call.handler sample.background "k7" "good" (some (.external "payment-api returned 500")),
       Call.FetchMessage (.error (.external "fetch interrupted"))] ∧
    ((sample.logConsumer sample.log1 none true).Listen sample.ambient sample.background
        (consumer.processPayment (sample.paymentGlobals (.ok 500))) 2 sample.start).state.committed =
      none ∧
    (∃ err s2,
      consumer.processPayment (sample.paymentGlobals (.ok 500))
          (sample.ambient.Extract sample.background ⟨(sample.msg 7 "k7" "good").Headers⟩)
          (sample.msg 7 "k7" "good").Key (sample.msg 7 "k7" "good").Value
          { pos := 1, committed := none, cancelled := false } = (some err, s2) ∧
      ((sample.logConsumer sample.log1 none true).Listen sample.ambient sample.background
          (consumer.processPayment (sample.paymentGlobals (.ok 500))) (1 + 1) sample.start).calls =
        [Call.FetchMessage (.ok (sample.msg 7 "k7" "good")),
         Call.handler (sample.ambient.Extract sample.background
            ⟨(sample.msg 7 "k7" "good").Headers⟩)
           (sample.msg 7 "k7" "good").Key (sample.msg 7 "k7" "good").Value (some err)] ++
          ((sample.logConsumer sample.log1 none true).Listen sample.ambient sample.background
            (consumer.processPayment (sample.paymentGlobals (.ok 500))) 1 s2).calls ∧
      (((sample.logConsumer sample.log1 none true).Listen sample.ambient sample.background
          (consumer.processPayment (sample.paymentGlobals (.ok 500))) 1 s2).calls = [] ∨
        ∃ x t, ((sample.logConsumer sample.log1 none true).Listen sample.ambient
          sample.background (consumer.processPayment (sample.paymentGlobals (.ok 500))) 1
          s2).calls = Call.FetchMessage x :: t)) :=
  ⟨rfl, rfl,
   processPayment_failure_not_committed (sample.logConsumer sample.log1 none true) sample.ambient
     sample.background (sample.paymentGlobals (.ok 500)) 1 sample.start
     { pos := 1, committed := none, cancelled := false } (sample.msg 7 "k7" "good")
     sample.paymentOfO1 rfl rfl rfl (Or.inr ⟨⟨500⟩, rfl, by decide⟩)⟩

/-! ## The JSON round trip of an order -/

namespace json

theorem unhex_hexDigit : ∀ k, k < 16 → unhex (hexDigit k) = some k := by decide

theorem backslash_toNat : backslash.toNat = 0x5c := by decide

theorem quote_toNat : quote.toNat = 0x22 := by decide

theorem char_eq_of_toNat (c : Char) (n : Nat) (h : c.toNat = n) : Char.ofNat n = c := by
  rw [← h]
  exact Char.ofNat_toNat c

theorem step_plain (c : Char) (rest : List Char) (h1 : c.toNat ≠ 0x22) (h2 : c.toNat ≠ 0x5c)
    (h3 : ¬ c.toNat < 0x20) : unquoteStep (c :: rest) = .emit c rest := by
  simp only [unquoteStep, h1, h2, h3, if_false]

theorem step_escape (e ch : Char) (rest : List Char) (he : e ≠ 'u')
    (hs : simpleEscape e = some ch) :
    unquoteStep (backslash :: e :: rest) = .emit ch rest := by
  simp [unquoteStep, backslash_toNat, he, hs]

theorem step_u4 (a b c d : Char) (rest : List Char) (rr : Nat)
    (h : getu4 a b c d = some rr) (hs : isSurrogate rr = false) :
    unquoteStep (backslash :: 'u' :: a :: b :: c :: d :: rest) = .emit (Char.ofNat rr) rest := by
  simp [unquoteStep, backslash_toNat, h, hs]

theorem unquoteStep_appendRune (c : Char) (rest : List Char) :
    unquoteStep (appendRune c ++ rest) = .emit c rest := by
  unfold appendRune
  split
  · rename_i hlt
    split
    · rename_i hsafe
      simp only [htmlSafeSet, decide_eq_true_eq] at hsafe
      exact step_plain c rest (by omega) (by omega) (by omega)
    · rename_i hsafe
      split
      · rename_i h
        have hu : c ≠ 'u' := by
          intro hcu
          rw [hcu] at h
          revert h
          decide
        refine step_escape c c rest hu ?_
        simp only [simpleEscape]
        rcases h with h | h <;> simp [h]
      · split
        · rename_i h
          rw [← char_eq_of_toNat c _ h]
          exact step_escape 'b' _ rest (by decide) (by decide)
        · split
          · rename_i h
            rw [← char_eq_of_toNat c _ h]
            exact step_escape 'f' _ rest (by decide) (by decide)
          · split
            · rename_i h
              rw [← char_eq_of_toNat c _ h]
              exact step_escape 'n' _ rest (by decide) (by decide)
            · split
              · rename_i h
                rw [← char_eq_of_toNat c _ h]
                exact step_escape 'r' _ rest (by decide) (by decide)
              · split
                · rename_i h
                  rw [← char_eq_of_toNat c _ h]
                  exact step_escape 't' _ rest (by decide) (by decide)
                · have hg : getu4 '0' '0' (hexDigit (c.toNat / 16)) (hexDigit (c.toNat % 16)) =
                      some c.toNat := by
                    have h0 : unhex '0' = some 0 := by decide
                    simp only [getu4, h0, unhex_hexDigit (c.toNat / 16) (by omega),
                      unhex_hexDigit (c.toNat % 16) (by omega)]
                    congr 1
                    omega
                  have hs : isSurrogate c.toNat = false := by
                    simp only [isSurrogate, decide_eq_false_iff_not]
                    omega
                  have := step_u4 '0' '0' _ _ rest c.toNat hg hs
                  rw [Char.ofNat_toNat] at this
                  exact this
  · rename_i hge
    split
    · rename_i h
      rcases h with h | h
      · rw [← char_eq_of_toNat c _ h]
        exact step_u4 '2' '0' '2' _ rest 0x2028 (by decide) (by decide)
      · rw [← char_eq_of_toNat c _ h]
        exact step_u4 '2' '0' '2' _ rest 0x2029 (by decide) (by decide)
    · exact step_plain c rest (by omega) (by omega) (by omega)

theorem unquoteStep_quote (rest : List Char) : unquoteStep (quote :: rest) = .done rest := by
  simp [unquoteStep, quote_toNat]

theorem appendPieces_ofChars_cons (c : Char) (l : List Char) :
    appendPieces (GoString.ofChars (c :: l)) = appendRune c ++ appendPieces (GoString.ofChars l) :=
  rfl

theorem unquoteLoop_appendPieces (l : List Char) (rest : List Char) (fuel : Nat)
    (h : l.length < fuel) :
    unquoteLoop fuel (appendPieces (GoString.ofChars l) ++ quote :: rest) = some (l, rest) := by
  induction l generalizing fuel with
  | nil =>
    obtain ⟨fuel, rfl⟩ : ∃ k, fuel = k + 1 := ⟨fuel - 1, by simp at h; omega⟩
    simp only [GoString.ofChars, List.map_nil, appendPieces, List.nil_append, unquoteLoop,
      unquoteStep_quote]
  | cons c l ih =>
    obtain ⟨fuel, rfl⟩ : ∃ k, fuel = k + 1 := ⟨fuel - 1, by simp at h; omega⟩
    have hl : l.length < fuel := by simp at h; omega
    simp only [appendPieces_ofChars_cons, List.append_assoc, unquoteLoop,
      unquoteStep_appendRune, ih fuel hl]

theorem appendRune_length_pos (c : Char) : 1 ≤ (appendRune c).length := by
  unfold appendRune
  repeat' split
  all_goals simp

theorem appendPieces_ofChars_length (l : List Char) :
    l.length ≤ (appendPieces (GoString.ofChars l)).length := by
  induction l with
  | nil => simp [GoString.ofChars, appendPieces]
  | cons c l ih =>
    have := appendRune_length_pos c
    simp only [appendPieces_ofChars_cons, List.length_append, List.length_cons]
    omega

/-- Reading back a written string of valid pieces gives its characters. -/
theorem unquote_appendString (l : List Char) (rest : List Char) :
    unquote (appendString (GoString.ofChars l) ++ rest) = some (l, rest) := by
  have hlen := appendPieces_ofChars_length l
  simp only [appendString, List.cons_append, List.append_assoc, List.singleton_append, unquote,
    quote_toNat, if_true]
  exact unquoteLoop_appendPieces l rest _ (by simp only [List.length_append, List.length_cons]; omega)

theorem digitChar_toNat (d : Nat) (h : d < 10) : (digitChar d).toNat = 48 + d := by
  interval_cases d <;> decide

theorem isDigit_digitChar (d : Nat) (h : d < 10) : isDigit (digitChar d) = true := by
  simp only [isDigit, digitChar_toNat d h, decide_eq_true_eq]
  omega

theorem digitVal_digitChar (d : Nat) (h : d < 10) : digitVal (digitChar d) = d := by
  simp only [digitVal, digitChar_toNat d h]
  omega

theorem atoi_append_single (l : List Char) (c : Char) :
    atoi (l ++ [c]) = atoi l * 10 + digitVal c := by
  simp [atoi, List.foldl_append]

theorem formatUintLoop_spec (fuel n : Nat) (acc : List Char) (h : n < fuel) :
    ∃ ds, formatUintLoop fuel n acc = ds ++ acc ∧ ds ≠ [] ∧ (∀ c ∈ ds, isDigit c = true) ∧
      atoi ds = n ∧ (n ≠ 0 → ds.head? ≠ some '0') ∧ (n = 0 → ds = ['0']) := by
  induction fuel generalizing n acc with
  | zero => omega
  | succ fuel ih =>
    by_cases hn : n < 10
    · refine ⟨[digitChar n], ?_, by simp, ?_, ?_, ?_, ?_⟩
      · simp [formatUintLoop, hn]
      · intro c hc
        simp only [List.mem_singleton] at hc
        rw [hc]
        exact isDigit_digitChar n hn
      · simp [atoi, digitVal_digitChar n hn]
      · intro hne
        interval_cases n <;> first | omega | decide
      · intro h0
        subst h0
        rfl
    · obtain ⟨ds, hds, hne, hdig, hval, hhead, -⟩ :=
        ih (n / 10) (digitChar (n % 10) :: acc) (by omega)
      refine ⟨ds ++ [digitChar (n % 10)], ?_, by simp, ?_, ?_, ?_, ?_⟩
      · simp [formatUintLoop, hn, hds]
      · intro c hc
        rcases List.mem_append.mp hc with hc | hc
        · exact hdig c hc
        · simp only [List.mem_singleton] at hc
          rw [hc]
          exact isDigit_digitChar _ (by omega)
      · rw [atoi_append_single, hval, digitVal_digitChar _ (by omega)]
        omega
      · intro _
        have : n / 10 ≠ 0 := by omega
        have hh := hhead this
        cases ds with
        | nil => exact absurd rfl hne
        | cons a t => simpa using hh
      · intro h0
        omega

theorem formatUint_spec (n : Nat) :
    formatUint n ≠ [] ∧ (∀ c ∈ formatUint n, isDigit c = true) ∧ atoi (formatUint n) = n ∧
      (1 < (formatUint n).length → (formatUint n).head? ≠ some '0') := by
  obtain ⟨ds, hds, hne, hdig, hval, hhead, hzero⟩ := formatUintLoop_spec (n + 1) n [] (by omega)
  have he : formatUint n = ds := by simp [formatUint, hds]
  rw [he]
  refine ⟨hne, hdig, hval, ?_⟩
  intro hlen
  by_cases h0 : n = 0
  · rw [hzero h0] at hlen
    simp at hlen
  · exact hhead h0

theorem takeWhile_digits (ds rest : List Char) (hds : ∀ c ∈ ds, isDigit c = true)
    (hrest : ∀ c, rest.head? = some c → isDigit c = false) :
    (ds ++ rest).takeWhile isDigit = ds ∧ (ds ++ rest).dropWhile isDigit = rest := by
  induction ds with
  | nil =>
    cases rest with
    | nil => simp
    | cons c r =>
      have := hrest c rfl
      simp [List.takeWhile, List.dropWhile, this]
  | cons a t ih =>
    have ha := hds a (List.mem_cons_self _ _)
    have ht := ih (fun c hc => hds c (List.mem_cons_of_mem _ hc))
    simp [List.takeWhile, List.dropWhile, ha, ht.1, ht.2]

/-- Reading back a written `int64` gives the number. -/
theorem parseInt64_AppendInt (i : Int) (rest : List Char)
    (hmin : int64Min ≤ i) (hmax : i ≤ int64Max)
    (hrest : ∀ c, rest.head? = some c →
      isDigit c = false ∧ c ≠ '.' ∧ c ≠ 'e' ∧ c ≠ 'E') :
    parseInt64 (AppendInt i ++ rest) = some (i, rest) := by
  have hrest1 : ∀ c, rest.head? = some c → isDigit c = false := fun c hc => (hrest c hc).1
  have hrest2 : ¬ (rest.head? = some '.' ∨ rest.head? = some 'e' ∨ rest.head? = some 'E') := by
    intro h
    rcases h with h | h | h
    · exact (hrest _ h).2.1 rfl
    · exact (hrest _ h).2.2.1 rfl
    · exact (hrest _ h).2.2.2 rfl
  by_cases hneg : i < 0
  · obtain ⟨hne, hdig, hval, hhead⟩ := formatUint_spec i.natAbs
    obtain ⟨htw, hdw⟩ := takeWhile_digits (formatUint i.natAbs) rest hdig hrest1
    have hv : -((i.natAbs : Nat) : Int) = i := by omega
    have hhead' : ¬ (1 < (formatUint i.natAbs).length ∧ (formatUint i.natAbs).head? = some '0') :=
      fun h => hhead h.1 h.2
    simp only [parseInt64, AppendInt, hneg, if_true, List.cons_append, List.head?_cons,
      decide_True, List.tail_cons, htw, hdw, hne, if_false, hhead', hrest2, hval, hv, hmin, hmax,
      and_self]
  · obtain ⟨hne, hdig, hval, hhead⟩ := formatUint_spec i.toNat
    obtain ⟨htw, hdw⟩ := takeWhile_digits (formatUint i.toNat) rest hdig hrest1
    have hv : ((i.toNat : Nat) : Int) = i := by omega
    have hhead' : ¬ (1 < (formatUint i.toNat).length ∧ (formatUint i.toNat).head? = some '0') :=
      fun h => hhead h.1 h.2
    have hfirst : (formatUint i.toNat ++ rest).head? ≠ some '-' := by
      cases hf : formatUint i.toNat with
      | nil => exact absurd hf hne
      | cons a t =>
        have ha := hdig a (by rw [hf]; exact List.mem_cons_self _ _)
        simp only [List.cons_append, List.head?_cons, ne_eq, Option.some.injEq]
        intro hc
        rw [hc] at ha
        revert ha
        decide
    simp only [parseInt64, AppendInt, hneg, if_false, hfirst, decide_False, htw, hdw, hne, hhead',
      hrest2, hval, hv, hmin, hmax, and_self, if_true, Bool.false_eq_true]
theorem skipWs_cons (c : Char) (s : List Char) (h : isSpace c = false) :
    skipWs (c :: s) = c :: s := by
  simp [skipWs, List.dropWhile, h]

theorem skipWs_appendString (x : GoString) (rest : List Char) :
    skipWs (appendString x ++ rest) = appendString x ++ rest := by
  simp only [appendString, List.cons_append]
  exact skipWs_cons _ _ (by decide)

theorem parseElem_appendString (x : List Char) (rest : List Char) :
    parseElem (appendString (GoString.ofChars x) ++ rest) = some (x, rest) := by
  have hs : stripLit nullLit (appendString (GoString.ofChars x) ++ rest) = none := by
    have hnq : ¬ 'n' = quote := by decide
    simp only [appendString, List.cons_append, nullLit, stripLit, hnq, if_false]
  simp only [parseElem, hs, unquote_appendString]

theorem parseElems_appendElems (l : List (List Char)) (x : List Char) (rest : List Char)
    (fuel : Nat) (h : l.length < fuel) :
    parseElems fuel (appendElems ((x :: l).map GoString.ofChars) ++ ']' :: rest) =
      some (x :: l, rest) := by
  induction l generalizing x fuel with
  | nil =>
    obtain ⟨fuel, rfl⟩ : ∃ k, fuel = k + 1 := ⟨fuel - 1, by simp at h; omega⟩
    simp only [List.map_cons, List.map_nil, appendElems, parseElems, skipWs_appendString,
      parseElem_appendString]
    rw [skipWs_cons _ _ (by decide)]
    simp
  | cons y l ih =>
    obtain ⟨fuel, rfl⟩ : ∃ k, fuel = k + 1 := ⟨fuel - 1, by simp at h; omega⟩
    have hl : l.length < fuel := by simp at h; omega
    have ihy := ih y fuel hl
    simp only [List.map_cons] at ihy
    simp only [List.map_cons, appendElems, List.append_assoc, List.cons_append, parseElems,
      skipWs_appendString, parseElem_appendString]
    rw [skipWs_cons _ _ (by decide)]
    simp only [if_true, ihy]

theorem appendString_length (x : GoString) : 2 ≤ (appendString x).length := by
  simp [appendString]

theorem appendElems_length (l : List GoString) : l.length ≤ (appendElems l).length := by
  induction l with
  | nil => simp [appendElems]
  | cons x l ih =>
    cases l with
    | nil =>
      have := appendString_length x
      simp only [appendElems, List.length_cons, List.length_nil]
      omega
    | cons y l =>
      have := appendString_length x
      simp only [appendElems, List.length_append, List.length_cons] at ih ⊢
      omega

theorem parseItems_bracket (r r1 : List Char) (c1 : Char) (h : skipWs r = c1 :: r1)
    (hc : c1 ≠ ']') :
    parseItems ('[' :: r) =
      match parseElems r.length r with
      | some (xs, r2) => some (some xs, r2)
      | none => none := by
  have hn : ¬ 'n' = '[' := by decide
  simp only [parseItems, nullLit, stripLit, hn, if_false, h, hc, if_true]

/-- Reading back a written list of valid strings gives the list; `null` reads
back as the nil slice. -/
theorem parseItems_appendItems (items : Option (List (List Char))) (rest : List Char) :
    parseItems (appendItems (items.map (fun l => l.map GoString.ofChars)) ++ rest) =
      some (items, rest) := by
  cases items with
  | none => simp [appendItems, parseItems, nullLit, stripLit]
  | some l =>
    cases l with
    | nil =>
      simp only [Option.map_some', List.map_nil, appendItems, appendElems, List.nil_append,
        List.cons_append, parseItems, nullLit, stripLit]
      rw [skipWs_cons _ _ (by decide)]
      simp
    | cons x l =>
      have hlen := appendElems_length ((x :: l).map GoString.ofChars)
      have hq : ∃ t, appendElems ((x :: l).map GoString.ofChars) = quote :: t := by
        cases l with
        | nil => exact ⟨_, rfl⟩
        | cons y l => exact ⟨_, rfl⟩
      obtain ⟨t, ht⟩ := hq
      have hform : appendItems (Option.map (fun l => l.map GoString.ofChars) (some (x :: l))) ++
          rest = '[' :: (quote :: (t ++ ']' :: rest)) := by
        simp only [Option.map_some', appendItems, ht, List.cons_append, List.append_assoc,
          List.singleton_append, List.nil_append]
      have hp := parseElems_appendElems l x rest (quote :: (t ++ ']' :: rest)).length
        (by
          rw [ht] at hlen
          simp only [List.length_append, List.length_cons, List.length_map] at hlen ⊢
          omega)
      rw [ht] at hp
      simp only [List.cons_append] at hp
      rw [hform, parseItems_bracket _ (t ++ ']' :: rest) quote
        (skipWs_cons _ _ (by decide)) (by decide), hp]

theorem atoi_foldl (b : List Char) (x : Nat) :
    b.foldl (fun acc c => acc * 10 + digitVal c) x = x * 10 ^ b.length + atoi b := by
  induction b generalizing x with
  | nil => simp [atoi]
  | cons c b ih =>
    simp only [List.foldl_cons, atoi, List.length_cons]
    rw [ih, ih (0 * 10 + digitVal c)]
    ring

theorem atoi_append (a b : List Char) : atoi (a ++ b) = atoi a * 10 ^ b.length + atoi b := by
  simp only [atoi, List.foldl_append]
  exact atoi_foldl b _

theorem digitVal_digitChar_mod (m : Nat) : digitVal (digitChar (m % 10)) = m % 10 :=
  digitVal_digitChar _ (Nat.mod_lt _ (by decide))

theorem isDigit_digitChar_mod (m : Nat) : isDigit (digitChar (m % 10)) = true :=
  isDigit_digitChar _ (Nat.mod_lt _ (by decide))

theorem parseUint_appendInt2 (n lo hi : Nat) (hn : n < 100) (hlo : lo ≤ n) (hhi : n ≤ hi) :
    parseUint [digitChar (n / 10 % 10), digitChar (n % 10)] lo hi = some n := by
  have hv : atoi [digitChar (n / 10 % 10), digitChar (n % 10)] = n := by
    simp only [atoi, List.foldl_cons, List.foldl_nil, digitVal_digitChar_mod]
    omega
  simp only [parseUint, List.all_cons, List.all_nil, isDigit_digitChar_mod, Bool.and_self, hv,
    hlo, hhi, and_self, if_true]

theorem parseUint_appendInt4 (n : Nat) (hn : n ≤ 9999) :
    parseUint [digitChar (n / 1000 % 10), digitChar (n / 100 % 10), digitChar (n / 10 % 10),
      digitChar (n % 10)] 0 9999 = some n := by
  have hv : atoi [digitChar (n / 1000 % 10), digitChar (n / 100 % 10), digitChar (n / 10 % 10),
      digitChar (n % 10)] = n := by
    simp only [atoi, List.foldl_cons, List.foldl_nil, digitVal_digitChar_mod]
    omega
  simp only [parseUint, List.all_cons, List.all_nil, isDigit_digitChar_mod, Bool.and_self, hv,
    hn, Nat.zero_le, and_self, if_true]

theorem atoi_appendInt9 (n : Nat) (hn : n < 1000000000) : atoi (appendInt9 n) = n := by
  simp only [appendInt9, atoi, List.foldl_cons, List.foldl_nil, digitVal_digitChar_mod]
  omega

theorem all_isDigit_appendInt9 (n : Nat) : ∀ c ∈ appendInt9 n, isDigit c = true := by
  intro c hc
  simp only [appendInt9, List.mem_cons, List.mem_singleton, List.not_mem_nil, or_false] at hc
  rcases hc with h | h | h | h | h | h | h | h | h <;> rw [h] <;> exact isDigit_digitChar_mod _

theorem atoi_zeros (z : List Char) (hz : ∀ c ∈ z, c = '0') : atoi z = 0 := by
  induction z with
  | nil => rfl
  | cons a z ih =>
    have ha : a = '0' := hz a (List.mem_cons_self _ _)
    have hz' := ih (fun c hc => hz c (List.mem_cons_of_mem _ hc))
    have hsplit : atoi (a :: z) = atoi ([a] ++ z) := rfl
    rw [hsplit, atoi_append, hz', ha]
    simp [atoi, digitVal]

/-- A digit list is its trimmed part followed by zeros. -/
theorem trimZeros_spec (l : List Char) :
    ∃ z, l = trimZeros l ++ z ∧ (∀ c ∈ z, c = '0') := by
  refine ⟨(l.reverse.takeWhile (fun c => decide (c = '0'))).reverse, ?_, ?_⟩
  · have h := List.takeWhile_append_dropWhile (fun c => decide (c = '0')) l.reverse
    have h2 := congrArg List.reverse h
    simp only [List.reverse_append, List.reverse_reverse] at h2
    exact h2.symm
  · intro c hc
    rw [List.mem_reverse] at hc
    have := List.mem_takeWhile_imp hc
    simpa using this

theorem trimZeros_digits (n : Nat) (hn : n < 1000000000) (h0 : n ≠ 0) :
    trimZeros (appendInt9 n) ≠ [] ∧ (∀ c ∈ trimZeros (appendInt9 n), isDigit c = true) ∧
      (trimZeros (appendInt9 n)).length ≤ 9 ∧
      atoi (trimZeros (appendInt9 n)) * 10 ^ (9 - (trimZeros (appendInt9 n)).length) = n := by
  obtain ⟨z, hl, hz⟩ := trimZeros_spec (appendInt9 n)
  have hlen : (appendInt9 n).length = 9 := rfl
  have hlen2 : (trimZeros (appendInt9 n)).length + z.length = 9 := by
    rw [← hlen]
    conv_rhs => rw [hl]
    simp
  have hval : atoi (trimZeros (appendInt9 n)) * 10 ^ z.length = n := by
    have := atoi_appendInt9 n hn
    rw [hl, atoi_append, atoi_zeros z hz] at this
    simpa using this
  refine ⟨?_, ?_, by omega, ?_⟩
  · intro hnil
    rw [hnil] at hval
    simp [atoi] at hval
    exact h0 hval.symm
  · intro c hc
    exact all_isDigit_appendInt9 n c (by rw [hl]; exact List.mem_append_left _ hc)
  · have : 9 - (trimZeros (appendInt9 n)).length = z.length := by omega
    rw [this]
    exact hval

/-- Reading back the written fraction of a second gives the nanoseconds. -/
theorem parseFraction_appendNano (n : Nat) (hn : n < 1000000000) (d : Char) (r : List Char)
    (hd : d ≠ '.') (hdig : isDigit d = false) :
    parseFraction (appendNano n ++ d :: r) = (n, d :: r) := by
  by_cases h0 : n = 0
  · subst h0
    cases r with
    | nil => simp [appendNano, parseFraction]
    | cons c r => simp [appendNano, parseFraction, hd]
  · obtain ⟨hne, hdig9, hlen, hval⟩ := trimZeros_digits n hn h0
    obtain ⟨a, t, hat⟩ : ∃ a t, trimZeros (appendInt9 n) = a :: t := by
      cases h : trimZeros (appendInt9 n) with
      | nil => exact absurd h hne
      | cons a t => exact ⟨a, t, rfl⟩
    have ha : isDigit a = true := hdig9 a (by rw [hat]; exact List.mem_cons_self _ _)
    have htw := takeWhile_digits (trimZeros (appendInt9 n)) (d :: r) hdig9
      (by intro c hc; simp only [List.head?_cons, Option.some.injEq] at hc; rw [← hc]; exact hdig)
    rw [hat] at htw hlen hval
    simp only [List.cons_append] at htw
    simp only [appendNano, h0, if_false, hat, List.cons_append, parseFraction, ha, and_self,
      if_true, htw.1, htw.2, List.take_of_length_le hlen, hval]

theorem parseZone_appendZone (off : Int) (hmin : off % 60 = 0)
    (hhr : off.natAbs / 60 / 60 < 24) : parseZone (appendZone off) = some off := by
  by_cases h0 : off = 0
  · subst h0
    simp [appendZone, parseZone]
  · have hh := parseUint_appendInt2 (off.natAbs / 60 / 60) 0 23 (by omega) (by omega) (by omega)
    have hm := parseUint_appendInt2 (off.natAbs / 60 % 60) 0 59 (by omega) (by omega) (by omega)
    by_cases hneg : off ≤ -60
    · have hv : -(((off.natAbs / 60 / 60 * 60 + off.natAbs / 60 % 60) * 60 : Nat) : Int) = off := by
        omega
      simp only [appendZone, h0, if_false, hneg, if_true, appendInt2, List.cons_append,
        List.nil_append, parseZone, hh, hm, true_or, and_self, hv]
    · have hv : (((off.natAbs / 60 / 60 * 60 + off.natAbs / 60 % 60) * 60 : Nat) : Int) = off := by
        omega
      have hpm : ¬ ('+' = '-') := by decide
      simp only [appendZone, h0, if_false, hneg, appendInt2, List.cons_append,
        List.nil_append, parseZone, hh, hm, or_true, and_self, if_true, hpm, hv]

theorem notQuote_digitChar_mod (m : Nat) : notQuote (digitChar (m % 10)) = true := by
  have h := digitChar_toNat (m % 10) (Nat.mod_lt _ (by decide))
  simp only [notQuote, h, decide_eq_true_eq]
  omega

theorem all_notQuote_trimZeros (l : List Char) (h : l.all notQuote = true) :
    (trimZeros l).all notQuote = true := by
  obtain ⟨z, hl, -⟩ := trimZeros_spec l
  rw [hl, List.all_append, Bool.and_eq_true] at h
  exact h.1

theorem all_notQuote_format (t : TimeValue) :
    (appendFormatRFC3339 t).all notQuote = true := by
  have hnano : (appendNano t.nanosecond).all notQuote = true := by
    unfold appendNano
    split
    · rfl
    · have h9 : (appendInt9 t.nanosecond).all notQuote = true := by
        simp [appendInt9, notQuote_digitChar_mod]
      have := all_notQuote_trimZeros _ h9
      simp only [List.all_cons, this, Bool.and_true]
      decide
  have hzone : (appendZone t.offset).all notQuote = true := by
    unfold appendZone
    split
    · decide
    · have hs : notQuote (if t.offset ≤ -60 then '-' else '+') = true := by
        split <;> decide
      have hc : notQuote ':' = true := by decide
      simp [appendInt2, notQuote_digitChar_mod, hs, hc]
  have h1 : notQuote '-' = true := by decide
  have h2 : notQuote 'T' = true := by decide
  have h3 : notQuote ':' = true := by decide
  simp [appendFormatRFC3339, appendInt4, appendInt2, notQuote_digitChar_mod, hnano, hzone, h1, h2,
    h3]

theorem takeWhile_notQuote (a rest : List Char) (h : a.all notQuote = true) :
    (a ++ quote :: rest).takeWhile notQuote = a ∧
      (a ++ quote :: rest).dropWhile notQuote = quote :: rest := by
  induction a with
  | nil =>
    have hq : notQuote quote = false := by decide
    simp [List.takeWhile, List.dropWhile, hq]
  | cons c a ih =>
    simp only [List.all_cons, Bool.and_eq_true] at h
    have := ih h.2
    simp [List.takeWhile, List.dropWhile, h.1, this.1, this.2]

theorem appendZone_head (off : Int) :
    ∃ d r, appendZone off = d :: r ∧ d ≠ '.' ∧ isDigit d = false := by
  unfold appendZone
  split
  · exact ⟨'Z', [], rfl, by decide, by decide⟩
  · split
    · exact ⟨'-', _, rfl, by decide, by decide⟩
    · exact ⟨'+', _, rfl, by decide, by decide⟩

/-- Reading back a written RFC 3339 timestamp gives the time. -/
theorem parseRFC3339_appendFormat (t : TimeValue) (hw : t.wellFormed)
    (hy0 : 0 ≤ t.year) (hy1 : t.year ≤ 9999) (hmin : t.offset % 60 = 0)
    (hhr : t.offset.natAbs / 60 / 60 < 24) :
    parseRFC3339 (appendFormatRFC3339 t) = some t := by
  obtain ⟨hm1, hm2, hd1, hd2, hh, hmi, hs, hns⟩ := hw
  have hday31 : daysIn t.month t.year ≤ 31 := by
    unfold daysIn
    repeat' split
    all_goals omega
  have hyear := parseUint_appendInt4 t.year.toNat (by omega)
  have hmonth := parseUint_appendInt2 t.month 1 12 (by omega) hm1 hm2
  have hyy : ((t.year.toNat : Nat) : Int) = t.year := by omega
  have hday := parseUint_appendInt2 t.day 1 (daysIn t.month t.year) (by omega) hd1 hd2
  have hhour := parseUint_appendInt2 t.hour 0 23 (by omega) (by omega) (by omega)
  have hminute := parseUint_appendInt2 t.minute 0 59 (by omega) (by omega) (by omega)
  have hsecond := parseUint_appendInt2 t.second 0 59 (by omega) (by omega) (by omega)
  obtain ⟨d, r, hz, hdne, hddig⟩ := appendZone_head t.offset
  have hfrac := parseFraction_appendNano t.nanosecond hns d r hdne hddig
  rw [← hz] at hfrac
  have hzone := parseZone_appendZone t.offset hmin hhr
  simp only [appendFormatRFC3339, appendInt4, appendInt2, List.cons_append, List.nil_append,
    parseRFC3339, hyear, hmonth, hyy, hday, hhour, hminute, hsecond, and_self, if_true, hfrac,
    hzone]

/-- Reading back a written JSON timestamp gives the time. -/
theorem TimeValue_UnmarshalJSON_MarshalJSON (t cur : TimeValue) (rest : List Char)
    (hw : t.wellFormed) (hy0 : 0 ≤ t.year) (hy1 : t.year ≤ 9999) (hmin : t.offset % 60 = 0)
    (hhr : t.offset.natAbs / 60 / 60 < 24) :
    t.MarshalJSON = .ok (quote :: (appendFormatRFC3339 t ++ [quote])) ∧
    TimeValue.UnmarshalJSON (quote :: (appendFormatRFC3339 t ++ [quote]) ++ rest) cur =
      some (t, rest) := by
  constructor
  · have h1 : ¬ (t.year < 0 ∨ 9999 < t.year) := by omega
    have h2 : ¬ (t.offset ≠ 0 ∧ 24 ≤ t.offset.natAbs / 60 / 60) := by omega
    simp only [TimeValue.MarshalJSON, h1, h2, if_false]
  · have htw := takeWhile_notQuote (appendFormatRFC3339 t) rest (all_notQuote_format t)
    have hp := parseRFC3339_appendFormat t hw hy0 hy1 hmin hhr
    have hform : quote :: (appendFormatRFC3339 t ++ [quote]) ++ rest =
        quote :: (appendFormatRFC3339 t ++ quote :: rest) := by simp
    have hq : stripLit nullLit (quote :: (appendFormatRFC3339 t ++ quote :: rest)) = none := by
      have hnq : ¬ 'n' = quote := by decide
      simp only [nullLit, stripLit, hnq, if_false]
    rw [hform]
    simp only [TimeValue.UnmarshalJSON, hq, quote_toNat, if_true, htw.1, htw.2, hp]

theorem valid_ofChars (s : GoString) (h : s.valid) : ∃ l, s = GoString.ofChars l := by
  induction s with
  | nil => exact ⟨[], rfl⟩
  | cons p s ih =>
    obtain ⟨l, hl⟩ := ih (fun q hq => h q (List.mem_cons_of_mem _ hq))
    have hp := h p (List.mem_cons_self _ _)
    cases p with
    | rune c => exact ⟨c :: l, by rw [hl]; rfl⟩
    | invalid b => simp [Piece.isRune] at hp

theorem valid_items (items : Option (List GoString))
    (h : ∀ l, items = some l → ∀ s ∈ l, GoString.valid s) :
    ∃ raw : Option (List (List Char)), items = raw.map (fun l => l.map GoString.ofChars) := by
  cases items with
  | none => exact ⟨none, rfl⟩
  | some l =>
    have hl := h l rfl
    clear h
    induction l with
    | nil => exact ⟨some [], rfl⟩
    | cons s l ih =>
      obtain ⟨raw, hraw⟩ := ih (fun t ht => hl t (List.mem_cons_of_mem _ ht))
      obtain ⟨x, hx⟩ := valid_ofChars s (hl s (List.mem_cons_self _ _))
      cases raw with
      | none => simp at hraw
      | some r =>
        simp only [Option.map_some', Option.some.injEq] at hraw
        exact ⟨some (x :: r), by simp [hraw, hx]⟩

theorem stripLit_null_quote (s : List Char) : stripLit nullLit (quote :: s) = none := by
  have hnq : ¬ 'n' = quote := by decide
  simp only [nullLit, stripLit, hnq, if_false]

theorem decodeString_appendString (l : List Char) (rest : List Char) (cur : GoString) :
    decodeString (appendString (GoString.ofChars l) ++ rest) cur =
      some (GoString.ofChars l, rest) := by
  have h := unquote_appendString l rest
  have hs : stripLit nullLit (appendString (GoString.ofChars l) ++ rest) = none := by
    simp only [appendString, List.cons_append]
    exact stripLit_null_quote _
  simp only [decodeString, hs, h]

theorem AppendInt_head (i : Int) :
    ∃ d r, AppendInt i = d :: r ∧ d ≠ 'n' ∧ isSpace d = false := by
  unfold AppendInt
  split
  · exact ⟨'-', _, rfl, by decide, by decide⟩
  · obtain ⟨hne, hdig, -, -⟩ := formatUint_spec i.toNat
    cases hf : formatUint i.toNat with
    | nil => exact absurd hf hne
    | cons a t =>
      have ha : isDigit a = true := hdig a (by rw [hf]; exact List.mem_cons_self _ _)
      refine ⟨a, t, rfl, ?_, ?_⟩
      · intro h
        rw [h] at ha
        revert ha
        decide
      · simp only [isDigit, decide_eq_true_eq] at ha
        simp only [isSpace, decide_eq_false_iff_not]
        omega

theorem decodeInt64_AppendInt (i cur : Int) (c : Char) (rest : List Char)
    (hmin : int64Min ≤ i) (hmax : i ≤ int64Max)
    (hc : isDigit c = false ∧ c ≠ '.' ∧ c ≠ 'e' ∧ c ≠ 'E') :
    decodeInt64 (AppendInt i ++ c :: rest) cur = some (i, c :: rest) := by
  obtain ⟨d, r, hd, hdn, -⟩ := AppendInt_head i
  have hs : stripLit nullLit (AppendInt i ++ c :: rest) = none := by
    rw [hd]
    have hnd : ¬ 'n' = d := fun h => hdn h.symm
    simp only [List.cons_append, nullLit, stripLit, hnd, if_false]
  have hp := parseInt64_AppendInt i (c :: rest) hmin hmax (by
    intro x hx
    simp only [List.head?_cons, Option.some.injEq] at hx
    rw [← hx]
    exact hc)
  simp only [decodeInt64, hs, hp]

theorem unquote_key (key : List Char) (rest : List Char) :
    unquote (skipWs (appendKey key ++ rest)) = some (key, ':' :: rest) := by
  have h := unquote_appendString key (':' :: rest)
  have hs := skipWs_appendString (GoString.ofChars key) (':' :: rest)
  simp only [appendKey, List.append_assoc, List.singleton_append, hs, h]

/-- One member of the object: the key is read, the value is decoded into the
field, and the loop goes on after a comma or ends at the closing brace. -/
theorem decodeMembers_member (fuel : Nat) (key v : List Char) (c : Char) (rest : List Char)
    (o o1 : OrderValue)
    (hv : skipWs (v ++ c :: rest) = v ++ c :: rest)
    (hf : decodeField key (v ++ c :: rest) o = some (o1, c :: rest))
    (hc : isSpace c = false) :
    decodeMembers (fuel + 1) (appendKey key ++ (v ++ c :: rest)) o =
      if c = ',' then decodeMembers fuel rest o1
      else if c = '}' then some (o1, rest)
      else none := by
  have hcolon : skipWs (':' :: (v ++ c :: rest)) = ':' :: (v ++ c :: rest) :=
    skipWs_cons _ _ (by decide)
  simp only [decodeMembers, unquote_key, hcolon, if_true, hv, hf, skipWs_cons c rest hc]

theorem appendItems_head (items : Option (List GoString)) :
    ∃ d r, appendItems items = d :: r ∧ isSpace d = false := by
  cases items with
  | none => exact ⟨'n', _, rfl, by decide⟩
  | some l => exact ⟨'[', _, rfl, by decide⟩

theorem UnmarshalOrder_object (r r1 : List Char) (o : OrderValue) (k : Nat)
    (hq : r = quote :: r1) (hk : r.length = k + 5)
    (hd : decodeMembers (k + 5) r zeroOrder = some (o, [])) :
    UnmarshalOrder ('{' :: r) = .ok o := by
  have h1 : skipWs ('{' :: r) = '{' :: r := skipWs_cons _ _ (by decide)
  have h2 : skipWs r = quote :: r1 := by
    rw [hq]
    exact skipWs_cons _ _ (by decide)
  have h3 : ¬ quote = '}' := by decide
  have h4 : skipWs ([] : List Char) = [] := rfl
  simp only [UnmarshalOrder, h1, if_true, h2, h3, if_false, hk, hd, h4]

/-- The written form of a well-formed order reads back as the order. -/
theorem UnmarshalOrder_MarshalOrder (o : OrderValue)
    (hID : o.ID.valid) (hCustomer : o.CustomerID.valid)
    (hItems : ∀ l, o.Items = some l → ∀ s ∈ l, GoString.valid s)
    (hmin : int64Min ≤ o.TotalCents) (hmax : o.TotalCents ≤ int64Max)
    (hw : o.CreatedAt.wellFormed) (hy0 : 0 ≤ o.CreatedAt.year) (hy1 : o.CreatedAt.year ≤ 9999)
    (hoff : o.CreatedAt.offset % 60 = 0) (hhr : o.CreatedAt.offset.natAbs / 60 / 60 < 24) :
    ∃ data, MarshalOrder o = .ok data ∧ UnmarshalOrder data = .ok o := by
  obtain ⟨ID, CustomerID, Items, TotalCents, CreatedAt⟩ := o
  simp only at hID hCustomer hItems hmin hmax hw hy0 hy1 hoff hhr
  obtain ⟨I, rfl⟩ := valid_ofChars ID hID
  obtain ⟨C, rfl⟩ := valid_ofChars CustomerID hCustomer
  obtain ⟨raw, rfl⟩ := valid_items Items hItems
  have htm := (TimeValue_UnmarshalJSON_MarshalJSON CreatedAt zeroTime ['}'] hw hy0 hy1 hoff hhr)
  -- the five members, last to first
  have h5 : ∀ fuel (o : OrderValue), o.CreatedAt = zeroTime →
      decodeMembers (fuel + 1) (appendKey keyCreatedAt ++
        ((quote :: (appendFormatRFC3339 CreatedAt ++ [quote])) ++ ['}'])) o =
      some ({ o with CreatedAt := CreatedAt }, []) := by
    intro fuel o ho
    have hf : decodeField keyCreatedAt
        ((quote :: (appendFormatRFC3339 CreatedAt ++ [quote])) ++ ['}']) o =
        some ({ o with CreatedAt := CreatedAt }, ['}']) := by
      have hk1 : ¬ keyCreatedAt = keyID := by decide
      have hk2 : ¬ keyCreatedAt = keyCustomerID := by decide
      have hk3 : ¬ keyCreatedAt = keyItems := by decide
      have hk4 : ¬ keyCreatedAt = keyTotalCents := by decide
      simp only [decodeField, hk1, hk2, hk3, hk4, if_false, if_true, ho, htm.2]
    rw [decodeMembers_member fuel keyCreatedAt _ '}' [] o _
      (skipWs_cons _ _ (by decide)) hf (by decide)]
    have hne : ¬ '}' = ',' := by decide
    simp only [hne, if_false, if_true]
  have h4 : ∀ fuel (o : OrderValue) (rest : List Char),
      decodeMembers (fuel + 1) (appendKey keyTotalCents ++
        (AppendInt TotalCents ++ ',' :: rest)) o =
      decodeMembers fuel rest { o with TotalCents := TotalCents } := by
    intro fuel o rest
    have hf : decodeField keyTotalCents (AppendInt TotalCents ++ ',' :: rest) o =
        some ({ o with TotalCents := TotalCents }, ',' :: rest) := by
      have hk1 : ¬ keyTotalCents = keyID := by decide
      have hk2 : ¬ keyTotalCents = keyCustomerID := by decide
      have hk3 : ¬ keyTotalCents = keyItems := by decide
      simp only [decodeField, hk1, hk2, hk3, if_false, if_true,
        decodeInt64_AppendInt TotalCents o.TotalCents ',' rest hmin hmax (by decide)]
    obtain ⟨d, r, hd, -, hsp⟩ := AppendInt_head TotalCents
    have hv : skipWs (AppendInt TotalCents ++ ',' :: rest) = AppendInt TotalCents ++ ',' :: rest := by
      rw [hd]
      exact skipWs_cons _ _ hsp
    rw [decodeMembers_member fuel keyTotalCents _ ',' rest o _ hv hf (by decide)]
    simp only [if_true]
  have h3 : ∀ fuel (o : OrderValue) (rest : List Char), o.Items = none →
      decodeMembers (fuel + 1) (appendKey keyItems ++
        (appendItems (raw.map (fun l => l.map GoString.ofChars)) ++ ',' :: rest)) o =
      decodeMembers fuel rest { o with Items := raw.map (fun l => l.map GoString.ofChars) } := by
    intro fuel o rest ho
    have hf : decodeField keyItems
        (appendItems (raw.map (fun l => l.map GoString.ofChars)) ++ ',' :: rest) o =
        some ({ o with Items := raw.map (fun l => l.map GoString.ofChars) }, ',' :: rest) := by
      have hk1 : ¬ keyItems = keyID := by decide
      have hk2 : ¬ keyItems = keyCustomerID := by decide
      simp only [decodeField, hk1, hk2, if_false, if_true, parseItems_appendItems]
      cases raw with
      | none =>
        simp only [Option.map_none']
        rw [← ho]
      | some l => simp only [Option.map_some']
    obtain ⟨d, r, hd, hsp⟩ := appendItems_head (raw.map (fun l => l.map GoString.ofChars))
    have hv : skipWs (appendItems (raw.map (fun l => l.map GoString.ofChars)) ++ ',' :: rest) =
        appendItems (raw.map (fun l => l.map GoString.ofChars)) ++ ',' :: rest := by
      rw [hd]
      exact skipWs_cons _ _ hsp
    rw [decodeMembers_member fuel keyItems _ ',' rest o _ hv hf (by decide)]
    simp only [if_true]
  have h2 : ∀ fuel (o : OrderValue) (rest : List Char),
      decodeMembers (fuel + 1) (appendKey keyCustomerID ++
        (appendString (GoString.ofChars C) ++ ',' :: rest)) o =
      decodeMembers fuel rest { o with CustomerID := GoString.ofChars C } := by
    intro fuel o rest
    have hf : decodeField keyCustomerID (appendString (GoString.ofChars C) ++ ',' :: rest) o =
        some ({ o with CustomerID := GoString.ofChars C }, ',' :: rest) := by
      have hk1 : ¬ keyCustomerID = keyID := by decide
      simp only [decodeField, hk1, if_false, if_true, decodeString_appendString]
    rw [decodeMembers_member fuel keyCustomerID _ ',' rest o _
      (skipWs_appendString _ _) hf (by decide)]
    simp only [if_true]
  have h1 : ∀ fuel (o : OrderValue) (rest : List Char),
      decodeMembers (fuel + 1) (appendKey keyID ++
        (appendString (GoString.ofChars I) ++ ',' :: rest)) o =
      decodeMembers fuel rest { o with ID := GoString.ofChars I } := by
    intro fuel o rest
    have hf : decodeField keyID (appendString (GoString.ofChars I) ++ ',' :: rest) o =
        some ({ o with ID := GoString.ofChars I }, ',' :: rest) := by
      simp only [decodeField, if_true, decodeString_appendString]
    rw [decodeMembers_member fuel keyID _ ',' rest o _
      (skipWs_appendString _ _) hf (by decide)]
    simp only [if_true]
  -- the whole document
  have hbody : ∀ fuel, decodeMembers (fuel + 5)
      (appendKey keyID ++ (appendString (GoString.ofChars I) ++ ',' ::
        (appendKey keyCustomerID ++ (appendString (GoString.ofChars C) ++ ',' ::
        (appendKey keyItems ++ (appendItems (raw.map (fun l => l.map GoString.ofChars)) ++ ',' ::
        (appendKey keyTotalCents ++ (AppendInt TotalCents ++ ',' ::
        (appendKey keyCreatedAt ++
          ((quote :: (appendFormatRFC3339 CreatedAt ++ [quote])) ++ ['}'])))))))))) zeroOrder =
      some ({ ID := GoString.ofChars I, CustomerID := GoString.ofChars C,
              Items := raw.map (fun l => l.map GoString.ofChars), TotalCents := TotalCents,
              CreatedAt := CreatedAt }, []) := by
    intro fuel
    rw [h1 (fuel + 4), h2 (fuel + 3), h3 (fuel + 2) _ _ rfl, h4 (fuel + 1), h5 fuel _ rfl]
  have hM : MarshalOrder
      { ID := GoString.ofChars I, CustomerID := GoString.ofChars C,
        Items := raw.map (fun l => l.map GoString.ofChars), TotalCents := TotalCents,
        CreatedAt := CreatedAt } =
      .ok ('{' :: (appendKey keyID ++ (appendString (GoString.ofChars I) ++ ',' ::
        (appendKey keyCustomerID ++ (appendString (GoString.ofChars C) ++ ',' ::
        (appendKey keyItems ++ (appendItems (raw.map (fun l => l.map GoString.ofChars)) ++ ',' ::
        (appendKey keyTotalCents ++ (AppendInt TotalCents ++ ',' ::
        (appendKey keyCreatedAt ++
          ((quote :: (appendFormatRFC3339 CreatedAt ++ [quote])) ++ ['}']))))))))))) := by
    simp only [MarshalOrder, htm.1]
  refine ⟨_, hM, ?_⟩
  have hlen : 5 ≤ (appendKey keyID ++ (appendString (GoString.ofChars I) ++ ',' ::
        (appendKey keyCustomerID ++ (appendString (GoString.ofChars C) ++ ',' ::
        (appendKey keyItems ++ (appendItems (raw.map (fun l => l.map GoString.ofChars)) ++ ',' ::
        (appendKey keyTotalCents ++ (AppendInt TotalCents ++ ',' ::
        (appendKey keyCreatedAt ++
          ((quote :: (appendFormatRFC3339 CreatedAt ++ [quote])) ++ ['}'])))))))))).length := by
    have hkey : (appendKey keyID).length = 5 := rfl
    rw [List.length_append, hkey]
    omega
  obtain ⟨k, hk⟩ : ∃ k, (appendKey keyID ++ (appendString (GoString.ofChars I) ++ ',' ::
        (appendKey keyCustomerID ++ (appendString (GoString.ofChars C) ++ ',' ::
        (appendKey keyItems ++ (appendItems (raw.map (fun l => l.map GoString.ofChars)) ++ ',' ::
        (appendKey keyTotalCents ++ (AppendInt TotalCents ++ ',' ::
        (appendKey keyCreatedAt ++
          ((quote :: (appendFormatRFC3339 CreatedAt ++ [quote])) ++ ['}'])))))))))).length =
        k + 5 := ⟨_, (Nat.sub_add_cancel hlen).symm⟩
  exact UnmarshalOrder_object _ _ _ k rfl hk (hbody k)

/-- C12, as the code has it. An order whose strings are valid UTF-8 and whose
creation time has a year from 0 to 9999 and a zone offset of whole minutes
below twenty-four hours is serialized by `json.Marshal` without error, and
`json.Unmarshal` of that text gives the order back, equal in its five fields
(the creation time as calendar reading and zone offset). The bounds on the
total and the well-formed calendar reading hold of every `int64` and every
`time.Time`. -/
theorem Order_json_roundtrip (o : OrderValue)
    (hID : o.ID.valid) (hCustomer : o.CustomerID.valid)
    (hItems : ∀ l, o.Items = some l → ∀ s ∈ l, GoString.valid s)
    (hmin : int64Min ≤ o.TotalCents) (hmax : o.TotalCents ≤ int64Max)
    (hw : o.CreatedAt.wellFormed) (hy0 : 0 ≤ o.CreatedAt.year) (hy1 : o.CreatedAt.year ≤ 9999)
    (hoff : o.CreatedAt.offset % 60 = 0) (hhr : o.CreatedAt.offset.natAbs / 60 / 60 < 24) :
    ∃ data, Marshal o = .ok data ∧ Unmarshal data = .ok o := by
  obtain ⟨text, hm, hu⟩ :=
    UnmarshalOrder_MarshalOrder o hID hCustomer hItems hmin hmax hw hy0 hy1 hoff hhr
  refine ⟨String.mk text, ?_, ?_⟩
  · simp only [Marshal, hm]
  · exact hu

/-- C12, at a sample order with a fraction of a second and a zone three hours
west of UTC: the text `json.Marshal` writes reads back as the order. -/
theorem Order_json_roundtrip_witness :
    ∃ data, Marshal (sample.orderValue (GoString.ofChars ['o', '1'])
        (sample.timeValue 2024 120000000 (-10800))) = .ok data ∧
      Unmarshal data = .ok (sample.orderValue (GoString.ofChars ['o', '1'])
        (sample.timeValue 2024 120000000 (-10800))) :=
  Order_json_roundtrip
    (sample.orderValue (GoString.ofChars ['o', '1']) (sample.timeValue 2024 120000000 (-10800)))
    (by decide) (by decide) (by intro l hl; cases hl; decide) (by decide) (by decide)
    (by decide) (by decide) (by decide) (by decide) (by decide)

/-- C12, as stated, fails. An order whose identifier is the one byte `0xff`,
which is not valid UTF-8, is written with the escape of U+FFFD and reads back
with the identifier U+FFFD, another string. An order created in the year 10000
is not serialized at all: `json.Marshal` returns an error. An order whose
creation time has a zone offset of thirty seconds is written with the zone
`+00:00` and reads back with offset zero, thirty seconds away from the
original. -/
theorem Order_json_roundtrip_counterexample :
    (Marshal (sample.orderValue [Piece.invalid 0xff] (sample.timeValue 2024 0 0)) =
        .ok "\x7b\"id\":\"\\ufffd\",\"customer_id\":\"alice\",\"items\":[\"pen\"],\"total_cents\":500,\"created_at\":\"2024-01-02T03:04:05Z\"\x7d" ∧
      Unmarshal "\x7b\"id\":\"\\ufffd\",\"customer_id\":\"alice\",\"items\":[\"pen\"],\"total_cents\":500,\"created_at\":\"2024-01-02T03:04:05Z\"\x7d" =
        .ok (sample.orderValue [Piece.rune replacementChar] (sample.timeValue 2024 0 0)) ∧
      sample.orderValue [Piece.rune replacementChar] (sample.timeValue 2024 0 0) ≠
        sample.orderValue [Piece.invalid 0xff] (sample.timeValue 2024 0 0)) ∧
    Marshal (sample.orderValue (GoString.ofChars ['o', '1']) (sample.timeValue 10000 0 0)) =
      .error (.wrapf "json: error calling MarshalJSON for type time.Time"
        (.external "Time.MarshalJSON: year outside of range [0,9999]")) ∧
    (Marshal (sample.orderValue (GoString.ofChars ['o', '1']) (sample.timeValue 2024 0 30)) =
        .ok "\x7b\"id\":\"o1\",\"customer_id\":\"alice\",\"items\":[\"pen\"],\"total_cents\":500,\"created_at\":\"2024-01-02T03:04:05+00:00\"\x7d" ∧
      Unmarshal "\x7b\"id\":\"o1\",\"customer_id\":\"alice\",\"items\":[\"pen\"],\"total_cents\":500,\"created_at\":\"2024-01-02T03:04:05+00:00\"\x7d" =
        .ok (sample.orderValue (GoString.ofChars ['o', '1']) (sample.timeValue 2024 0 0))) :=
  ⟨⟨rfl, rfl, by decide⟩, rfl, rfl, rfl⟩

end json

end KafkaObservability
